import Mathlib

/-!
# EKA2L1: path utilities, properties, window server

A shallow embedding of three parts of the emulator and the proofs of what its
specification says about them:

* the path functions of `src/emu/common/src/path.cpp`.  A `std::string` is a
  `List Char`.  The host macro `WIN32`, which `get_separator` tests at compile
  time, is the parameter `win32` of every function that depends on it;
* the properties of `src/emu/core/src/services/property.cpp`, with the
  property and the kernel passed from call to call;
* the client of the window server of
  `src/emu/epoc/src/services/window/window.cpp`: its objects and handles and
  the decoding of its command buffer.
-/

namespace eka2l1

/-! ## `std::string` primitives used by `path.cpp` -/

/-- The value of `s[i]` for a `std::string`: the character at index `i`, and
the terminating NUL at `i = s.size()`.  (Reading further out is outside what
the C++ standard defines; the embedding keeps on answering NUL there.) -/
def char_at (s : List Char) (i : Nat) : Char :=
  s.getD i '\x00'

/-- The call `s.substr(pos, n)`. -/
def substr (s : List Char) (pos n : Nat) : List Char :=
  (s.drop pos).take n

/-- The call `s.substr(pos)`. -/
def substr_from (s : List Char) (pos : Nat) : List Char :=
  s.drop pos

/-- Scan of `s` for the first character satisfying `p`; `i` is the index of
the head of `s` in the whole string.  `none` stands for `std::string::npos`. -/
def find_index (p : Char → Bool) : List Char → Nat → Option Nat
  | [], _ => none
  | c :: cs, i => if p c then some i else find_index p cs (i + 1)

/-- The call `s.find_first_of(c, pos)` for a single character `c`. -/
def find_first_of (s : List Char) (c : Char) (pos : Nat) : Option Nat :=
  find_index (fun x => x == c) (s.drop pos) pos

/-- The call `s.find_first_not_of(c)` for a single character `c`. -/
def find_first_not_of (s : List Char) (c : Char) : Option Nat :=
  find_index (fun x => x != c) s 0

/-- The value of `merge.size() - 1` in `size_t` arithmetic for a string of
`n` characters: it wraps around to `SIZE_MAX` when the string is empty. -/
def size_minus_one (n : Nat) : Nat :=
  if n = 0 then 2 ^ 64 - 1 else n - 1

/-! ## The functions of `path.cpp` -/

/-- The function `is_separator` (path.cpp, lines 6-12). -/
def is_separator (sep : Char) : Bool :=
  if sep == '/' || sep == '\\' then true else false

/-- The function `get_separator` (path.cpp, lines 14-24); `win32` says whether the macro
`WIN32` is defined. -/
def get_separator (win32 : Bool) (symbian_use : Bool) : Char :=
  if symbian_use then '\\'
  else if win32 then '\\' else '/'

/-- The `while` loop of `add_path` (path.cpp, lines 63-72): while
`crr_point < merge.size() - 1`, look for the next `dsep` from `crr_point`, leave
the loop when there is none, else overwrite it with `rsep` and step past it.
Every iteration moves `crr_point` forward, so `merge.size()` iterations are
enough; `fuel` counts them.  The `int crr_point` of the source holds every
index of a string shorter than `2 ^ 31` characters, and `npos` stored in it
still compares equal to `npos`; both are natural numbers here. -/
def replace_loop (rsep dsep : Char) : Nat → List Char → Nat → List Char
  | 0, merge, _ => merge
  | fuel + 1, merge, crr_point =>
    if crr_point < size_minus_one merge.length then
      match find_first_of merge dsep crr_point with
      | none => merge
      | some found => replace_loop rsep dsep fuel (merge.set found rsep) (found + 1)
    else merge

/-- The character `dsep` of `add_path` (path.cpp, lines 56-61): the separator
that is not the one `get_separator` gives. -/
def alternate_separator (win32 : Bool) (symbian_use : Bool) : Char :=
  if get_separator win32 symbian_use == '\\' then '/' else '\\'

/-- The second half of `add_path` (path.cpp, lines 55-74): the choice of
`rsep` and `dsep` and the rewriting loop over `merge`, started at
`crr_point = 0`. -/
def rewrite_separators (win32 : Bool) (merge : List Char) (symbian_use : Bool) : List Char :=
  let rsep := get_separator win32 symbian_use
  let dsep := alternate_separator win32 symbian_use
  replace_loop rsep dsep merge.length merge 0

/-- The function `add_path` (path.cpp, lines 30-75).  For an empty `path1` the source reads
`path1[path1.size() - 1]` out of bounds; the embedding answers NUL there, as
`char_at` does. -/
def add_path (win32 : Bool) (path1 path2 : List Char) (symbian_use : Bool) : List Char :=
  let end_sep := is_separator (char_at path1 (path1.length - 1))
  let beg_sep := is_separator (char_at path2 0)
  if end_sep && beg_sep then
    match find_first_not_of path2 (char_at path2 0) with
    | none => path1
    | some pos_sub =>
      rewrite_separators win32 (path1 ++ substr_from path2 pos_sub) symbian_use
  else if !end_sep && !beg_sep then
    rewrite_separators win32 (path1 ++ ('/' :: path2)) symbian_use
  else
    rewrite_separators win32 (path1 ++ path2) symbian_use

/-- The function `root_name` (path.cpp, lines 133-152).  `strncmp(&path[1], ":", 1) == 0`
compares the single character `path[1]` with `':'`. -/
def root_name (win32 : Bool) (path : List Char) (symbian_use : Bool) : List Char :=
  let has_drive := char_at path 1 == ':'
  let has_net := is_separator (char_at path 0) && (char_at path 0 == char_at path 1)
  if has_drive then substr path 0 2
  else if has_net then
    match find_first_of path (get_separator win32 symbian_use) 2 with
    | none => []
    | some res => substr path 0 res
  else []

/-- The function `root_dir` (path.cpp, lines 158-182). -/
def root_dir (win32 : Bool) (path : List Char) (symbian_use : Bool) : List Char :=
  let has_drive := char_at path 1 == ':'
  let has_net := is_separator (char_at path 0) && (char_at path 0 == char_at path 1)
  if has_drive then
    if decide (path.length > 2) && is_separator (char_at path 2) then substr path 2 1
    else []
  else if has_net then
    match find_first_of path (get_separator win32 symbian_use) 2 with
    | none => []
    | some res => substr path res 1
  else
    if decide (path.length > 1) && is_separator (char_at path 0) then substr path 0 1
    else []

/-- The function `root_path` (path.cpp, lines 188-215). -/
def root_path (win32 : Bool) (path : List Char) (symbian_use : Bool) : List Char :=
  let has_drive := char_at path 1 == ':'
  let has_net := is_separator (char_at path 0) && (char_at path 0 == char_at path 1)
  if has_drive then
    if decide (path.length > 2) && is_separator (char_at path 2) then substr path 0 3
    else substr path 0 2
  else if has_net then
    match find_first_of path (get_separator win32 symbian_use) 2 with
    | none => []
    | some res => substr path 0 res
  else
    if is_separator (char_at path 0) then substr path 0 1
    else []

/-- The function `has_root_name` (path.cpp, lines 129-131). -/
def has_root_name (win32 : Bool) (path : List Char) (symbian_use : Bool) : Bool :=
  !(root_name win32 path symbian_use).isEmpty

/-- The function `has_root_dir` (path.cpp, lines 154-156). -/
def has_root_dir (win32 : Bool) (path : List Char) (symbian_use : Bool) : Bool :=
  !(root_dir win32 path symbian_use).isEmpty

/-- The function `has_root_path` (path.cpp, lines 184-186). -/
def has_root_path (win32 : Bool) (path : List Char) (symbian_use : Bool) : Bool :=
  !(root_path win32 path symbian_use).isEmpty

/-- The function `relative_path` (path.cpp, lines 123-127). -/
def relative_path (win32 : Bool) (str : List Char) (symbian_use : Bool) : List Char :=
  let root := root_path win32 str symbian_use
  substr_from str root.length

/-- The function `is_relative` (path.cpp, lines 119-121). -/
def is_relative (win32 : Bool) (str : List Char) (symbian_use : Bool) : Bool :=
  !(relative_path win32 str symbian_use).isEmpty

/-- The function `absolute_path` (path.cpp, lines 77-117), without its output to
`std::cout`.  The tests are kept in the order of the source. -/
def absolute_path (win32 : Bool) (str current_dir : List Char) (symbian_use : Bool) :
    List Char :=
  let root_dirb := has_root_dir win32 str symbian_use
  let root_drive := has_root_name win32 str symbian_use
  if root_dirb then str
  else if !root_dirb && !root_drive then
    add_path win32 current_dir str symbian_use
  else if !root_drive && root_dirb then
    let n_root_drive := root_name win32 current_dir symbian_use
    add_path win32 n_root_drive str symbian_use
  else if root_drive && !root_dirb then
    let root_drive_p := root_name win32 str symbian_use
    let root_dir_n := root_dir win32 current_dir symbian_use
    let relative_path_n := relative_path win32 current_dir symbian_use
    let relative_path_p := relative_path win32 str symbian_use
    add_path win32
      (add_path win32 (add_path win32 root_drive_p root_dir_n symbian_use)
        relative_path_n symbian_use)
      relative_path_p symbian_use
  else []

/-- The function `is_absolute` (path.cpp, lines 26-28). -/
def is_absolute (win32 : Bool) (str current_dir : List Char) (symbian_use : Bool) : Bool :=
  absolute_path win32 str current_dir symbian_use == str

/-! ## Vocabulary of the specification -/

/-- A path with every separator replaced by the canonical separator of the
mode: the form in which the specification compares paths "modulo separator
canonicalization". -/
def canonical (win32 : Bool) (s : List Char) (symbian_use : Bool) : List Char :=
  s.map (fun c => if is_separator c then get_separator win32 symbian_use else c)

/-- A drive-rooted path: its second character is `':'` and its third one a
separator, as in `C:\data`. -/
def drive_rooted (s : List Char) : Prop :=
  char_at s 1 = ':' ∧ is_separator (char_at s 2) = true

instance (s : List Char) : Decidable (drive_rooted s) := by
  unfold drive_rooted; infer_instance

/-- The character `new` stands where `old` stood before the separators were
rewritten: it is `old` itself, or the canonical separator written over the
alternate one. -/
def rewritten_from (win32 symbian_use : Bool) (old new : Char) : Prop :=
  new = old ∨
    (old = alternate_separator win32 symbian_use ∧ new = get_separator win32 symbian_use)

instance (win32 symbian_use : Bool) (old new : Char) :
    Decidable (rewritten_from win32 symbian_use old new) := by
  unfold rewritten_from; infer_instance

end eka2l1

namespace eka2l1.service

/-! ## Properties (`src/emu/core/src/services/property.cpp`) -/

/-- Modelled from the spec: the enumeration `service::property_type`, declared
in `services/property.h`, which is not among the sources.  `property.cpp` names
its enumerator `int_data`; the other kind of the typed cell of the
specification is the byte array. -/
inductive property_type
  | int_data
  | bin_data
  deriving DecidableEq

/-- Modelled from the spec: the kernel (`core_kernel.h`, not among the
sources) as far as a property uses it.  `notify_prop(pair)` tells the
subscribers of the pair (category, key); the embedding keeps the pairs it was
called with, oldest first. -/
structure kernel_system where
  notified : List (Int × Int)
  deriving DecidableEq

/-- The call `kern->notify_prop(pair)`. -/
def kernel_system.notify_prop (kern : kernel_system) (pair : Int × Int) : kernel_system :=
  { kern with notified := kern.notified ++ [pair] }

/-- Modelled from the spec: the data members of `service::property` that
`property.cpp` uses; the class is declared in `services/property.h`, which is
not among the sources.  `first` and `second` are the pair (category, key) given
to `notify_prop`; `ndata` and `bindata` are `data.ndata` and `data.bindata`, the
int and the byte array of the typed cell, each with a place of its own here;
`data_len` and `bin_data_len` are `uint32_t`, `ndata` is an `int`, a byte is a
natural number. -/
structure property where
  first : Int
  second : Int
  data_type : property_type
  data_len : Nat
  ndata : Int
  bindata : List Nat
  bin_data_len : Nat
  deriving DecidableEq

/-- The call `memcpy(dst, src, n)` on byte arrays that both hold at least `n`
bytes: the first `n` bytes of `dst` become those of `src`. -/
def memcpy (dst src : List Nat) (n : Nat) : List Nat :=
  src.take n ++ dst.drop n

/-- The constructor `property::property` (property.cpp, lines 28-37).  The
members it does not set keep the value they have in `uninit`. -/
def property_new (pt : property_type) (pre_allocated : Nat) (uninit : property) : property :=
  let p := { uninit with data_type := pt, data_len := pre_allocated }
  if pre_allocated > 512 then { p with data_len := 512 } else p

/-- The function `property::notify_request` (property.cpp, lines 80-82). -/
def property.notify_request (p : property) (kern : kernel_system) : kernel_system :=
  kern.notify_prop (p.first, p.second)

/-- The function `property::set(int)` (property.cpp, lines 39-48): its result,
the property and the kernel after the call. -/
def property.set_int (p : property) (kern : kernel_system) (val : Int) :
    Bool × property × kernel_system :=
  if p.data_type = property_type.int_data then
    let p1 := { p with ndata := val }
    (true, p1, p1.notify_request kern)
  else
    (false, p, kern)

/-- The function `property::set(uint8_t *, uint32_t)` (property.cpp, lines
50-61); `bdata` is the memory at the pointer, at least `arr_length` bytes. -/
def property.set_bin (p : property) (kern : kernel_system) (bdata : List Nat)
    (arr_length : Nat) : Bool × property × kernel_system :=
  if arr_length > p.data_len then
    (false, p, kern)
  else
    let p1 := { p with bindata := memcpy p.bindata bdata arr_length }
    let p2 := { p1 with bin_data_len := arr_length }
    (true, p2, p2.notify_request kern)

/-- The function `property::get_int` (property.cpp, lines 63-69): its result,
the property and the kernel after the call. -/
def property.get_int (p : property) (kern : kernel_system) : Int × property × kernel_system :=
  if p.data_type ≠ property_type.int_data then
    (-1, p, kern)
  else
    (p.ndata, p, kern)

/-- The function `property::get_bin` (property.cpp, lines 71-78): `local` is
resized to `bin_data_len` zero bytes and filled from `data.bindata`. -/
def property.get_bin (p : property) (kern : kernel_system) :
    List Nat × property × kernel_system :=
  let local_ := List.replicate p.bin_data_len 0
  (memcpy local_ p.bindata p.bin_data_len, p, kern)

end eka2l1.service

namespace eka2l1.epoc

/-! ## The window server (`src/emu/epoc/src/services/window/window.cpp`)

Every object of a client is made by `std::make_shared` and given to
`add_object`, which stores the pointer in `objects` and never removes one.  A
shared pointer to an object is therefore the index of the object in `objects`
(for an object on its way to `add_object`, the index it is about to get), and
`none` is the null pointer. -/

/-- The constant `base_handle` (window.cpp, lines 37-39). -/
def base_handle : Nat := 0x40000000

/-- Conversion of an unsigned value to `std::uint32_t`. -/
def to_uint32 (n : Nat) : Nat := n % 2 ^ 32

/-- Conversion of an unsigned value to `std::uint16_t`. -/
def to_uint16 (n : Nat) : Nat := n % 2 ^ 16

/-- The value of a `std::uint32_t` read as an `int`. -/
def to_int32 (n : Nat) : Int :=
  if n % 2 ^ 32 < 2 ^ 31 then (n % 2 ^ 32 : Nat) else (n % 2 ^ 32 : Nat) - 2 ^ 32

/-- The enumeration `window_type` (window.h, lines 77-82). -/
inductive window_type
  | normal
  | group
  | top_client
  | client
  deriving DecidableEq

/-- The data members that `epoc::window` adds to `window_client_obj`
(window.h, lines 144-152); `window_group` adds none.  The member `id` declared
here hides `window_client_obj::id`; no constructor of `window` sets it, nor
`priority`. -/
structure window where
  childs : List Nat
  dvc : Option Nat
  parent : Option Nat
  priority : Nat
  id : Nat
  type : window_type
  deriving DecidableEq

/-- The dynamic type of a client object with the data members of that type:
`window` (or `window_group`), `screen_device`, `graphic_context`
(`attached_window`) and `sprite` (`attached_window`, `position`), from
window.h, lines 144-238.  The driver of a screen device is outside the client
and has no place here. -/
inductive client_obj_kind
  | window (w : window)
  | screen_device
  | graphic_context (attached_window : Option Nat)
  | sprite (attached_window : Option Nat) (position : Int × Int)
  deriving DecidableEq

/-- The structure `window_client_obj` (window.h, lines 130-139) with the part
that its dynamic type adds; the back pointer `client` is the client that holds
the object. -/
structure window_client_obj where
  id : Nat
  kind : client_obj_kind
  deriving DecidableEq

/-- The data members of the class `window_server_client` (window.h, lines
245-250); `guest_session` is the value of `guest_session->unique_id()`. -/
structure window_server_client where
  guest_session : Nat
  objects : List window_client_obj
  primary_device : Option Nat
  root : Option Nat
  deriving DecidableEq

/-- The structure `ws_cmd_window_group_header` (window.h, lines 44-49). -/
structure ws_cmd_window_group_header where
  client_handle : Nat
  focus : Bool
  parent_id : Nat
  screen_device_handle : Nat
  deriving DecidableEq

/-- The structure `ws_cmd_create_sprite_header` (window.h, lines 51-55). -/
structure ws_cmd_create_sprite_header where
  window_handle : Int
  base_pos : Int × Int
  flags : Int
  deriving DecidableEq

/-- The object a pointer points to. -/
def deref (c : window_server_client) (ptr : Option Nat) : Option window_client_obj :=
  match ptr with
  | none => none
  | some i => c.objects[i]?

/-- The window a pointer points to, when it points to a window. -/
def window_at (c : window_server_client) (ptr : Nat) : Option window :=
  match c.objects[ptr]? with
  | some ⟨_, client_obj_kind.window w⟩ => some w
  | _ => none

/-- The cast `std::dynamic_pointer_cast<epoc::window>(ptr)`. -/
def cast_window (c : window_server_client) (ptr : Option Nat) : Option Nat :=
  match ptr with
  | none => none
  | some i => if (window_at c i).isSome then some i else none

/-- The cast `std::dynamic_pointer_cast<epoc::screen_device>(ptr)`. -/
def cast_screen_device (c : window_server_client) (ptr : Option Nat) : Option Nat :=
  match ptr with
  | none => none
  | some i =>
    match c.objects[i]? with
    | some ⟨_, client_obj_kind.screen_device⟩ => some i
    | _ => none

/-- The constructor `window_client_obj::window_client_obj` (window.cpp, lines
41-44) for an object of dynamic type `kind`. -/
def window_client_obj_new (client : window_server_client) (kind : client_obj_kind) :
    window_client_obj :=
  { id := to_uint32 (client.objects.length + base_handle + 1), kind := kind }

/-- The constructors of `window` and `window_group` (window.h, lines 178-191
and 208-210): `childs` is empty and `parent` null; `priority` and the hiding
`id` are not initialised and have the values `uninit_priority`, `uninit_id`. -/
def window_new (client : window_server_client) (type : window_type) (dvc : Option Nat)
    (uninit_priority uninit_id : Nat) : window_client_obj :=
  window_client_obj_new client
    (client_obj_kind.window
      { childs := [], dvc := dvc, parent := none, priority := uninit_priority,
        id := uninit_id, type := type })

/-- The function `window_server_client::add_object` (window.cpp, lines
174-179): the handle it returns and the client after the call. -/
def add_object (c : window_server_client) (obj : window_client_obj) :
    Nat × window_server_client :=
  let pushed := c.objects ++ [obj]
  let objects := pushed.modify
    (fun back => { back with id := to_uint32 (base_handle + pushed.length) })
    (pushed.length - 1)
  (to_uint32 (objects.length + base_handle), { c with objects := objects })

/-- The function `window_server_client::get_object` (window.cpp, lines
181-188), without its log line. -/
def get_object (c : window_server_client) (handle : Nat) : Option Nat :=
  if decide (handle ≤ base_handle) || decide (handle - base_handle > c.objects.length) then
    none
  else
    some (handle - 1 - base_handle)

/-- The constructor `window_server_client::window_server_client` (window.cpp,
lines 156-160): the handle that its call of `add_object` returns, and the
client. -/
def window_server_client_init (guest_session : Nat) (uninit_priority uninit_id : Nat) :
    Nat × window_server_client :=
  let this : window_server_client :=
    { guest_session := guest_session, objects := [], primary_device := none, root := none }
  let added := add_object this (window_new this window_type.normal none uninit_priority uninit_id)
  let c := added.2
  (added.1, { c with root := cast_window c (some (c.objects.length - 1)) })

/-- The client that the constructor makes. -/
def window_server_client_new (guest_session : Nat) (uninit_priority uninit_id : Nat) :
    window_server_client :=
  (window_server_client_init guest_session uninit_priority uninit_id).2

/-- The function `window_server_client::find_window_obj` (window.cpp, lines
273-291).  `root->id` is the member `id` of `window`.  The recursion follows
`childs`; `fuel` bounds its depth. -/
def find_window_obj (c : window_server_client) : Nat → Nat → Nat → Option Nat
  | 0, _, _ => none
  | fuel + 1, root, id =>
    match window_at c root with
    | none => none
    | some w =>
      if w.id = id then some root
      else if w.childs.length = 0 then none
      else w.childs.findSome? (fun child_win => find_window_obj c fuel child_win id)

/-- The function `window_server_client::init_device` (window.cpp, lines
207-219); `fuel` bounds the depth of the recursion. -/
def init_device : Nat → window_server_client → Nat → window_server_client
  | 0, c, _ => c
  | fuel + 1, c, win =>
    match c.objects[win]? with
    | some ⟨id, client_obj_kind.window w⟩ =>
      let c1 :=
        if w.type = window_type.group then
          if w.dvc.isNone then
            let group_win : window := { w with dvc := c.primary_device }
            { c with objects := c.objects.set win ⟨id, client_obj_kind.window group_win⟩ }
          else c
        else c
      w.childs.foldl (fun acc child_win => init_device fuel acc child_win) c1
    | _ => c

/-- Modelled from the spec: `cp_queue` is declared in `common/queue.h`, which
is not among the sources; `childs.push(group)` adds the pointer to the
children of the window once, here at the end. -/
def push_child (c : window_server_client) (parent child : Nat) : window_server_client :=
  match c.objects[parent]? with
  | some ⟨id, client_obj_kind.window w⟩ =>
    let pushed : window := { w with childs := w.childs ++ [child] }
    { c with objects := c.objects.set parent ⟨id, client_obj_kind.window pushed⟩ }
  | _ => c

/-- The function `window_server_client::create_screen_device` (window.cpp,
lines 190-205): the value given to `set_request_status` and the client after
the call. -/
def create_screen_device (c : window_server_client) : Nat × window_server_client :=
  let device := window_client_obj_new c client_obj_kind.screen_device
  let device_ptr := c.objects.length
  let c1 := if c.primary_device.isNone then { c with primary_device := some device_ptr } else c
  let c2 :=
    match c1.root with
    | none => c1
    | some root => init_device (c1.objects.length + 1) c1 root
  add_object c2 device

/-- The function `window_server_client::create_window_group` (window.cpp,
lines 227-251) for the header that `cmd.data_ptr` points to: the value given to
`set_request_status` and the client after the call. -/
def create_window_group (c : window_server_client) (header : ws_cmd_window_group_header)
    (uninit_priority uninit_id : Nat) : Nat × window_server_client :=
  let device_handle : Int := to_int32 header.screen_device_handle
  let device_ptr :=
    if device_handle ≤ 0 then c.primary_device
    else cast_screen_device c (get_object c (to_uint32 device_handle.toNat))
  let group := window_new c window_type.group device_ptr uninit_priority uninit_id
  let group_ptr := c.objects.length
  let found :=
    match c.root with
    | none => none
    | some root => find_window_obj c (c.objects.length + 1) root header.parent_id
  let parent_group := if found.isNone then c.root else found
  let group1 : window_client_obj :=
    match group.kind with
    | client_obj_kind.window w =>
      { group with kind := client_obj_kind.window { w with parent := parent_group } }
    | _ => group
  let c1 :=
    match parent_group with
    | none => c
    | some parent => push_child c parent group_ptr
  add_object c1 group1

/-- The function `window_server_client::create_graphic_context` (window.cpp,
lines 253-256). -/
def create_graphic_context (c : window_server_client) : Nat × window_server_client :=
  let gcontext := window_client_obj_new c (client_obj_kind.graphic_context none)
  add_object c gcontext

/-- The function `window_server_client::create_sprite` (window.cpp, lines
258-271) for the header that `cmd.data_ptr` points to. -/
def create_sprite (c : window_server_client) (sprite_header : ws_cmd_create_sprite_header) :
    Nat × window_server_client :=
  let win :=
    if sprite_header.window_handle ≤ 0 then c.root
    else cast_window c (get_object c (to_uint32 sprite_header.window_handle.toNat))
  let spr := window_client_obj_new c (client_obj_kind.sprite win sprite_header.base_pos)
  add_object c spr

/-- The function `graphic_context::active` (window.cpp, lines 80-87) on the
graphic context that `gc` points to, for the handle read at `cmd.data_ptr`:
the value given to `set_request_status`, which is `attached_window->dvc->id`
(`none` where a pointer on the way is null), and the client after the call. -/
def graphic_context_active (c : window_server_client) (gc : Nat)
    (window_to_attach_handle : Nat) : Option Nat × window_server_client :=
  match c.objects[gc]? with
  | some ⟨id, client_obj_kind.graphic_context _⟩ =>
    let attached_window := cast_window c (get_object c window_to_attach_handle)
    let attached : window_client_obj := ⟨id, client_obj_kind.graphic_context attached_window⟩
    let c1 := { c with objects := c.objects.set gc attached }
    let status :=
      match attached_window with
      | none => none
      | some win =>
        match window_at c1 win with
        | none => none
        | some w =>
          match deref c1 w.dvc with
          | none => none
          | some device => some device.id
    (status, c1)
  | _ => (none, c)

/-- The client after `n` further calls of `create_graphic_context`. -/
def create_graphic_contexts : Nat → window_server_client → window_server_client
  | 0, c => c
  | n + 1, c => (create_graphic_context (create_graphic_contexts n c)).2

/-- The states of a client that its member functions reach from the
constructor, each with the handles that the calls of `add_object` returned on
the way, oldest first. -/
inductive reachable : window_server_client → List Nat → Prop
  | construct (guest_session uninit_priority uninit_id : Nat) :
    reachable (window_server_client_init guest_session uninit_priority uninit_id).2
      [(window_server_client_init guest_session uninit_priority uninit_id).1]
  | screen_device {c : window_server_client} {handles : List Nat} :
    reachable c handles →
    reachable (create_screen_device c).2 (handles ++ [(create_screen_device c).1])
  | window_group {c : window_server_client} {handles : List Nat}
      (header : ws_cmd_window_group_header) (uninit_priority uninit_id : Nat) :
    reachable c handles →
    reachable (create_window_group c header uninit_priority uninit_id).2
      (handles ++ [(create_window_group c header uninit_priority uninit_id).1])
  | graphic_context {c : window_server_client} {handles : List Nat} :
    reachable c handles →
    reachable (create_graphic_context c).2 (handles ++ [(create_graphic_context c).1])
  | sprite {c : window_server_client} {handles : List Nat}
      (sprite_header : ws_cmd_create_sprite_header) :
    reachable c handles →
    reachable (create_sprite c sprite_header).2
      (handles ++ [(create_sprite c sprite_header).1])
  | active {c : window_server_client} {handles : List Nat} (gc window_to_attach_handle : Nat) :
    reachable c handles →
    reachable (graphic_context_active c gc window_to_attach_handle).2 handles


/-! ## The command buffer of the window server -/

/-- The structure `ws_cmd_header` (window.h, lines 27-30). -/
structure ws_cmd_header where
  op : Nat
  cmd_len : Nat
  deriving DecidableEq

/-- The structure `ws_cmd` (window.h, lines 32-37); `data_ptr` is the offset in
the command buffer that the pointer points to. -/
structure ws_cmd where
  header : ws_cmd_header
  obj_handle : Nat
  data_ptr : Nat
  deriving DecidableEq

/-- The byte at offset `i` of the buffer; an offset outside the buffer is
outside what the C++ standard defines, and the embedding reads 0 there. -/
def byte_at (buf : List Nat) (i : Nat) : Nat :=
  buf.getD i 0 % 256

/-- The `uint16_t` that `reinterpret_cast` reads at offset `off` (the host is
little-endian). -/
def read_uint16 (buf : List Nat) (off : Nat) : Nat :=
  byte_at buf off + 256 * byte_at buf (off + 1)

/-- The `std::uint32_t` that `reinterpret_cast` reads at offset `off`. -/
def read_uint32 (buf : List Nat) (off : Nat) : Nat :=
  byte_at buf off + 256 * byte_at buf (off + 1) + 65536 * byte_at buf (off + 2) +
    16777216 * byte_at buf (off + 3)

/-- The variables of the loop of `parse_command_buffer`: the commands pushed
so far and the cursor `beg` as an offset in the buffer; `in_bounds` records
whether every byte read so far lay inside the buffer. -/
structure parse_state where
  cmds : List ws_cmd
  beg : Nat
  in_bounds : Bool
  deriving DecidableEq

/-- The loop of `window_server_client::parse_command_buffer` (window.cpp,
lines 133-151) over the buffer `buf`.  `cmd.obj_handle` is not initialised
when bit 15 of `op` is clear; `uninit_handle beg` is the value it then has for
the command at offset `beg`.  Every iteration moves `beg` forward by 4 bytes or
more, so `buf.size()` iterations are enough; `fuel` counts them. -/
def parse_loop (uninit_handle : Nat → Nat) (buf : List Nat) :
    Nat → parse_state → parse_state
  | 0, st => st
  | fuel + 1, st =>
    if st.beg < buf.length then
      let op := read_uint16 buf st.beg
      let cmd_len := read_uint16 buf (st.beg + 2)
      if op &&& 0x8000 ≠ 0 then
        let cmd : ws_cmd :=
          { header := { op := to_uint16 (op &&& 0xFFFF7FFF), cmd_len := cmd_len },
            obj_handle := read_uint32 buf (st.beg + 4),
            data_ptr := st.beg + 8 }
        parse_loop uninit_handle buf fuel
          { cmds := st.cmds ++ [cmd],
            beg := st.beg + 8 + cmd_len,
            in_bounds := st.in_bounds && decide (st.beg + 8 ≤ buf.length) }
      else
        let cmd : ws_cmd :=
          { header := { op := op, cmd_len := cmd_len },
            obj_handle := uninit_handle st.beg,
            data_ptr := st.beg + 4 }
        parse_loop uninit_handle buf fuel
          { cmds := st.cmds ++ [cmd],
            beg := st.beg + 4 + cmd_len,
            in_bounds := st.in_bounds && decide (st.beg + 4 ≤ buf.length) }
    else st

/-- The decoding part of `parse_command_buffer` (window.cpp, lines 128-151):
the loop run from `beg = dat->data()` with no command yet. -/
def parse_cmds (uninit_handle : Nat → Nat) (buf : List Nat) : parse_state :=
  parse_loop uninit_handle buf buf.length { cmds := [], beg := 0, in_bounds := true }

/-! ### The wire format as the specification words it -/

/-- A command as a client puts it on the wire: `op` with its bit 15, the
handle that follows the header when bit 15 is set, and the payload bytes. -/
structure wire_cmd where
  op : Nat
  obj_handle : Nat
  payload : List Nat
  deriving DecidableEq

/-- The two bytes of a `u16`, little-endian. -/
def le16 (n : Nat) : List Nat :=
  [n % 256, n / 256 % 256]

/-- The four bytes of a `u32`, little-endian. -/
def le32 (n : Nat) : List Nat :=
  [n % 256, n / 256 % 256, n / 65536 % 256, n / 16777216 % 256]

/-- The encoding of one command by the wire format of the specification:
`u16 op`, `u16 cmd_len`, then a `u32` handle when bit 15 of `op` is set, then
`cmd_len` payload bytes. -/
def encode_cmd (w : wire_cmd) : List Nat :=
  le16 w.op ++ le16 w.payload.length ++
    (if w.op &&& 0x8000 ≠ 0 then le32 w.obj_handle else []) ++ w.payload

/-- The buffer made of the encodings of the commands, one after the other. -/
def encode_cmds (ws : List wire_cmd) : List Nat :=
  ws.flatMap encode_cmd

/-- A command that fits the wire format: `op` and the payload length are
`u16`, the handle is a `u32`. -/
def wire_cmd.well_formed (w : wire_cmd) : Prop :=
  w.op < 2 ^ 16 ∧ w.payload.length < 2 ^ 16 ∧ w.obj_handle < 2 ^ 32

/-- The decoded command `d` stands for the wire command `w` in the buffer
`buf`: `op` is the wire `op` with bit 15 cleared, `cmd_len` is the length of
the payload, `obj_handle` is the wire handle when bit 15 was set, and
`data_ptr` points to the first of the `cmd_len` payload bytes. -/
def decodes (buf : List Nat) (d : ws_cmd) (w : wire_cmd) : Prop :=
  d.header.op = w.op % 2 ^ 15 ∧
  d.header.cmd_len = w.payload.length ∧
  (w.op &&& 0x8000 ≠ 0 → d.obj_handle = w.obj_handle) ∧
  (buf.drop d.data_ptr).take d.header.cmd_len = w.payload ∧
  d.data_ptr + d.header.cmd_len ≤ buf.length

/-! ## Executing the commands of the window server -/

/-- Modelled from the spec: the opcode enumerations of
`epoc/services/window/op.h` are not among the sources, and the specification
names the opcodes without giving their numbers.  The enumerators that
window.cpp uses are the fields; every statement about the code holds for
whatever numbers they have. -/
structure ws_opcodes where
  EWsClOpCreateScreenDevice : Nat
  EWsClOpCreateWindowGroup : Nat
  EWsClOpRestoreDefaultHotKey : Nat
  EWsClOpCreateGc : Nat
  EWsClOpCreateSprite : Nat
  EWsClOpEventReady : Nat
  EWsClOpGetFocusWindowGroup : Nat
  EWsClOpRedrawReady : Nat
  EWsSdOpPixelSize : Nat
  EWsSdOpTwipsSize : Nat
  EWsGcOpActivate : Nat
  EWservMessAsynchronousService : Nat
  deriving DecidableEq

/-- Modelled from the spec: `KErrNone` is declared in `e32err.h`, which is not
among the sources; the specification gives `KErrNone=0`. -/
def KErrNone : Int := 0

/-- The enumerators `cmd_slot` and `reply_slot` (window.h, lines 19-22). -/
def cmd_slot : Nat := 0

/-- The enumerator `reply_slot` (window.h, line 21). -/
def reply_slot : Nat := 1

/-- Modelled from the spec: `service::ipc_context` is declared in
`core/services/context.h`, which is not among the sources.  The part of it
that window.cpp uses: `function` is the bit pattern of `msg->function`,
`cmd_arg` what `get_arg<std::string>(cmd_slot)` returns, `request_status` the
values given to `set_request_status` so far, oldest first, and `written` the
slots and values given to `write_arg_pkg<vec2>` so far. -/
structure ipc_context where
  function : Nat
  cmd_arg : Option (List Nat)
  request_status : List Int
  written : List (Nat × (Int × Int))
  deriving DecidableEq

/-- Modelled from the spec: `ipc_context::set_request_status` completes the
request with the status `res`. -/
def ipc_context.set_request_status (ctx : ipc_context) (res : Int) : ipc_context :=
  { ctx with request_status := ctx.request_status ++ [res] }

/-- Modelled from the spec: `ipc_context::write_arg_pkg<vec2>` writes the
value to the argument slot. -/
def ipc_context.write_arg_pkg (ctx : ipc_context) (slot : Nat) (v : Int × Int) : ipc_context :=
  { ctx with written := ctx.written ++ [(slot, v)] }

/-- Modelled from the spec: `eka2l1::vec2` and its product with an integer
are declared in `common/vecx.h`, which is not among the sources; the
specification defines the twips size as the pixel size times 15, on both
coordinates. -/
def vec2_mul (v : Int × Int) (k : Int) : Int × Int :=
  (v.1 * k, v.2 * k)

/-- The function `screen_device::execute_command` (window.cpp, lines 51-78);
`screen_size` is what `driver->screen_size()` returns. -/
def screen_device_execute_command (ops : ws_opcodes) (screen_size : Int × Int)
    (ctx : ipc_context) (cmd : ws_cmd) : ipc_context :=
  if cmd.header.op = ops.EWsSdOpPixelSize then
    (ctx.write_arg_pkg reply_slot screen_size).set_request_status 0
  else if cmd.header.op = ops.EWsSdOpTwipsSize then
    (ctx.write_arg_pkg reply_slot (vec2_mul screen_size 15)).set_request_status 0
  else ctx

/-- The data member `clients` of the class `window_server` (window.h, lines 282-283): the
clients by the unique id of their session. -/
structure window_server where
  clients : List (Nat × window_server_client)
  deriving DecidableEq

/-- The expression `function & ~flag` on the 32 bits of an `int`. -/
def and_not (function flag : Nat) : Nat :=
  to_uint32 function &&& (to_uint32 flag ^^^ 0xFFFFFFFF)

/-- The function `window_server::on_unhandled_opcode` (window.cpp, lines
348-363), without its log line: the server and the context after the call. -/
def on_unhandled_opcode (ops : ws_opcodes) (server : window_server) (ctx : ipc_context) :
    window_server × ipc_context :=
  if to_uint32 ctx.function &&& to_uint32 ops.EWservMessAsynchronousService ≠ 0 then
    if and_not ctx.function ops.EWservMessAsynchronousService = ops.EWsClOpRedrawReady then
      (server, ctx.set_request_status KErrNone)
    else (server, ctx)
  else (server, ctx)

end eka2l1.epoc

namespace eka2l1

/-! ## The system (`src/emu/epoc/src/epoc.cpp`) -/

/-- Modelled from the spec: a node of the document that `YAML::LoadFile`
returns (yaml-cpp is not part of the repository).  `as_bool` is what
`as<bool>()` returns, `none` when it throws; `elements` holds, for each element
that iterating the node yields, what `as<std::string>()` returns for it. -/
structure yaml_node where
  as_bool : Option Bool
  elements : List (Option String)
  deriving DecidableEq

/-- Modelled from the spec: an entry of the top-level map of the document;
`first` is what `subnode.first.as<std::string>()` returns, `none` when it
throws. -/
structure yaml_entry where
  first : Option String
  second : yaml_node
  deriving DecidableEq

/-- The call `bool_configs.emplace(key, value)` on the
`std::unordered_map<std::string, bool>`: a key that the map holds already keeps
its value. -/
def emplace (m : List (String × Bool)) (key : String) (value : Bool) : List (String × Bool) :=
  if (m.lookup key).isSome then m else m ++ [(key, value)]

/-- The data members of `system_impl` (epoc.cpp, lines 74-117) that
`load_configs`, `get_bool_config` and `loop` use; `parts` is the joint state of
the gdb stub, the kernel, the timing system and the cpu. -/
structure system_impl (σ : Type) where
  parts : σ
  reschedule_pending : Bool
  exit : Bool
  bool_configs : List (String × Bool)
  startup_apps : List String
  force_load_libs : List String

/-- The function `system_impl::get_bool_config` (epoc.cpp, lines 136-138):
`bool_configs[name]` inserts the value `false` for a name that the map does not
hold. -/
def system_impl.get_bool_config {σ : Type} (s : system_impl σ) (name : String) :
    Bool × system_impl σ :=
  match s.bool_configs.lookup name with
  | some value => (value, s)
  | none => (false, { s with bool_configs := s.bool_configs ++ [(name, false)] })

/-- The loop `for (const auto &x : node) dst.push_back(x.as<std::string>())`
of `load_configs`: the vector after the loop and whether a conversion threw. -/
def push_back_all (dst : List String) : List (Option String) → List String × Bool
  | [] => (dst, false)
  | none :: _ => (dst, true)
  | some s :: rest => push_back_all (dst ++ [s]) rest

/-- The loop over the document in `system_impl::load_configs` (epoc.cpp, lines
501-519): the system after the loop, or at the point where a conversion threw,
and whether one threw. -/
def load_entries {σ : Type} (s : system_impl σ) : List yaml_entry → system_impl σ × Bool
  | [] => (s, false)
  | subnode :: rest =>
    match subnode.first with
    | none => (s, true)
    | some key =>
      if key = "startup" then
        let r := push_back_all s.startup_apps subnode.second.elements
        if r.2 then ({ s with startup_apps := r.1 }, true)
        else load_entries { s with startup_apps := r.1 } rest
      else if key = "force_load" then
        let r := push_back_all s.force_load_libs subnode.second.elements
        if r.2 then ({ s with force_load_libs := r.1 }, true)
        else load_entries { s with force_load_libs := r.1 } rest
      else
        match subnode.second.as_bool with
        | none => (s, true)
        | some value => load_entries { s with bool_configs := emplace s.bool_configs key value } rest

/-- The handler `catch (...)` of `system_impl::load_configs` (epoc.cpp, lines
521-533), without the log line and without `write_configs`, which writes the
file and leaves the members as they are. -/
def load_defaults {σ : Type} (s : system_impl σ) : system_impl σ :=
  let m0 := s.bool_configs
  let m1 := emplace m0 "log_code" false
  let m2 := emplace m1 "log_passed" false
  let m3 := emplace m2 "log_write" false
  let m4 := emplace m3 "log_read" false
  let m5 := emplace m4 "log_exports" false
  let m6 := emplace m5 "log_svc_passed" false
  let m7 := emplace m6 "enable_breakpoint_script" false
  let m8 := emplace m7 "log_exports" false
  let m9 := emplace m8 "log_ipc" false
  { s with bool_configs := m9 }

/-- The function `system_impl::load_configs` (epoc.cpp, lines 497-534);
`file` is what `YAML::LoadFile("coreconfig.yml")` returns, `none` when it
throws. -/
def system_impl.load_configs {σ : Type} (s : system_impl σ) (file : Option (List yaml_entry)) :
    system_impl σ :=
  match file with
  | none => load_defaults s
  | some node =>
    let r := load_entries s node
    if r.2 then load_defaults r.1 else r.1

/-- Modelled from the spec: the gdb stub, the kernel, the timing system and
the cpu are declared in headers that are not among the sources.  Each member
function that `loop` calls is a field: an observer reads the joint state `σ`,
a command changes it. -/
structure loop_parts (σ : Type) where
  is_server_enabled : σ → Bool
  handle_packet : σ → σ
  get_cpu_halt_flag : σ → Bool
  get_cpu_step_flag : σ → Bool
  crr_thread_is_null : σ → Bool
  idle : σ → σ
  advance : σ → σ
  prepare_rescheduling : σ → σ
  run : σ → σ
  step : σ → σ
  should_terminate : σ → Bool
  processing_requests : σ → σ
  call_reschedules : σ → σ
  reschedule : σ → σ
  crr_process_reset : σ → σ

/-- The function `system_impl::prepare_reschedule` (epoc.cpp, lines 168-171). -/
def system_impl.prepare_reschedule {σ : Type} (env : loop_parts σ) (s : system_impl σ) :
    system_impl σ :=
  { s with parts := env.prepare_rescheduling s.parts, reschedule_pending := true }

/-- The timing and cpu step of `system_impl::loop` (epoc.cpp, lines 374-385). -/
def loop_step {σ : Type} (env : loop_parts σ) (s : system_impl σ) (should_step : Bool) :
    system_impl σ :=
  if env.crr_thread_is_null s.parts then
    system_impl.prepare_reschedule env { s with parts := env.advance (env.idle s.parts) }
  else
    let advanced := env.advance s.parts
    if !should_step then { s with parts := env.run advanced }
    else { s with parts := env.step advanced }

/-- The last part of `system_impl::loop` (epoc.cpp, lines 387-405) after the
timing and cpu step; `enable_scripting` says whether the macro
`ENABLE_SCRIPTING` is defined. -/
def loop_finish {σ : Type} (env : loop_parts σ) (enable_scripting : Bool) (s : system_impl σ) :
    Int × system_impl σ :=
  if !env.should_terminate s.parts then
    let requested := env.processing_requests s.parts
    let scripted := if enable_scripting then env.call_reschedules requested else requested
    (1, { s with parts := env.reschedule scripted, reschedule_pending := false })
  else
    (0, { s with parts := env.crr_process_reset s.parts, exit := true })

/-- The first part of `system_impl::loop` (epoc.cpp, lines 360-372): the
system after it and the value of `should_step`, or `none` where the function
returns 1 at once because the debugger holds the cpu. -/
def loop_debug {σ : Type} (env : loop_parts σ) (s : system_impl σ) :
    system_impl σ × Option Bool :=
  if env.is_server_enabled s.parts then
    let s1 := { s with parts := env.handle_packet s.parts }
    if env.get_cpu_halt_flag s1.parts then
      if env.get_cpu_step_flag s1.parts then (s1, some true)
      else (s1, none)
    else (s1, some false)
  else (s, some false)

/-- The function `system_impl::loop` (epoc.cpp, lines 359-406): the value it
returns and the system after the call. -/
def system_impl.loop {σ : Type} (env : loop_parts σ) (enable_scripting : Bool)
    (s : system_impl σ) : Int × system_impl σ :=
  match loop_debug env s with
  | (s1, none) => (1, s1)
  | (s1, some should_step) => loop_finish env enable_scripting (loop_step env s1 should_step)

/-- The function `system_impl::should_exit` (epoc.cpp, lines 263-265). -/
def system_impl.should_exit {σ : Type} (s : system_impl σ) : Bool :=
  s.exit

end eka2l1

namespace eka2l1

/-! ## Lemmas on the string primitives -/

theorem char_at_of_lt {s : List Char} {i : Nat} (h : i < s.length) :
    char_at s i = s[i] := by
  simp [char_at, h]

theorem char_at_of_le {s : List Char} {i : Nat} (h : s.length ≤ i) :
    char_at s i = '\x00' := by
  simp [char_at, List.getElem?_eq_none h]

theorem char_at_nil (i : Nat) : char_at [] i = '\x00' := by
  simp [char_at]

theorem char_at_cons_zero (c : Char) (s : List Char) : char_at (c :: s) 0 = c := by
  simp [char_at]

theorem char_at_cons_succ (c : Char) (s : List Char) (i : Nat) :
    char_at (c :: s) (i + 1) = char_at s i := by
  simp [char_at]

theorem char_at_append_left {s : List Char} (t : List Char) {i : Nat} (h : i < s.length) :
    char_at (s ++ t) i = char_at s i := by
  simp [char_at, List.getElem?_append_left h]

theorem char_at_append_right (s t : List Char) (i : Nat) :
    char_at (s ++ t) (s.length + i) = char_at t i := by
  simp [char_at, List.getElem?_append_right]

theorem char_at_drop (s : List Char) (pos i : Nat) :
    char_at (s.drop pos) i = char_at s (pos + i) := by
  simp [char_at]

theorem char_at_take {s : List Char} {k i : Nat} (h : i < k) :
    char_at (s.take k) i = char_at s i := by
  simp [char_at, List.getElem?_take, h]

theorem char_at_set (s : List Char) (j : Nat) (c : Char) (i : Nat) :
    char_at (s.set j c) i = if i = j ∧ j < s.length then c else char_at s i := by
  by_cases hij : i = j
  · subst hij
    by_cases hlt : i < s.length
    · simp [char_at, hlt]
    · have h1 : s.length ≤ i := Nat.le_of_not_lt hlt
      have h2 : (s.set i c).length ≤ i := by simpa using h1
      simp [char_at, hlt, List.getElem?_eq_none h1, List.getElem?_eq_none h2]
  · have hji : j ≠ i := fun h => hij h.symm
    simp [char_at, hij, List.getElem?_set_ne hji]

theorem not_sep_nul : is_separator '\x00' = false := by decide

theorem length_gt_of_sep {s : List Char} {i : Nat} (h : is_separator (char_at s i) = true) :
    i < s.length := by
  by_contra hge
  rw [char_at_of_le (Nat.le_of_not_lt hge), not_sep_nul] at h
  exact Bool.false_ne_true h


theorem find_index_some {p : Char → Bool} :
    ∀ {l : List Char} {i j : Nat}, find_index p l i = some j →
      i ≤ j ∧ j - i < l.length ∧ p (char_at l (j - i)) = true ∧
        ∀ k, k < j - i → p (char_at l k) = false := by
  intro l
  induction l with
  | nil => intro i j h; simp [find_index] at h
  | cons c cs ih =>
    intro i j h
    by_cases hc : p c = true
    · simp [find_index, hc] at h
      subst h
      simp [char_at_cons_zero, hc]
    · simp [find_index, hc] at h
      obtain ⟨h1, h2, h3, h4⟩ := ih h
      have hji : j - i = (j - (i + 1)) + 1 := by omega
      refine ⟨by omega, by simp only [List.length_cons]; omega, ?_, ?_⟩
      · rw [hji, char_at_cons_succ]; exact h3
      · intro k hk
        cases k with
        | zero => simpa [char_at_cons_zero] using hc
        | succ k => rw [char_at_cons_succ]; exact h4 k (by omega)

theorem find_index_none {p : Char → Bool} :
    ∀ {l : List Char} {i : Nat}, find_index p l i = none →
      ∀ k, k < l.length → p (char_at l k) = false := by
  intro l
  induction l with
  | nil => intro i _ k hk; simp at hk
  | cons c cs ih =>
    intro i h k hk
    by_cases hc : p c = true
    · simp [find_index, hc] at h
    · simp [find_index, hc] at h
      cases k with
      | zero => simpa [char_at_cons_zero] using hc
      | succ k =>
        rw [char_at_cons_succ]
        exact ih h k (by simpa using hk)

theorem find_index_eq_some {p : Char → Bool} :
    ∀ {l : List Char} {i n : Nat}, n < l.length → p (char_at l n) = true →
      (∀ k, k < n → p (char_at l k) = false) → find_index p l i = some (i + n) := by
  intro l
  induction l with
  | nil => intro i n hn; simp at hn
  | cons c cs ih =>
    intro i n hn hp hall
    cases n with
    | zero =>
      rw [char_at_cons_zero] at hp
      simp [find_index, hp]
    | succ n =>
      have hc : p c = false := by simpa [char_at_cons_zero] using hall 0 (by omega)
      rw [char_at_cons_succ] at hp
      have := ih (i := i + 1) (n := n) (by simpa using hn) hp
        (fun k hk => by simpa [char_at_cons_succ] using hall (k + 1) (by omega))
      simp [find_index, hc, this]; omega

theorem find_index_eq_none {p : Char → Bool} :
    ∀ {l : List Char} {i : Nat}, (∀ k, k < l.length → p (char_at l k) = false) →
      find_index p l i = none := by
  intro l
  induction l with
  | nil => intro i _; rfl
  | cons c cs ih =>
    intro i hall
    have hc : p c = false := by simpa [char_at_cons_zero] using hall 0 (by simp)
    simp only [find_index, hc]
    exact ih (fun k hk => by simpa [char_at_cons_succ] using hall (k + 1) (by simpa using hk))

theorem find_first_of_some {s : List Char} {c : Char} {pos j : Nat}
    (h : find_first_of s c pos = some j) :
    pos ≤ j ∧ j < s.length ∧ char_at s j = c ∧
      ∀ k, pos ≤ k → k < j → char_at s k ≠ c := by
  obtain ⟨h1, h2, h3, h4⟩ := find_index_some h
  rw [List.length_drop] at h2
  refine ⟨h1, by omega, ?_, ?_⟩
  · rw [char_at_drop] at h3
    have : pos + (j - pos) = j := by omega
    rw [this] at h3
    simpa using h3
  · intro k hk1 hk2
    have := h4 (k - pos) (by omega)
    rw [char_at_drop] at this
    have hk : pos + (k - pos) = k := by omega
    rw [hk] at this
    simpa using this

theorem find_first_of_none {s : List Char} {c : Char} {pos : Nat}
    (h : find_first_of s c pos = none) :
    ∀ k, pos ≤ k → char_at s k ≠ c ∨ s.length ≤ k := by
  intro k hk
  by_cases hlt : k < s.length
  · left
    have := find_index_none h (k - pos) (by rw [List.length_drop]; omega)
    rw [char_at_drop] at this
    have hk : pos + (k - pos) = k := by omega
    rw [hk] at this
    simpa using this
  · right; omega

theorem find_first_of_eq_some {s : List Char} {c : Char} {pos j : Nat}
    (h1 : pos ≤ j) (h2 : j < s.length) (h3 : char_at s j = c)
    (h4 : ∀ k, pos ≤ k → k < j → char_at s k ≠ c) :
    find_first_of s c pos = some j := by
  have := find_index_eq_some (p := fun x => x == c) (l := s.drop pos) (i := pos) (n := j - pos)
    (by rw [List.length_drop]; omega)
    (by rw [char_at_drop]; have : pos + (j - pos) = j := by omega
        rw [this]; simpa using h3)
    (fun k hk => by
      rw [char_at_drop]
      simpa using h4 (pos + k) (by omega) (by omega))
  have hj : pos + (j - pos) = j := by omega
  rw [hj] at this
  exact this

theorem find_first_of_eq_none {s : List Char} {c : Char} {pos : Nat}
    (h : ∀ k, pos ≤ k → k < s.length → char_at s k ≠ c) :
    find_first_of s c pos = none := by
  apply find_index_eq_none
  intro k hk
  rw [List.length_drop] at hk
  rw [char_at_drop]
  simpa using h (pos + k) (by omega) (by omega)


/-! ## The rewriting loop of `add_path` -/

theorem replace_loop_length (rsep dsep : Char) :
    ∀ (fuel : Nat) (merge : List Char) (crr : Nat),
      (replace_loop rsep dsep fuel merge crr).length = merge.length := by
  intro fuel
  induction fuel with
  | zero => intro merge crr; rfl
  | succ fuel ih =>
    intro merge crr
    simp only [replace_loop]
    split
    · split
      · rfl
      · rw [ih]; simp
    · rfl

/-- Every character of the loop's result is the character of `merge` at the
same index, or is `rsep` written over a `dsep`. -/
theorem replace_loop_char (rsep dsep : Char) :
    ∀ (fuel : Nat) (merge : List Char) (crr i : Nat),
      char_at (replace_loop rsep dsep fuel merge crr) i = char_at merge i ∨
        (char_at merge i = dsep ∧ char_at (replace_loop rsep dsep fuel merge crr) i = rsep) := by
  intro fuel
  induction fuel with
  | zero => intro merge crr i; exact Or.inl rfl
  | succ fuel ih =>
    intro merge crr i
    simp only [replace_loop]
    split
    · split
      · exact Or.inl rfl
      · rename_i found hfound
        obtain ⟨_, hlt, hd, _⟩ := find_first_of_some hfound
        have hset := char_at_set merge found rsep i
        by_cases hi : i = found
        · subst hi
          rcases ih (merge.set i rsep) (i + 1) i with h | h
          · right
            refine ⟨hd, ?_⟩
            rw [h, hset]; simp [hlt]
          · exact Or.inr ⟨hd, h.2⟩
        · have hset2 : char_at (merge.set found rsep) i = char_at merge i := by
            rw [hset]; simp [hi]
          rcases ih (merge.set found rsep) (found + 1) i with h | h
          · left; rw [h, hset2]
          · right; rw [← hset2]; exact h
    · exact Or.inl rfl

/-- The loop never writes before `crr_point`. -/
theorem replace_loop_before (rsep dsep : Char) :
    ∀ (fuel : Nat) (merge : List Char) (crr i : Nat), i < crr →
      char_at (replace_loop rsep dsep fuel merge crr) i = char_at merge i := by
  intro fuel
  induction fuel with
  | zero => intro merge crr i _; rfl
  | succ fuel ih =>
    intro merge crr i hi
    simp only [replace_loop]
    split
    · split
      · rfl
      · rename_i found hfound
        obtain ⟨hle, _, _, _⟩ := find_first_of_some hfound
        rw [ih _ _ _ (by omega), char_at_set]
        have : i ≠ found := by omega
        simp [this]
    · rfl

/-- With `merge.size()` iterations allowed, the loop rewrites every `dsep` from
`crr_point` on that is not the last character, and the last character too when
the one before it is not `dsep` (and is not before `crr_point`). -/
theorem replace_loop_done (rsep dsep : Char) :
    ∀ (fuel : Nat) (merge : List Char) (crr i : Nat),
      merge.length - crr ≤ fuel → crr ≤ i → i < merge.length → char_at merge i = dsep →
      (i + 1 < merge.length ∨ (crr < i ∧ char_at merge (i - 1) ≠ dsep)) →
      char_at (replace_loop rsep dsep fuel merge crr) i = rsep := by
  intro fuel
  induction fuel with
  | zero => intro merge crr i hf hc hi _ _; omega
  | succ fuel ih =>
    intro merge crr i hf hc hi hd hlast
    simp only [replace_loop]
    have hsz : size_minus_one merge.length = merge.length - 1 := by
      have : merge.length ≠ 0 := by omega
      simp [size_minus_one, this]
    split
    · split
      · rename_i hnone
        rcases find_first_of_none hnone i hc with h | h
        · exact absurd hd h
        · omega
      · rename_i found hfound
        obtain ⟨hle, hlt, hfd, hfirst⟩ := find_first_of_some hfound
        have hfi : found ≤ i := by
          by_contra hgt
          exact hfirst i hc (by omega) hd
        by_cases hi2 : i = found
        · subst hi2
          rw [replace_loop_before _ _ _ _ _ _ (by omega), char_at_set]
          simp [hlt]
        · have hne : ∀ k, k ≠ found → char_at (merge.set found rsep) k = char_at merge k := by
            intro k hk
            rw [char_at_set]; simp [hk]
          apply ih
          · simp only [List.length_set]; omega
          · omega
          · simpa using hi
          · rw [hne i hi2]; exact hd
          · simp only [List.length_set]
            rcases hlast with h | ⟨h1, h2⟩
            · exact Or.inl h
            · right
              have hpred : i - 1 ≠ found := by
                intro heq
                rw [heq] at h2
                exact h2 hfd
              refine ⟨by omega, ?_⟩
              rw [hne _ hpred]; exact h2
    · rename_i hcond
      rw [hsz] at hcond
      rcases hlast with h | ⟨h1, _⟩ <;> omega


/-- Once the fuel covers the characters left after `crr_point`, more fuel
changes nothing: the loop has ended by itself. -/
theorem replace_loop_fuel (rsep dsep : Char) :
    ∀ (fuel : Nat) (merge : List Char) (crr : Nat), merge.length - crr ≤ fuel →
      replace_loop rsep dsep (fuel + 1) merge crr = replace_loop rsep dsep fuel merge crr := by
  intro fuel
  induction fuel with
  | zero =>
    intro merge crr hf
    simp only [replace_loop]
    split
    · split
      · rfl
      · rename_i found hfound
        obtain ⟨hle, hlt, _, _⟩ := find_first_of_some hfound
        omega
    · rfl
  | succ fuel ih =>
    intro merge crr hf
    rw [replace_loop]
    conv => rhs; rw [replace_loop]
    split
    · split
      · rfl
      · rename_i found hfound
        obtain ⟨hle, hlt, _, _⟩ := find_first_of_some hfound
        exact ih _ _ (by simp only [List.length_set]; omega)
    · rfl

/-- The fuel that `rewrite_separators` gives the loop, `merge.size()`, is
enough: any larger amount gives the same string. -/
theorem replace_loop_fuel_enough (rsep dsep : Char) (merge : List Char) (k : Nat) :
    replace_loop rsep dsep (merge.length + k) merge 0 =
      replace_loop rsep dsep merge.length merge 0 := by
  induction k with
  | zero => rfl
  | succ k ih =>
    rw [← Nat.add_assoc, replace_loop_fuel rsep dsep (merge.length + k) merge 0 (by omega), ih]

theorem is_separator_iff (c : Char) : is_separator c = true ↔ c = '/' ∨ c = '\\' := by
  simp [is_separator]

theorem get_separator_cases (win32 symbian_use : Bool) :
    (get_separator win32 symbian_use = '\\' ∧ alternate_separator win32 symbian_use = '/') ∨
    (get_separator win32 symbian_use = '/' ∧ alternate_separator win32 symbian_use = '\\') := by
  cases win32 <;> cases symbian_use <;> decide

theorem is_separator_get (win32 symbian_use : Bool) :
    is_separator (get_separator win32 symbian_use) = true := by
  cases win32 <;> cases symbian_use <;> decide

theorem is_separator_alternate (win32 symbian_use : Bool) :
    is_separator (alternate_separator win32 symbian_use) = true := by
  cases win32 <;> cases symbian_use <;> decide

theorem alternate_ne_get (win32 symbian_use : Bool) :
    alternate_separator win32 symbian_use ≠ get_separator win32 symbian_use := by
  cases win32 <;> cases symbian_use <;> decide

theorem is_separator_iff_mode (win32 symbian_use : Bool) (c : Char) :
    is_separator c = true ↔
      c = get_separator win32 symbian_use ∨ c = alternate_separator win32 symbian_use := by
  rw [is_separator_iff]
  rcases get_separator_cases win32 symbian_use with ⟨h1, h2⟩ | ⟨h1, h2⟩ <;> rw [h1, h2]
  exact Or.comm

theorem rewrite_length (win32 : Bool) (merge : List Char) (symbian_use : Bool) :
    (rewrite_separators win32 merge symbian_use).length = merge.length := by
  simp [rewrite_separators, replace_loop_length]

theorem rewrite_char (win32 : Bool) (merge : List Char) (symbian_use : Bool) (i : Nat) :
    rewritten_from win32 symbian_use (char_at merge i)
      (char_at (rewrite_separators win32 merge symbian_use) i) := by
  simp only [rewrite_separators, rewritten_from]
  exact replace_loop_char _ _ _ _ _ _

theorem rewritten_from_not_sep {win32 symbian_use : Bool} {old new : Char}
    (h : rewritten_from win32 symbian_use old new)
    (hn : old ≠ alternate_separator win32 symbian_use) : new = old := by
  rcases h with h | ⟨h, _⟩
  · exact h
  · exact absurd h hn

theorem rewritten_from_is_separator {win32 symbian_use : Bool} {old new : Char}
    (h : rewritten_from win32 symbian_use old new) :
    is_separator new = is_separator old := by
  rcases h with h | ⟨h1, h2⟩
  · rw [h]
  · rw [h1, h2, is_separator_get, is_separator_alternate]

theorem rewrite_is_separator (win32 : Bool) (merge : List Char) (symbian_use : Bool) (i : Nat) :
    is_separator (char_at (rewrite_separators win32 merge symbian_use) i) =
      is_separator (char_at merge i) :=
  rewritten_from_is_separator (rewrite_char win32 merge symbian_use i)

theorem rewrite_char_eq (win32 : Bool) (merge : List Char) (symbian_use : Bool) (i : Nat)
    (h : char_at merge i ≠ alternate_separator win32 symbian_use) :
    char_at (rewrite_separators win32 merge symbian_use) i = char_at merge i :=
  rewritten_from_not_sep (rewrite_char win32 merge symbian_use i) h

/-- A separator of `merge` is canonical in the result when it is not the last
character, and also when it is the last one and the character before it is not
the alternate separator. -/
theorem rewrite_done (win32 : Bool) (merge : List Char) (symbian_use : Bool) (i : Nat)
    (hsep : is_separator (char_at merge i) = true)
    (hpos : i + 1 < merge.length ∨
      (0 < i ∧ char_at merge (i - 1) ≠ alternate_separator win32 symbian_use)) :
    char_at (rewrite_separators win32 merge symbian_use) i = get_separator win32 symbian_use := by
  have hi : i < merge.length := length_gt_of_sep hsep
  rcases (is_separator_iff_mode win32 symbian_use _).1 hsep with h | h
  · rw [rewrite_char_eq _ _ _ _ (by rw [h]; exact (alternate_ne_get _ _).symm), h]
  · simp only [rewrite_separators]
    exact replace_loop_done _ _ _ _ _ _ (by omega) (Nat.zero_le _) hi h hpos

theorem canonical_length (win32 : Bool) (s : List Char) (symbian_use : Bool) :
    (canonical win32 s symbian_use).length = s.length := by
  simp [canonical]

theorem rewrite_canonical (win32 : Bool) (merge : List Char) (symbian_use : Bool) :
    canonical win32 (rewrite_separators win32 merge symbian_use) symbian_use =
      canonical win32 merge symbian_use := by
  apply List.ext_getElem
  · simp [canonical, rewrite_length]
  · intro i h1 h2
    have hi : i < merge.length := by simpa [canonical] using h2
    have hi2 : i < (rewrite_separators win32 merge symbian_use).length := by
      rw [rewrite_length]; exact hi
    have hc := rewrite_char win32 merge symbian_use i
    rw [char_at_of_lt hi, char_at_of_lt hi2] at hc
    simp only [canonical, List.getElem_map]
    rcases hc with h | ⟨h1, h2⟩
    · rw [h]
    · rw [h1, h2, is_separator_get, is_separator_alternate]
      simp


/-! ## Root name, root directory, root path -/

theorem substr_zero (s : List Char) (n : Nat) : substr s 0 n = s.take n := by
  simp [substr]

theorem root_path_eq_take (win32 : Bool) (p : List Char) (symbian_use : Bool) :
    ∃ k, root_path win32 p symbian_use = p.take k := by
  unfold root_path
  simp only [substr_zero]
  split
  · split
    · exact ⟨3, rfl⟩
    · exact ⟨2, rfl⟩
  · split
    · split
      · exact ⟨0, by simp⟩
      · exact ⟨_, rfl⟩
    · split
      · exact ⟨1, rfl⟩
      · exact ⟨0, by simp⟩

theorem take_append_drop_length_take (s : List Char) (k : Nat) :
    s.take k ++ s.drop (s.take k).length = s := by
  rw [List.length_take]
  by_cases h : k ≤ s.length
  · rw [Nat.min_eq_left h]; exact List.take_append_drop k s
  · have h2 : s.length ≤ k := by omega
    rw [Nat.min_eq_right h2, List.take_of_length_le h2]
    simp

theorem root_path_append_relative_path (win32 : Bool) (p : List Char) (symbian_use : Bool) :
    root_path win32 p symbian_use ++ relative_path win32 p symbian_use = p := by
  obtain ⟨k, hk⟩ := root_path_eq_take win32 p symbian_use
  simp only [relative_path, substr_from, hk]
  exact take_append_drop_length_take p k

/-- Claim C7. For every non-empty path `p` and both modes, `root_path(p)` is a
prefix of `p` and `relative_path(p)` is exactly what is left of `p` after it:
`root_path(p) ++ relative_path(p) = p`. -/
theorem root_path_relative_path_split (win32 : Bool) (p : List Char)
    (symbian_use : Bool) (_hp : p ≠ []) :
    root_path win32 p symbian_use <+: p ∧
      root_path win32 p symbian_use ++ relative_path win32 p symbian_use = p := by
  have hsplit := root_path_append_relative_path win32 p symbian_use
  exact ⟨⟨relative_path win32 p symbian_use, hsplit⟩, hsplit⟩

theorem root_path_relative_path_split_witness :
    root_path false "C:\\data\\x".toList true <+: "C:\\data\\x".toList ∧
      root_path false "C:\\data\\x".toList true ++ relative_path false "C:\\data\\x".toList true
        = "C:\\data\\x".toList :=
  root_path_relative_path_split false "C:\\data\\x".toList true (by decide)

/-- Claim C6, counterexample. `root_path` is not `root_name ++ root_dir` for the
path `/` (one separator: `root_path` is `/`, `root_name` and `root_dir` are
empty) nor for the UNC-like path `//a/b` (`root_path` is `//a`, `root_name` is
`//a` and `root_dir` is `/`). -/
theorem root_path_ne_root_name_append_root_dir :
    root_path false "/".toList false ≠
        root_name false "/".toList false ++ root_dir false "/".toList false ∧
      root_path false "//a/b".toList false ≠
        root_name false "//a/b".toList false ++ root_dir false "//a/b".toList false := by
  decide

/-- Claim C6, amended. For every path `p` that is not a single separator
character and is not a UNC-like path with a server part (two equal separators
in front and a canonical separator at some index `≥ 2`), and for both modes,
`root_path(p) = root_name(p) ++ root_dir(p)`; for a path that is a single
separator character, `root_path(p)` is `p` itself while `root_name(p)` and
`root_dir(p)` are empty. -/
theorem root_path_eq_root_name_append_root_dir (win32 : Bool) (p : List Char)
    (symbian_use : Bool) :
    (¬ (is_separator (char_at p 0) = true ∧ char_at p 0 = char_at p 1 ∧
        ∃ i, 2 ≤ i ∧ i < p.length ∧ char_at p i = get_separator win32 symbian_use) →
      ¬ (p.length = 1 ∧ is_separator (char_at p 0) = true) →
      root_path win32 p symbian_use =
        root_name win32 p symbian_use ++ root_dir win32 p symbian_use) ∧
    (p.length = 1 ∧ is_separator (char_at p 0) = true →
      root_path win32 p symbian_use = p ∧ root_name win32 p symbian_use = [] ∧
        root_dir win32 p symbian_use = []) := by
  constructor
  · intro hnet hlone
    unfold root_path root_name root_dir
    by_cases hd : (char_at p 1 == ':') = true
    · simp only [hd, if_true]
      split
      · simp only [substr]
        exact List.take_add p 2 1
      · simp
    · by_cases hn : (is_separator (char_at p 0) && (char_at p 0 == char_at p 1)) = true
      · have hn2 := hn
        simp only [Bool.and_eq_true, beq_iff_eq] at hn2
        have hf : find_first_of p (get_separator win32 symbian_use) 2 = none := by
          apply find_first_of_eq_none
          intro k hk hlt hc
          exact hnet ⟨hn2.1, hn2.2, k, hk, hlt, hc⟩
        simp only [hd, hn, hf]
        simp
      · simp only [hd, hn, List.nil_append]
        by_cases hs : is_separator (char_at p 0) = true
        · have hlen := length_gt_of_sep hs
          have h1 : p.length > 1 := by
            by_contra hle
            exact hlone ⟨by omega, hs⟩
          simp [hs, h1]
        · simp [hs]
  · rintro ⟨hlen, hs⟩
    obtain ⟨c, rfl⟩ := List.length_eq_one.1 hlen
    rw [char_at_cons_zero] at hs
    have hc : c = '/' ∨ c = '\\' := (is_separator_iff c).1 hs
    rcases hc with rfl | rfl <;> cases win32 <;> cases symbian_use <;> decide

theorem root_path_eq_root_name_append_root_dir_witness :
    root_path false "C:\\data".toList true =
      root_name false "C:\\data".toList true ++ root_dir false "C:\\data".toList true :=
  (root_path_eq_root_name_append_root_dir false "C:\\data".toList true).1
    (fun h => absurd h.1 (by decide)) (by decide)


/-- Claim C10, counterexample. In symbian mode the path `//server/share` begins
with two equal separators and its first separator at an index `≥ 2` is the `/`
at index 8, yet `root_name` is empty, not `//server`: the search in
`root_name` looks for `get_separator(symbian_use)`, here `\`, only. -/
theorem root_name_unc_not_any_separator :
    is_separator (char_at "//server/share".toList 0) = true ∧
      char_at "//server/share".toList 0 = char_at "//server/share".toList 1 ∧
      is_separator (char_at "//server/share".toList 8) = true ∧
      (∀ j, 2 ≤ j → j < 8 → is_separator (char_at "//server/share".toList j) = false) ∧
      root_name false "//server/share".toList true = [] ∧
      root_name false "//server/share".toList true ≠ "//server/share".toList.take 8 := by
  refine ⟨by decide, by decide, by decide, ?_, by decide, by decide⟩
  intro j h1 h2
  interval_cases j <;> decide

/-- Claim C10, amended. For every path `p` whose first two characters are the
same separator: if the canonical separator of the mode, `get_separator`,
occurs in `p` at an index `≥ 2`, and `res` is the first such index, then
`root_name(p)` is the prefix of `p` of length `res` (it ends just before that
separator); if it occurs at no index `≥ 2`, `root_name(p)` is empty.  The
alternate separator does not end the `//server` part. -/
theorem root_name_unc (win32 : Bool) (p : List Char) (symbian_use : Bool)
    (hsep : is_separator (char_at p 0) = true) (hsame : char_at p 0 = char_at p 1) :
    (∀ res, 2 ≤ res → res < p.length →
      char_at p res = get_separator win32 symbian_use →
      (∀ j, 2 ≤ j → j < res → char_at p j ≠ get_separator win32 symbian_use) →
      root_name win32 p symbian_use = p.take res) ∧
    ((∀ j, 2 ≤ j → j < p.length → char_at p j ≠ get_separator win32 symbian_use) →
      root_name win32 p symbian_use = []) := by
  have hd : (char_at p 1 == ':') = false := by
    rw [← hsame]
    rcases (is_separator_iff _).1 hsep with h | h <;> rw [h] <;> decide
  have hn : (is_separator (char_at p 0) && (char_at p 0 == char_at p 1)) = true := by
    rw [Bool.and_eq_true]
    exact ⟨hsep, by rw [← hsame]; simp⟩
  constructor
  · intro res h2 hlt hc hfirst
    unfold root_name
    simp only [hd, hn, find_first_of_eq_some h2 hlt hc hfirst, substr_zero]
    simp
  · intro hnone
    unfold root_name
    simp only [hd, hn, find_first_of_eq_none hnone]
    simp

theorem root_name_unc_witness :
    root_name false "//server/share".toList false = "//server/share".toList.take 8 :=
  (root_name_unc false "//server/share".toList false (by decide) (by decide)).1 8
    (by decide) (by decide) (by decide)
    (by intro j h1 h2; interval_cases j <;> decide)


/-! ## `add_path` -/

theorem add_path_neither (win32 : Bool) (path1 path2 : List Char) (symbian_use : Bool)
    (h1 : is_separator (char_at path1 (path1.length - 1)) = false)
    (h2 : is_separator (char_at path2 0) = false) :
    add_path win32 path1 path2 symbian_use =
      rewrite_separators win32 (path1 ++ ('/' :: path2)) symbian_use := by
  simp [add_path, h1, h2]

theorem add_path_one (win32 : Bool) (path1 path2 : List Char) (symbian_use : Bool)
    (h : is_separator (char_at path1 (path1.length - 1)) ≠ is_separator (char_at path2 0)) :
    add_path win32 path1 path2 symbian_use =
      rewrite_separators win32 (path1 ++ path2) symbian_use := by
  unfold add_path
  cases h1 : is_separator (char_at path1 (path1.length - 1)) <;>
    cases h2 : is_separator (char_at path2 0) <;> simp_all

theorem add_path_both (win32 : Bool) (path1 path2 : List Char) (symbian_use : Bool)
    (h1 : is_separator (char_at path1 (path1.length - 1)) = true)
    (h2 : is_separator (char_at path2 0) = true) :
    add_path win32 path1 path2 symbian_use =
      match find_first_not_of path2 (char_at path2 0) with
      | none => path1
      | some pos_sub =>
        rewrite_separators win32 (path1 ++ substr_from path2 pos_sub) symbian_use := by
  simp [add_path, h1, h2]

/-- The rewriting of `a ++ y :: b` for a separator `y`: it keeps the lengths,
makes `y` canonical, and rewrites `a` and `b` in place. -/
theorem rewrite_join (win32 symbian_use : Bool) (a b : List Char) (y : Char)
    (hy : is_separator y = true)
    (h : b ≠ [] ∨ (a ≠ [] ∧ is_separator (char_at a (a.length - 1)) = false)) :
    (rewrite_separators win32 (a ++ y :: b) symbian_use).length = a.length + 1 + b.length ∧
    char_at (rewrite_separators win32 (a ++ y :: b) symbian_use) a.length =
      get_separator win32 symbian_use ∧
    (∀ i, i < a.length → rewritten_from win32 symbian_use (char_at a i)
      (char_at (rewrite_separators win32 (a ++ y :: b) symbian_use) i)) ∧
    (∀ i, i < b.length → rewritten_from win32 symbian_use (char_at b i)
      (char_at (rewrite_separators win32 (a ++ y :: b) symbian_use) (a.length + 1 + i))) := by
  have hy0 : char_at (a ++ y :: b) a.length = y := by
    have := char_at_append_right a (y :: b) 0
    simpa [char_at_cons_zero] using this
  refine ⟨?_, ?_, ?_, ?_⟩
  · rw [rewrite_length]; simp; omega
  · apply rewrite_done
    · rw [hy0]; exact hy
    · rcases h with hb | ⟨ha, hlast⟩
      · left
        have : 0 < b.length := List.length_pos.2 hb
        simp; omega
      · right
        have hpos : 0 < a.length := List.length_pos.2 ha
        refine ⟨hpos, ?_⟩
        rw [char_at_append_left _ (by omega)]
        intro heq
        rw [heq, is_separator_alternate] at hlast
        exact Bool.noConfusion hlast
  · intro i hi
    have := rewrite_char win32 (a ++ y :: b) symbian_use i
    rwa [char_at_append_left _ hi] at this
  · intro i _
    have := rewrite_char win32 (a ++ y :: b) symbian_use (a.length + 1 + i)
    have h2 : char_at (a ++ y :: b) (a.length + 1 + i) = char_at b i := by
      rw [Nat.add_assoc, char_at_append_right, Nat.add_comm 1 i, char_at_cons_succ]
    rwa [h2] at this

theorem absolute_path_rootless (win32 : Bool) (p cwd : List Char) (symbian_use : Bool)
    (h1 : has_root_dir win32 p symbian_use = false)
    (h2 : has_root_name win32 p symbian_use = false) :
    absolute_path win32 p cwd symbian_use = add_path win32 cwd p symbian_use := by
  simp [absolute_path, h1, h2]

/-- Claim C4. `add_path` inserts exactly one separator when both sides lack one:
for a non-empty `path1` whose last character is not a separator and a `path2`
whose first character is not a separator, `add_path(path1, path2)` has length
`|path1| + 1 + |path2|`, its character at index `|path1|` is the canonical
separator of the mode, and the characters before and after it are those of
`path1` and `path2` up to the rewriting of separators.  Hence for a path `p`
with neither root directory nor root name `absolute_path(p, cwd)` is
`add_path(cwd, p)`, and in symbian mode `absolute_path("file.txt", "C:\data")`
is `"C:\data\file.txt"`. -/
theorem add_path_inserts_one_separator (win32 symbian_use : Bool) :
    (∀ path1 path2 : List Char, path1 ≠ [] →
      is_separator (char_at path1 (path1.length - 1)) = false →
      is_separator (char_at path2 0) = false →
      (add_path win32 path1 path2 symbian_use).length = path1.length + 1 + path2.length ∧
      char_at (add_path win32 path1 path2 symbian_use) path1.length =
        get_separator win32 symbian_use ∧
      (∀ i, i < path1.length → rewritten_from win32 symbian_use (char_at path1 i)
        (char_at (add_path win32 path1 path2 symbian_use) i)) ∧
      (∀ i, i < path2.length → rewritten_from win32 symbian_use (char_at path2 i)
        (char_at (add_path win32 path1 path2 symbian_use) (path1.length + 1 + i)))) ∧
    (∀ p cwd : List Char, has_root_dir win32 p symbian_use = false →
      has_root_name win32 p symbian_use = false →
      absolute_path win32 p cwd symbian_use = add_path win32 cwd p symbian_use) ∧
    absolute_path win32 "file.txt".toList "C:\\data".toList true = "C:\\data\\file.txt".toList := by
  refine ⟨?_, ?_, ?_⟩
  · intro path1 path2 hne h1 h2
    rw [add_path_neither win32 path1 path2 symbian_use h1 h2]
    exact rewrite_join win32 symbian_use path1 path2 '/' (by decide) (Or.inr ⟨hne, h1⟩)
  · intro p cwd h1 h2
    exact absolute_path_rootless win32 p cwd symbian_use h1 h2
  · cases win32 <;> decide

theorem add_path_inserts_one_separator_witness :
    (add_path false "C:\\data".toList "file.txt".toList true).length = 7 + 1 + 8 ∧
      char_at (add_path false "C:\\data".toList "file.txt".toList true) 7 = '\\' :=
  have h := (add_path_inserts_one_separator false true).1 "C:\\data".toList "file.txt".toList
    (by decide) (by decide) (by decide)
  ⟨h.1, h.2.1⟩


theorem find_first_not_of_run (c : Char) (n : Nat) (b : List Char)
    (hb : b ≠ []) (hc : char_at b 0 ≠ c) :
    find_first_not_of (List.replicate n c ++ b) c = some n := by
  have h := find_index_eq_some (p := fun x => x != c) (l := List.replicate n c ++ b)
    (i := 0) (n := n)
    (by have : 0 < b.length := List.length_pos.2 hb
        simp; omega)
    (by have := char_at_append_right (List.replicate n c) b 0
        simp only [List.length_replicate, Nat.add_zero] at this
        rw [this]; simpa using hc)
    (fun k hk => by
      rw [char_at_append_left _ (by simpa using hk),
        char_at_of_lt (by simpa using hk)]
      simp)
  simpa [find_first_not_of] using h

/-- Claim C8, counterexample. `path1 = "a"` and `path2 = "//b"` are non-empty and
`path2` begins with a separator, but `add_path` keeps both separators of
`path2`: the result is `a//b`, with two separators between `a` and `b`. -/
theorem add_path_keeps_separator_run :
    add_path false "a".toList "//b".toList false = "a//b".toList ∧
      add_path false "a/".toList "/\\b".toList false = "a//b".toList ∧
      add_path false "a//".toList "b".toList false = "a//b".toList := by
  decide

/-- Claim C8, amended. Let `path1` be `a ++ s1` and `path2` be `c … c ++ b`
(`n` times `c`), where `a` ends with a non-separator, `b` begins with a
non-separator, `s1` holds at most one character, a separator, and `c` is a
separator; let `path1` end with a separator or `path2` begin with exactly one
(`s1 ≠ []` or `n = 1`).  Then `add_path(path1, path2)` has exactly one
separator, the canonical one, between the characters of `a` and those of `b`:
its length is `|a| + 1 + |b|`, its character at index `|a|` is the canonical
separator, and the characters before and after are those of `a` and `b` up to
the rewriting of separators. -/
theorem add_path_one_separator_at_join (win32 symbian_use : Bool)
    (a s1 b : List Char) (c : Char) (n : Nat)
    (_ha : a ≠ []) (ha_last : is_separator (char_at a (a.length - 1)) = false)
    (hb : b ≠ []) (hb_first : is_separator (char_at b 0) = false)
    (hs1 : s1 = [] ∨ ∃ x, is_separator x = true ∧ s1 = [x])
    (hc : is_separator c = true)
    (hjoin : s1 ≠ [] ∨ n = 1) :
    (add_path win32 (a ++ s1) (List.replicate n c ++ b) symbian_use).length =
      a.length + 1 + b.length ∧
    char_at (add_path win32 (a ++ s1) (List.replicate n c ++ b) symbian_use) a.length =
      get_separator win32 symbian_use ∧
    (∀ i, i < a.length → rewritten_from win32 symbian_use (char_at a i)
      (char_at (add_path win32 (a ++ s1) (List.replicate n c ++ b) symbian_use) i)) ∧
    (∀ i, i < b.length → rewritten_from win32 symbian_use (char_at b i)
      (char_at (add_path win32 (a ++ s1) (List.replicate n c ++ b) symbian_use)
        (a.length + 1 + i))) := by
  have hbc : char_at b 0 ≠ c := by
    intro h; rw [h, hc] at hb_first; exact Bool.noConfusion hb_first
  rcases hs1 with rfl | ⟨x, hx, rfl⟩
  · -- `path1 = a` ends with no separator, `path2 = c :: b`
    have hn : n = 1 := by
      rcases hjoin with h | h
      · exact absurd rfl h
      · exact h
    subst hn
    simp only [List.append_nil, List.replicate_one, List.singleton_append]
    rw [add_path_one win32 a (c :: b) symbian_use
      (by rw [ha_last, char_at_cons_zero, hc]; decide)]
    exact rewrite_join win32 symbian_use a b c hc (Or.inl hb)
  · have hend : is_separator (char_at (a ++ [x]) ((a ++ [x]).length - 1)) = true := by
      have := char_at_append_right a [x] 0
      simp only [List.length_append, List.length_singleton, Nat.add_sub_cancel]
      simpa [char_at_cons_zero, hx] using congrArg is_separator this
    cases n with
    | zero =>
      simp only [List.replicate_zero, List.nil_append]
      rw [add_path_one win32 (a ++ [x]) b symbian_use (by rw [hend, hb_first]; decide)]
      simpa using rewrite_join win32 symbian_use a b x hx (Or.inl hb)
    | succ n =>
      have hbeg : char_at (List.replicate (n + 1) c ++ b) 0 = c := by
        simp [List.replicate_succ, char_at_cons_zero]
      rw [add_path_both win32 (a ++ [x]) _ symbian_use hend (by rw [hbeg]; exact hc), hbeg,
        find_first_not_of_run c (n + 1) b hb hbc]
      have hdrop : substr_from (List.replicate (n + 1) c ++ b) (n + 1) = b := by
        simp [substr_from, List.drop_append_eq_append_drop]
      simp only [hdrop]
      simpa using rewrite_join win32 symbian_use a b x hx (Or.inl hb)

theorem add_path_one_separator_at_join_witness :
    (add_path false ("C:\\data".toList ++ "\\".toList)
        (List.replicate 2 '\\' ++ "file".toList) true).length = 7 + 1 + 4 ∧
      char_at (add_path false ("C:\\data".toList ++ "\\".toList)
        (List.replicate 2 '\\' ++ "file".toList) true) 7 = '\\' :=
  have h := add_path_one_separator_at_join false true "C:\\data".toList "\\".toList
    "file".toList '\\' 2 (by decide) (by decide) (by decide) (by decide)
    (Or.inr ⟨'\\', by decide, by decide⟩) (by decide) (Or.inl (by decide))
  ⟨h.1, h.2.1⟩

/-- Claim C9, the code at the failing input. In symbian mode
`add_path("a", "b//")` is `a\b\/`: the loop stops at
`crr_point = merge.size() - 1` and leaves the last `/` in place, so the result
contains the alternate separator.  The early `return path1` does the same for
`add_path("a/b/", "/")`, which is `a/b/`. -/
theorem add_path_leaves_alternate_separator :
    add_path false "a".toList "b//".toList true = "a\\b\\/".toList ∧
      '/' ∈ add_path false "a".toList "b//".toList true ∧
      alternate_separator false true = '/' ∧
      add_path false "a/b/".toList "/".toList true = "a/b/".toList := by
  decide


/-! ## `absolute_path` -/

/-- Claim C5, counterexample. For `p = "C:x"` in symbian mode `root_path(p)` is
`C:` and `relative_path(p)` is `x`; neither side has a separator at the join,
so `add_path` inserts one and gives `C:\x`, which is not `p` even after
canonicalising the separators of both. -/
theorem add_path_root_relative_inserts_separator :
    root_path false "C:x".toList true = "C:".toList ∧
      relative_path false "C:x".toList true = "x".toList ∧
      add_path false (root_path false "C:x".toList true)
        (relative_path false "C:x".toList true) true = "C:\\x".toList ∧
      canonical false (add_path false (root_path false "C:x".toList true)
        (relative_path false "C:x".toList true) true) true ≠
        canonical false "C:x".toList true := by
  decide

/-- Claim C5, amended. For every path `p` whose root path is not empty and for
which exactly one of "`root_path(p)` ends with a separator" and
"`relative_path(p)` begins with a separator" holds,
`add_path(root_path(p), relative_path(p))` equals `p` once every separator of
both strings is replaced by the canonical separator of the mode. -/
theorem add_path_root_relative (win32 : Bool) (p : List Char) (symbian_use : Bool)
    (_hroot : root_path win32 p symbian_use ≠ [])
    (hone : is_separator (char_at (root_path win32 p symbian_use)
        ((root_path win32 p symbian_use).length - 1)) ≠
      is_separator (char_at (relative_path win32 p symbian_use) 0)) :
    canonical win32 (add_path win32 (root_path win32 p symbian_use)
        (relative_path win32 p symbian_use) symbian_use) symbian_use =
      canonical win32 p symbian_use := by
  rw [add_path_one win32 _ _ symbian_use hone, rewrite_canonical,
    root_path_append_relative_path]

theorem add_path_root_relative_witness :
    canonical false (add_path false (root_path false "C:/data\\x".toList true)
        (relative_path false "C:/data\\x".toList true) true) true =
      canonical false "C:/data\\x".toList true :=
  add_path_root_relative false "C:/data\\x".toList true (by decide) (by decide)

/-- Claim C3. For every path `p` that has a root name but no root directory
and every `cwd`, `absolute_path(p, cwd)` is the join by `add_path`, in this
order, of `root_name(p)`, `root_dir(cwd)`, `relative_path(cwd)` and
`relative_path(p)`; in symbian mode `absolute_path("D:x", "C:\cwd\sub")` is
`"D:\cwd\sub\x"`. -/
theorem absolute_path_root_name_only (win32 symbian_use : Bool) :
    (∀ p cwd : List Char, has_root_name win32 p symbian_use = true →
      has_root_dir win32 p symbian_use = false →
      absolute_path win32 p cwd symbian_use =
        add_path win32
          (add_path win32
            (add_path win32 (root_name win32 p symbian_use) (root_dir win32 cwd symbian_use)
              symbian_use)
            (relative_path win32 cwd symbian_use) symbian_use)
          (relative_path win32 p symbian_use) symbian_use) ∧
    absolute_path win32 "D:x".toList "C:\\cwd\\sub".toList true = "D:\\cwd\\sub\\x".toList := by
  constructor
  · intro p cwd h1 h2
    simp [absolute_path, h1, h2]
  · cases win32 <;> decide

theorem absolute_path_root_name_only_witness :
    absolute_path false "D:x".toList "C:\\cwd\\sub".toList true =
      add_path false
        (add_path false
          (add_path false (root_name false "D:x".toList true)
            (root_dir false "C:\\cwd\\sub".toList true) true)
          (relative_path false "C:\\cwd\\sub".toList true) true)
        (relative_path false "D:x".toList true) true :=
  (absolute_path_root_name_only false true).1 "D:x".toList "C:\\cwd\\sub".toList
    (by decide) (by decide)

/-- Claim C2, the code at the failing input. In symbian mode `\a\b` has a root
directory and no root name, and `absolute_path("\a\b", "C:\cwd")` is `\a\b`
itself, not `C:\a\b`: the test `if (root_dirb) return str;` comes first, and
the branch that prepends the root name of `cwd`, which would give `C:\a\b`, is
never reached. -/
theorem absolute_path_root_dir_only_unchanged :
    has_root_dir false "\\a\\b".toList true = true ∧
      has_root_name false "\\a\\b".toList true = false ∧
      absolute_path false "\\a\\b".toList "C:\\cwd".toList true = "\\a\\b".toList ∧
      absolute_path false "\\a\\b".toList "C:\\cwd".toList true ≠ "C:\\a\\b".toList ∧
      add_path false (root_name false "C:\\cwd".toList true) "\\a\\b".toList true =
        "C:\\a\\b".toList := by
  decide


theorem absolute_path_of_root_dir (win32 : Bool) (p cwd : List Char) (symbian_use : Bool)
    (h : has_root_dir win32 p symbian_use = true) :
    absolute_path win32 p cwd symbian_use = p := by
  simp [absolute_path, h]

theorem substr_one {s : List Char} {i : Nat} (h : i < s.length) :
    substr s i 1 = [char_at s i] := by
  rw [char_at_of_lt h]
  simp only [substr]
  exact List.take_one_drop_eq_of_lt_length h

theorem colon_not_sep : is_separator ':' = false := by decide

theorem length_gt_of_colon {s : List Char} {i : Nat} (h : char_at s i = ':') :
    i < s.length := by
  by_contra hge
  rw [char_at_of_le (Nat.le_of_not_lt hge)] at h
  exact absurd h (by decide)

theorem not_colon_of_sep {c : Char} (h : is_separator c = true) : c ≠ ':' := by
  intro hc
  rw [hc, colon_not_sep] at h
  exact Bool.noConfusion h

/-- Value of `root_dir` for a path with `path[1] = ':'`. -/
theorem root_dir_of_drive (win32 : Bool) {s : List Char} (symbian_use : Bool)
    (h1 : char_at s 1 = ':') :
    root_dir win32 s symbian_use =
      if decide (s.length > 2) && is_separator (char_at s 2) then substr s 2 1 else [] := by
  simp [root_dir, h1]

/-- Value of `root_dir` for a path that begins with two equal separators. -/
theorem root_dir_of_net (win32 : Bool) {s : List Char} (symbian_use : Bool)
    (h0 : is_separator (char_at s 0) = true) (h01 : char_at s 0 = char_at s 1) :
    root_dir win32 s symbian_use =
      match find_first_of s (get_separator win32 symbian_use) 2 with
      | none => []
      | some res => substr s res 1 := by
  have hd : (char_at s 1 == ':') = false := by
    rw [← h01]
    simpa using not_colon_of_sep h0
  have hn : (is_separator (char_at s 0) && (char_at s 0 == char_at s 1)) = true := by
    rw [Bool.and_eq_true]
    exact ⟨h0, by rw [← h01]; simp⟩
  simp only [root_dir, hd, hn]
  simp

/-- Value of `root_dir` for a path with neither `path[1] = ':'` nor two equal separators
in front. -/
theorem root_dir_of_other (win32 : Bool) {s : List Char} (symbian_use : Bool)
    (h1 : char_at s 1 ≠ ':')
    (hnet : ¬ (is_separator (char_at s 0) = true ∧ char_at s 0 = char_at s 1)) :
    root_dir win32 s symbian_use =
      if decide (s.length > 1) && is_separator (char_at s 0) then substr s 0 1 else [] := by
  have hd : (char_at s 1 == ':') = false := by simpa using h1
  have hn : (is_separator (char_at s 0) && (char_at s 0 == char_at s 1)) = false := by
    by_contra hc
    simp only [Bool.not_eq_false, Bool.and_eq_true, beq_iff_eq] at hc
    exact hnet hc
  simp only [root_dir, hd, hn]
  simp

theorem has_root_dir_of_drive (win32 : Bool) {s : List Char} (symbian_use : Bool)
    (h : drive_rooted s) : has_root_dir win32 s symbian_use = true := by
  obtain ⟨h1, h2⟩ := h
  have hlen := length_gt_of_sep h2
  simp [has_root_dir, root_dir_of_drive win32 symbian_use h1, h2, hlen, substr_one hlen]

theorem has_root_dir_of_net (win32 : Bool) {s : List Char} (symbian_use : Bool)
    (h0 : is_separator (char_at s 0) = true) (h01 : char_at s 0 = char_at s 1)
    (i : Nat) (hi : 2 ≤ i) (hlt : i < s.length)
    (hc : char_at s i = get_separator win32 symbian_use) :
    has_root_dir win32 s symbian_use = true := by
  rw [has_root_dir, root_dir_of_net win32 symbian_use h0 h01]
  cases hf : find_first_of s (get_separator win32 symbian_use) 2 with
  | none =>
    rcases find_first_of_none hf i hi with h | h
    · exact absurd hc h
    · omega
  | some res =>
    obtain ⟨_, hres, _, _⟩ := find_first_of_some hf
    simp [substr_one hres]

theorem has_root_dir_of_lead (win32 : Bool) {s : List Char} (symbian_use : Bool)
    (h0 : is_separator (char_at s 0) = true) (h1 : char_at s 1 ≠ ':')
    (h01 : char_at s 0 ≠ char_at s 1) (hlen : 1 < s.length) :
    has_root_dir win32 s symbian_use = true := by
  have h0len : 0 < s.length := by omega
  rw [has_root_dir, root_dir_of_other win32 symbian_use h1 (fun h => h01 h.2)]
  simp [h0, hlen, substr_one h0len]

/-- The three ways in which a path has a root directory. -/
theorem has_root_dir_cases (win32 : Bool) {s : List Char} (symbian_use : Bool)
    (h : has_root_dir win32 s symbian_use = true) :
    drive_rooted s ∨
    (is_separator (char_at s 0) = true ∧ char_at s 0 = char_at s 1 ∧
      ∃ i, 2 ≤ i ∧ i < s.length ∧ char_at s i = get_separator win32 symbian_use) ∨
    (is_separator (char_at s 0) = true ∧ char_at s 1 ≠ ':' ∧
      char_at s 0 ≠ char_at s 1 ∧ 1 < s.length) := by
  by_cases hd : char_at s 1 = ':'
  · left
    refine ⟨hd, ?_⟩
    by_contra hs
    simp [has_root_dir, root_dir_of_drive win32 symbian_use hd, hs] at h
  · by_cases hnet : is_separator (char_at s 0) = true ∧ char_at s 0 = char_at s 1
    · right; left
      refine ⟨hnet.1, hnet.2, ?_⟩
      rw [has_root_dir, root_dir_of_net win32 symbian_use hnet.1 hnet.2] at h
      cases hf : find_first_of s (get_separator win32 symbian_use) 2 with
      | none => simp [hf] at h
      | some res =>
        obtain ⟨h2, hres, hc, _⟩ := find_first_of_some hf
        exact ⟨res, h2, hres, hc⟩
    · right; right
      rw [has_root_dir, root_dir_of_other win32 symbian_use hd hnet] at h
      by_cases hc : (decide (s.length > 1) && is_separator (char_at s 0)) = true
      · simp only [Bool.and_eq_true, decide_eq_true_eq] at hc
        exact ⟨hc.2, hd, fun h01 => hnet ⟨hc.2, h01⟩, hc.1⟩
      · simp [hc] at h

/-- A path that begins with two equal separators and has no root directory
has no canonical separator from index 2 on, and no root name. -/
theorem no_root_dir_of_net (win32 : Bool) {s : List Char} (symbian_use : Bool)
    (h0 : is_separator (char_at s 0) = true) (h01 : char_at s 0 = char_at s 1)
    (h : has_root_dir win32 s symbian_use = false) :
    (∀ i, 2 ≤ i → i < s.length → char_at s i ≠ get_separator win32 symbian_use) ∧
      has_root_name win32 s symbian_use = false := by
  have hd : (char_at s 1 == ':') = false := by
    rw [← h01]
    simpa using not_colon_of_sep h0
  have hn : (is_separator (char_at s 0) && (char_at s 0 == char_at s 1)) = true := by
    rw [Bool.and_eq_true]
    exact ⟨h0, by rw [← h01]; simp⟩
  constructor
  · intro i hi hlt hc
    rw [has_root_dir_of_net win32 symbian_use h0 h01 i hi hlt hc] at h
    exact Bool.noConfusion h
  · cases hf : find_first_of s (get_separator win32 symbian_use) 2 with
    | none => simp [has_root_name, root_name, hd, hn, hf]
    | some res =>
      obtain ⟨h2, hres, hc, _⟩ := find_first_of_some hf
      rw [has_root_dir_of_net win32 symbian_use h0 h01 res h2 hres hc] at h
      exact Bool.noConfusion h

/-- A root directory, when there is one, is a single separator character. -/
theorem root_dir_cases (win32 : Bool) (s : List Char) (symbian_use : Bool) :
    root_dir win32 s symbian_use = [] ∨
      ∃ y, is_separator y = true ∧ root_dir win32 s symbian_use = [y] := by
  by_cases hd : char_at s 1 = ':'
  · rw [root_dir_of_drive win32 symbian_use hd]
    split
    · rename_i hc
      simp only [Bool.and_eq_true, decide_eq_true_eq] at hc
      exact Or.inr ⟨_, hc.2, substr_one hc.1⟩
    · exact Or.inl rfl
  · by_cases hnet : is_separator (char_at s 0) = true ∧ char_at s 0 = char_at s 1
    · rw [root_dir_of_net win32 symbian_use hnet.1 hnet.2]
      split
      · exact Or.inl rfl
      · rename_i res hf
        obtain ⟨_, hres, hc, _⟩ := find_first_of_some hf
        refine Or.inr ⟨_, ?_, substr_one hres⟩
        rw [hc]; exact is_separator_get _ _
    · rw [root_dir_of_other win32 symbian_use hd hnet]
      split
      · rename_i hc
        simp only [Bool.and_eq_true, decide_eq_true_eq] at hc
        exact Or.inr ⟨_, hc.2, substr_one (by omega)⟩
      · exact Or.inl rfl

/-- A path with a root name and no root directory begins with a drive, and the
drive is its root name. -/
theorem root_name_of_no_root_dir (win32 : Bool) {s : List Char} (symbian_use : Bool)
    (hn : has_root_name win32 s symbian_use = true)
    (hd : has_root_dir win32 s symbian_use = false) :
    char_at s 1 = ':' ∧ root_name win32 s symbian_use = s.take 2 := by
  by_cases h1 : char_at s 1 = ':'
  · exact ⟨h1, by simp [root_name, h1, substr_zero]⟩
  · exfalso
    by_cases h0 : is_separator (char_at s 0) = true ∧ char_at s 0 = char_at s 1
    · have := (no_root_dir_of_net win32 symbian_use h0.1 h0.2 hd).2
      rw [this] at hn
      exact Bool.noConfusion hn
    · have hnet : (is_separator (char_at s 0) && (char_at s 0 == char_at s 1)) = false := by
        by_contra hc
        simp only [Bool.not_eq_false, Bool.and_eq_true, beq_iff_eq] at hc
        exact h0 hc
      simp [has_root_name, root_name, h1, hnet]  at hn


/-- The result of `add_path` is `path1` itself (the early return) or the
rewriting of `path1` followed by some string. -/
theorem add_path_cases (win32 : Bool) (path1 path2 : List Char) (symbian_use : Bool) :
    add_path win32 path1 path2 symbian_use = path1 ∨
      ∃ x, add_path win32 path1 path2 symbian_use =
        rewrite_separators win32 (path1 ++ x) symbian_use := by
  unfold add_path
  simp only
  split
  · split
    · exact Or.inl rfl
    · exact Or.inr ⟨_, rfl⟩
  · split
    · exact Or.inr ⟨_, rfl⟩
    · exact Or.inr ⟨_, rfl⟩

theorem ne_alternate_of_not_sep (win32 symbian_use : Bool) {c : Char}
    (h : is_separator c = false) : c ≠ alternate_separator win32 symbian_use := by
  intro hc
  rw [hc, is_separator_alternate] at h
  exact Bool.noConfusion h

theorem drive_rooted_rewrite_append (win32 symbian_use : Bool) {a : List Char}
    (x : List Char) (h : drive_rooted a) :
    drive_rooted (rewrite_separators win32 (a ++ x) symbian_use) := by
  obtain ⟨h1, h2⟩ := h
  have hlen := length_gt_of_sep h2
  constructor
  · rw [rewrite_char_eq, char_at_append_left _ (by omega), h1]
    rw [char_at_append_left _ (by omega), h1]
    exact ne_alternate_of_not_sep _ _ colon_not_sep
  · rw [rewrite_is_separator, char_at_append_left _ hlen, h2]

theorem drive_rooted_add_path (win32 symbian_use : Bool) {path1 : List Char}
    (path2 : List Char) (h : drive_rooted path1) :
    drive_rooted (add_path win32 path1 path2 symbian_use) := by
  rcases add_path_cases win32 path1 path2 symbian_use with hr | ⟨x, hr⟩
  · rw [hr]; exact h
  · rw [hr]; exact drive_rooted_rewrite_append win32 symbian_use x h

/-- Joining anything to a `cwd` that has a root directory gives a path with a
root directory, unless `cwd` begins with two different separators. -/
theorem has_root_dir_add_path (win32 symbian_use : Bool) {cwd : List Char} (p : List Char)
    (h : has_root_dir win32 cwd symbian_use = true)
    (hw : ¬ (is_separator (char_at cwd 1) = true ∧ char_at cwd 0 ≠ char_at cwd 1)) :
    has_root_dir win32 (add_path win32 cwd p symbian_use) symbian_use = true := by
  rcases has_root_dir_cases win32 symbian_use h with hd | ⟨h0, h01, i, hi, hlt, hc⟩ |
    ⟨h0, h1, h01, hlen⟩
  · exact has_root_dir_of_drive win32 symbian_use (drive_rooted_add_path win32 symbian_use p hd)
  · rcases add_path_cases win32 cwd p symbian_use with hr | ⟨x, hr⟩
    · rw [hr]; exact h
    · rw [hr]
      have hmlen : (cwd ++ x).length ≥ cwd.length := by simp
      have hr0 : char_at (rewrite_separators win32 (cwd ++ x) symbian_use) 0 =
          get_separator win32 symbian_use :=
        rewrite_done win32 _ symbian_use 0
          (by rw [char_at_append_left _ (by omega)]; exact h0) (Or.inl (by omega))
      have hr1 : char_at (rewrite_separators win32 (cwd ++ x) symbian_use) 1 =
          get_separator win32 symbian_use :=
        rewrite_done win32 _ symbian_use 1
          (by rw [char_at_append_left _ (by omega), ← h01]; exact h0) (Or.inl (by omega))
      have hri : char_at (rewrite_separators win32 (cwd ++ x) symbian_use) i =
          get_separator win32 symbian_use := by
        rw [rewrite_char_eq, char_at_append_left _ hlt, hc]
        rw [char_at_append_left _ hlt, hc]
        exact (alternate_ne_get _ _).symm
      exact has_root_dir_of_net win32 symbian_use (by rw [hr0]; exact is_separator_get _ _)
        (by rw [hr0, hr1]) i hi (by rw [rewrite_length]; omega) hri
  · have hns : is_separator (char_at cwd 1) = false := by
      by_contra hs
      exact hw ⟨by simpa using hs, h01⟩
    rcases add_path_cases win32 cwd p symbian_use with hr | ⟨x, hr⟩
    · rw [hr]; exact h
    · rw [hr]
      have hmlen : (cwd ++ x).length ≥ cwd.length := by simp
      have hr0 : is_separator (char_at (rewrite_separators win32 (cwd ++ x) symbian_use) 0)
          = true := by
        rw [rewrite_is_separator, char_at_append_left _ (by omega)]; exact h0
      have hr1 : char_at (rewrite_separators win32 (cwd ++ x) symbian_use) 1 =
          char_at cwd 1 := by
        rw [rewrite_char_eq, char_at_append_left _ hlen]
        rw [char_at_append_left _ hlen]
        exact ne_alternate_of_not_sep _ _ hns
      apply has_root_dir_of_lead win32 symbian_use hr0
      · rw [hr1]; exact h1
      · intro heq
        rw [heq, hr1, hns] at hr0
        exact Bool.noConfusion hr0
      · rw [rewrite_length]; omega


theorem ext_char_at {l1 l2 : List Char} (hlen : l1.length = l2.length)
    (h : ∀ i, i < l1.length → char_at l1 i = char_at l2 i) : l1 = l2 := by
  apply List.ext_getElem hlen
  intro i h1 h2
  have := h i h1
  rwa [char_at_of_lt h1, char_at_of_lt h2] at this

/-- The shape of `add_path(path1, path2)` for a non-empty `path2`: `path1`
itself, or the rewriting of `path1 ++ ns` for a non-empty `ns` that begins
with a separator when `path1` does not end with one. -/
theorem add_path_shape (win32 : Bool) (path1 path2 : List Char) (symbian_use : Bool)
    (h2 : path2 ≠ []) :
    add_path win32 path1 path2 symbian_use = path1 ∨
      ∃ ns, ns ≠ [] ∧
        add_path win32 path1 path2 symbian_use =
          rewrite_separators win32 (path1 ++ ns) symbian_use ∧
        (is_separator (char_at path1 (path1.length - 1)) = false →
          is_separator (char_at ns 0) = true) := by
  cases he : is_separator (char_at path1 (path1.length - 1)) <;>
    cases hb : is_separator (char_at path2 0)
  · right
    refine ⟨'/' :: path2, by simp, add_path_neither win32 _ _ _ he hb, fun _ => ?_⟩
    rw [char_at_cons_zero]; decide
  · right
    refine ⟨path2, h2, add_path_one win32 _ _ _ (by rw [he, hb]; decide), fun _ => hb⟩
  · right
    refine ⟨path2, h2, add_path_one win32 _ _ _ (by rw [he, hb]; decide), fun h => ?_⟩
    exact Bool.noConfusion h
  · rw [add_path_both win32 _ _ _ he hb]
    cases hf : find_first_not_of path2 (char_at path2 0) with
    | none => exact Or.inl rfl
    | some k =>
      right
      obtain ⟨_, hk, _, _⟩ := find_index_some hf
      refine ⟨substr_from path2 k, ?_, rfl, fun h => Bool.noConfusion h⟩
      intro hnil
      have : (substr_from path2 k).length = 0 := by rw [hnil]; rfl
      simp only [substr_from, List.length_drop] at this
      omega

/-- For a `cwd` that begins with two different separators, a second
`absolute_path` gives back `add_path(cwd, p)`, whether this has a root
directory or not. -/
theorem absolute_path_add_path_two_separators (win32 symbian_use : Bool)
    (cwd p : List Char) (h0 : is_separator (char_at cwd 0) = true)
    (h1 : is_separator (char_at cwd 1) = true) (h01 : char_at cwd 0 ≠ char_at cwd 1)
    (hp : p ≠ []) :
    absolute_path win32 (add_path win32 cwd p symbian_use) cwd symbian_use =
      add_path win32 cwd p symbian_use := by
  have hclen : 1 < cwd.length := length_gt_of_sep h1
  have hcwd : has_root_dir win32 cwd symbian_use = true :=
    has_root_dir_of_lead win32 symbian_use h0 (not_colon_of_sep h1) h01 hclen
  rcases add_path_shape win32 cwd p symbian_use hp with hr | ⟨ns, hns, hr, hbeg⟩
  · rw [hr]; exact absolute_path_of_root_dir win32 cwd cwd symbian_use hcwd
  · rw [hr]
    cases hrd : has_root_dir win32 (rewrite_separators win32 (cwd ++ ns) symbian_use) symbian_use
    swap
    · exact absolute_path_of_root_dir win32 _ cwd symbian_use hrd
    · have hnslen : 0 < ns.length := List.length_pos.2 hns
      have hmlen : (cwd ++ ns).length = cwd.length + ns.length := by simp
      have hrlen := rewrite_length win32 (cwd ++ ns) symbian_use
      have hr0 : char_at (rewrite_separators win32 (cwd ++ ns) symbian_use) 0 =
          get_separator win32 symbian_use :=
        rewrite_done win32 _ symbian_use 0
          (by rw [char_at_append_left _ (by omega)]; exact h0) (Or.inl (by omega))
      have hr1 : char_at (rewrite_separators win32 (cwd ++ ns) symbian_use) 1 =
          get_separator win32 symbian_use :=
        rewrite_done win32 _ symbian_use 1
          (by rw [char_at_append_left _ (by omega)]; exact h1) (Or.inl (by omega))
      obtain ⟨hnone, hname⟩ := no_root_dir_of_net win32 symbian_use
        (by rw [hr0]; exact is_separator_get _ _) (by rw [hr0, hr1]) hrd
      -- no separator of `cwd ++ ns` from index 2 on is made canonical
      have hY : ∀ i, 2 ≤ i → is_separator (char_at (cwd ++ ns) i) = true →
          (i + 1 < (cwd ++ ns).length ∨
            (0 < i ∧ char_at (cwd ++ ns) (i - 1) ≠ alternate_separator win32 symbian_use)) →
          False := by
        intro i hi hs hpos
        have hlt := length_gt_of_sep hs
        exact hnone i hi (by omega) (rewrite_done win32 _ symbian_use i hs hpos)
      -- so `cwd` ends with a separator
      have hend : is_separator (char_at cwd (cwd.length - 1)) = true := by
        by_contra hne
        have hne : is_separator (char_at cwd (cwd.length - 1)) = false := by simpa using hne
        have hns0 : char_at (cwd ++ ns) cwd.length = char_at ns 0 := by
          simpa using char_at_append_right cwd ns 0
        apply hY cwd.length (by omega) (by rw [hns0]; exact hbeg hne)
        right
        refine ⟨by omega, ?_⟩
        rw [char_at_append_left _ (by omega)]
        exact ne_alternate_of_not_sep _ _ hne
      -- and has two characters only
      have hc2 : cwd.length = 2 := by
        by_contra hne
        apply hY (cwd.length - 1) (by omega)
          (by rw [char_at_append_left _ (by omega)]; exact hend)
        left; omega
      have hX : ∀ i, 2 ≤ i → i < (cwd ++ ns).length →
          char_at (rewrite_separators win32 (cwd ++ ns) symbian_use) i =
            char_at (cwd ++ ns) i := by
        intro i hi hlt
        rcases rewrite_char win32 (cwd ++ ns) symbian_use i with h | ⟨_, h⟩
        · exact h
        · exact absurd h (hnone i hi (by omega))
      have hright : ∀ i, char_at (cwd ++ ns) (2 + i) = char_at ns i := by
        intro i
        have := char_at_append_right cwd ns i
        rwa [hc2] at this
      have hshape : rewrite_separators win32 (cwd ++ ns) symbian_use =
          List.replicate 2 (get_separator win32 symbian_use) ++ ns := by
        apply ext_char_at
        · rw [hrlen, hmlen, hc2]; simp; omega
        · intro i hi
          rcases Nat.lt_or_ge i 2 with hlt | hge
          · have : i = 0 ∨ i = 1 := by omega
            rcases this with rfl | rfl
            · rw [hr0]; rfl
            · rw [hr1]; rfl
          · obtain ⟨j, rfl⟩ : ∃ j, i = 2 + j := ⟨i - 2, by omega⟩
            rw [hX _ hge (by omega), hright]
            have := char_at_append_right
              (List.replicate 2 (get_separator win32 symbian_use)) ns j
            simp only [List.length_replicate] at this
            rw [this]
      have hns0 : char_at ns 0 ≠ get_separator win32 symbian_use := by
        have := hnone 2 (Nat.le_refl 2) (by omega)
        rwa [hX 2 (Nat.le_refl 2) (by omega), hright 0] at this
      rw [absolute_path_rootless win32 _ cwd symbian_use hrd hname,
        add_path_both win32 cwd _ symbian_use hend (by rw [hr0]; exact is_separator_get _ _),
        hr0]
      conv => lhs; rw [hshape]
      rw [find_first_not_of_run _ 2 ns hns hns0]
      simp [substr_from]


theorem absolute_path_name_only (win32 : Bool) (p cwd : List Char) (symbian_use : Bool)
    (h1 : has_root_name win32 p symbian_use = true)
    (h2 : has_root_dir win32 p symbian_use = false) :
    absolute_path win32 p cwd symbian_use =
      add_path win32
        (add_path win32
          (add_path win32 (root_name win32 p symbian_use) (root_dir win32 cwd symbian_use)
            symbian_use)
          (relative_path win32 cwd symbian_use) symbian_use)
        (relative_path win32 p symbian_use) symbian_use := by
  simp [absolute_path, h1, h2]

/-- For a path with a root name only and a `cwd` with a root directory, the
result of `absolute_path` is drive-rooted. -/
theorem drive_rooted_absolute_path_name_only (win32 symbian_use : Bool) (p cwd : List Char)
    (h1 : has_root_name win32 p symbian_use = true)
    (h2 : has_root_dir win32 p symbian_use = false)
    (hcwd : has_root_dir win32 cwd symbian_use = true) :
    drive_rooted (absolute_path win32 p cwd symbian_use) := by
  obtain ⟨hcolon, hname⟩ := root_name_of_no_root_dir win32 symbian_use h1 h2
  have hplen := length_gt_of_colon hcolon
  rw [absolute_path_name_only win32 p cwd symbian_use h1 h2, hname]
  apply drive_rooted_add_path
  apply drive_rooted_add_path
  rcases root_dir_cases win32 cwd symbian_use with hnil | ⟨y, hy, hdir⟩
  · simp [has_root_dir, hnil] at hcwd
  · rw [hdir]
    have htl : (p.take 2).length = 2 := by
      rw [List.length_take]; omega
    have hlast : char_at (p.take 2) ((p.take 2).length - 1) = ':' := by
      rw [htl, char_at_take (by omega)]; exact hcolon
    rw [add_path_one win32 _ _ symbian_use
      (by rw [hlast, char_at_cons_zero, colon_not_sep, hy]; decide)]
    constructor
    · rw [rewrite_char_eq, char_at_append_left _ (by omega), char_at_take (by omega), hcolon]
      rw [char_at_append_left _ (by omega), char_at_take (by omega), hcolon]
      exact ne_alternate_of_not_sep _ _ colon_not_sep
    · rw [rewrite_is_separator]
      have := char_at_append_right (p.take 2) [y] 0
      rw [htl] at this
      rw [this, char_at_cons_zero]; exact hy

/-- A path with a root name and no root directory becomes drive-rooted, with
any working directory: the join starts with the two characters of the root
name and a separator. -/
theorem drive_rooted_absolute_path_of_root_name (win32 symbian_use : Bool) (p cwd : List Char)
    (h1 : has_root_name win32 p symbian_use = true)
    (h2 : has_root_dir win32 p symbian_use = false) :
    drive_rooted (absolute_path win32 p cwd symbian_use) := by
  obtain ⟨hcolon, hname⟩ := root_name_of_no_root_dir win32 symbian_use h1 h2
  have hplen := length_gt_of_colon hcolon
  rw [absolute_path_name_only win32 p cwd symbian_use h1 h2, hname]
  apply drive_rooted_add_path
  apply drive_rooted_add_path
  have htl : (p.take 2).length = 2 := by
    rw [List.length_take]; omega
  have hlast : char_at (p.take 2) ((p.take 2).length - 1) = ':' := by
    rw [htl, char_at_take (by omega)]; exact hcolon
  rcases root_dir_cases win32 cwd symbian_use with hnil | ⟨y, hy, hdir⟩
  · rw [hnil, add_path_neither win32 _ _ symbian_use
      (by rw [hlast]; exact colon_not_sep) (by rw [char_at_nil]; exact not_sep_nul)]
    constructor
    · rw [rewrite_char_eq, char_at_append_left _ (by omega), char_at_take (by omega), hcolon]
      rw [char_at_append_left _ (by omega), char_at_take (by omega), hcolon]
      exact ne_alternate_of_not_sep _ _ colon_not_sep
    · rw [rewrite_is_separator]
      have := char_at_append_right (p.take 2) ['/'] 0
      rw [htl] at this
      rw [this, char_at_cons_zero]; decide
  · rw [hdir]
    rw [add_path_one win32 _ _ symbian_use
      (by rw [hlast, char_at_cons_zero, colon_not_sep, hy]; decide)]
    constructor
    · rw [rewrite_char_eq, char_at_append_left _ (by omega), char_at_take (by omega), hcolon]
      rw [char_at_append_left _ (by omega), char_at_take (by omega), hcolon]
      exact ne_alternate_of_not_sep _ _ colon_not_sep
    · rw [rewrite_is_separator]
      have := char_at_append_right (p.take 2) [y] 0
      rw [htl] at this
      rw [this, char_at_cons_zero]; exact hy

/-- Claim C1, counterexample. With `p = "x"` and `cwd = "y"`, a working
directory without a root, `absolute_path(p, cwd)` is `y/x` and a second
`absolute_path` joins `cwd` once more: `y/y/x`. -/
theorem absolute_path_not_idempotent :
    absolute_path false "x".toList "y".toList false = "y/x".toList ∧
      absolute_path false (absolute_path false "x".toList "y".toList false) "y".toList false =
        "y/y/x".toList ∧
      absolute_path false (absolute_path false "x".toList "y".toList false) "y".toList false ≠
        absolute_path false "x".toList "y".toList false := by
  decide

/-- Claim C1, amended. For all paths `p` and `cwd` and both modes, with `r` the
first result `absolute_path(p, cwd)`: the second call returns `r`, that is
`absolute_path(absolute_path(p, cwd), cwd) = absolute_path(p, cwd)`, exactly
when `r` has a root directory, or `r` has no root name and joining `cwd` to it
leaves it as it is (`add_path(cwd, r) = r`).  It does so whenever `p` has a
root directory or a root name, with any `cwd`, and for every non-empty `p`
whenever `cwd` has a root directory. -/
theorem absolute_path_idempotent (win32 symbian_use : Bool) (p cwd : List Char) :
    (absolute_path win32 (absolute_path win32 p cwd symbian_use) cwd symbian_use =
        absolute_path win32 p cwd symbian_use ↔
      has_root_dir win32 (absolute_path win32 p cwd symbian_use) symbian_use = true ∨
        (has_root_name win32 (absolute_path win32 p cwd symbian_use) symbian_use = false ∧
          add_path win32 cwd (absolute_path win32 p cwd symbian_use) symbian_use =
            absolute_path win32 p cwd symbian_use)) ∧
    (has_root_dir win32 p symbian_use = true ∨ has_root_name win32 p symbian_use = true →
      absolute_path win32 (absolute_path win32 p cwd symbian_use) cwd symbian_use =
        absolute_path win32 p cwd symbian_use) ∧
    (p ≠ [] → has_root_dir win32 cwd symbian_use = true →
      absolute_path win32 (absolute_path win32 p cwd symbian_use) cwd symbian_use =
        absolute_path win32 p cwd symbian_use) := by
  have hfix : ∀ r : List Char,
      (absolute_path win32 r cwd symbian_use = r ↔
        has_root_dir win32 r symbian_use = true ∨
          (has_root_name win32 r symbian_use = false ∧
            add_path win32 cwd r symbian_use = r)) := by
    intro r
    cases hd : has_root_dir win32 r symbian_use with
    | true =>
      rw [absolute_path_of_root_dir win32 r cwd symbian_use hd]
      exact ⟨fun _ => Or.inl rfl, fun _ => rfl⟩
    | false =>
      cases hn : has_root_name win32 r symbian_use with
      | false =>
        rw [absolute_path_rootless win32 r cwd symbian_use hd hn]
        constructor
        · intro h; exact Or.inr ⟨rfl, h⟩
        · intro h
          rcases h with h | h
          · exact Bool.noConfusion h
          · exact h.2
      | true =>
        constructor
        · intro h
          have hdr := has_root_dir_of_drive win32 symbian_use
            (drive_rooted_absolute_path_of_root_name win32 symbian_use r cwd hn hd)
          rw [h, hd] at hdr
          exact Bool.noConfusion hdr
        · intro h
          rcases h with h | h
          · exact Bool.noConfusion h
          · exact Bool.noConfusion h.1
  have hrooted : has_root_dir win32 p symbian_use = true ∨
      has_root_name win32 p symbian_use = true →
      absolute_path win32 (absolute_path win32 p cwd symbian_use) cwd symbian_use =
        absolute_path win32 p cwd symbian_use := by
    intro h
    cases hpd : has_root_dir win32 p symbian_use with
    | true =>
      rw [absolute_path_of_root_dir win32 p cwd symbian_use hpd,
        absolute_path_of_root_dir win32 p cwd symbian_use hpd]
    | false =>
      have hpn : has_root_name win32 p symbian_use = true := by
        rcases h with h | h
        · rw [hpd] at h; exact Bool.noConfusion h
        · exact h
      exact absolute_path_of_root_dir win32 _ cwd symbian_use
        (has_root_dir_of_drive win32 symbian_use
          (drive_rooted_absolute_path_of_root_name win32 symbian_use p cwd hpn hpd))
  refine ⟨hfix _, hrooted, ?_⟩
  intro hp hcwd
  cases hpd : has_root_dir win32 p symbian_use with
  | true => exact hrooted (Or.inl hpd)
  | false =>
    cases hpn : has_root_name win32 p symbian_use with
    | true => exact hrooted (Or.inr hpn)
    | false =>
      rw [absolute_path_rootless win32 p cwd symbian_use hpd hpn]
      by_cases hw : is_separator (char_at cwd 1) = true ∧ char_at cwd 0 ≠ char_at cwd 1
      · have h0 : is_separator (char_at cwd 0) = true := by
          rcases has_root_dir_cases win32 symbian_use hcwd with hd | ⟨_, h01, _⟩ | ⟨h0, _⟩
          · exact absurd hd.1 (not_colon_of_sep hw.1)
          · exact absurd h01 hw.2
          · exact h0
        exact absolute_path_add_path_two_separators win32 symbian_use cwd p h0 hw.1 hw.2 hp
      · exact absolute_path_of_root_dir win32 _ cwd symbian_use
          (has_root_dir_add_path win32 symbian_use p hcwd hw)

theorem absolute_path_idempotent_witness :
    absolute_path false (absolute_path false "D:x".toList "cwd".toList true)
        "cwd".toList true =
      absolute_path false "D:x".toList "cwd".toList true ∧
    absolute_path false (absolute_path false "file.txt".toList "C:\\data".toList true)
        "C:\\data".toList true =
      absolute_path false "file.txt".toList "C:\\data".toList true ∧
    absolute_path false (absolute_path false "x".toList "//".toList false) "//".toList false =
      absolute_path false "x".toList "//".toList false :=
  ⟨(absolute_path_idempotent false true "D:x".toList "cwd".toList).2.1 (Or.inr (by decide)),
    (absolute_path_idempotent false true "file.txt".toList "C:\\data".toList).2.2
      (by decide) (by decide),
    (absolute_path_idempotent false false "x".toList "//".toList).1.mpr
      (Or.inr ⟨by decide, by decide⟩)⟩


/-! ## `root_dir` against `root_name`; absolute paths -/

/-- Value of `root_name` for a path that begins with two equal separators. -/
theorem root_name_of_net (win32 : Bool) {s : List Char} (symbian_use : Bool)
    (h0 : is_separator (char_at s 0) = true) (h01 : char_at s 0 = char_at s 1) :
    root_name win32 s symbian_use =
      match find_first_of s (get_separator win32 symbian_use) 2 with
      | none => []
      | some res => substr s 0 res := by
  have hd : (char_at s 1 == ':') = false := by
    rw [← h01]
    simpa using not_colon_of_sep h0
  have hn : (is_separator (char_at s 0) && (char_at s 0 == char_at s 1)) = true := by
    rw [Bool.and_eq_true]
    exact ⟨h0, by rw [← h01]; simp⟩
  simp only [root_name, hd, hn]
  simp

/-- Value of `root_name` for a path with neither `path[1] = ':'` nor two equal
separators in front. -/
theorem root_name_of_other (win32 : Bool) {s : List Char} (symbian_use : Bool)
    (h1 : char_at s 1 ≠ ':')
    (hnet : ¬ (is_separator (char_at s 0) = true ∧ char_at s 0 = char_at s 1)) :
    root_name win32 s symbian_use = [] := by
  have hd : (char_at s 1 == ':') = false := by simpa using h1
  have hn : (is_separator (char_at s 0) && (char_at s 0 == char_at s 1)) = false := by
    by_contra hc
    simp only [Bool.not_eq_false, Bool.and_eq_true, beq_iff_eq] at hc
    exact hnet hc
  simp only [root_name, hd, hn]
  simp

/-- Claim C11, counterexample. For the path `/` the root name is empty and the
first character is a separator, yet `root_dir` is empty (its test asks for
`path.size() > 1`); the same holds for `//abc`, where no further `/` follows the
two in front. -/
theorem root_dir_empty_despite_separator :
    "/".toList ≠ [] ∧ root_name false "/".toList false = [] ∧
      is_separator (char_at "/".toList 0) = true ∧
      root_dir false "/".toList false = [] ∧
      root_dir false "/".toList false ≠ [char_at "/".toList 0] ∧
      root_name false "//abc".toList false = [] ∧
      is_separator (char_at "//abc".toList 0) = true ∧
      root_dir false "//abc".toList false = [] := by
  decide

/-- Claim C11, amended. For every non-empty path `p` that is not a single
separator character and is not a path that begins with two equal separators
and has no canonical separator from index 2 on, `root_dir(p)` is the
one-character string holding the character that follows `root_name(p)` in `p`
(the first character of `p` when the root name is empty) if that character is a
separator, and is empty otherwise; for the two kinds of path left out
`root_dir(p)` is empty, although their first character is a separator. -/
theorem root_dir_follows_root_name (win32 : Bool) (p : List Char) (symbian_use : Bool)
    (_hp : p ≠ []) :
    (¬ (p.length = 1 ∧ is_separator (char_at p 0) = true) →
      ¬ (is_separator (char_at p 0) = true ∧ char_at p 0 = char_at p 1 ∧
          ∀ i, 2 ≤ i → i < p.length → char_at p i ≠ get_separator win32 symbian_use) →
      root_dir win32 p symbian_use =
        if is_separator (char_at p (root_name win32 p symbian_use).length) then
          [char_at p (root_name win32 p symbian_use).length]
        else []) ∧
    ((p.length = 1 ∧ is_separator (char_at p 0) = true) ∨
        (is_separator (char_at p 0) = true ∧ char_at p 0 = char_at p 1 ∧
          ∀ i, 2 ≤ i → i < p.length → char_at p i ≠ get_separator win32 symbian_use) →
      root_dir win32 p symbian_use = []) := by
  constructor
  · intro hlone hunc
    by_cases hd : char_at p 1 = ':'
    · have hlen := length_gt_of_colon hd
      have hname : (root_name win32 p symbian_use).length = 2 := by
        simp only [root_name, hd, beq_self_eq_true, if_true, substr_zero, List.length_take]
        omega
      rw [hname, root_dir_of_drive win32 symbian_use hd]
      by_cases hs : is_separator (char_at p 2) = true
      · have h2 := length_gt_of_sep hs
        simp [hs, h2, substr_one h2]
      · simp [hs]
    · by_cases hnet : is_separator (char_at p 0) = true ∧ char_at p 0 = char_at p 1
      · rw [root_dir_of_net win32 symbian_use hnet.1 hnet.2,
          root_name_of_net win32 symbian_use hnet.1 hnet.2]
        cases hf : find_first_of p (get_separator win32 symbian_use) 2 with
        | none =>
          exfalso
          apply hunc
          refine ⟨hnet.1, hnet.2, fun i hi hlt hc => ?_⟩
          rcases find_first_of_none hf i hi with h | h
          · exact h hc
          · omega
        | some res =>
          obtain ⟨_, hres, hc, _⟩ := find_first_of_some hf
          have hlen : (substr p 0 res).length = res := by
            rw [substr_zero, List.length_take]; omega
          simp only [hlen, hc, is_separator_get, if_true]
          rw [substr_one hres, hc]
      · rw [root_dir_of_other win32 symbian_use hd hnet,
          root_name_of_other win32 symbian_use hd hnet]
        simp only [List.length_nil]
        by_cases hs : is_separator (char_at p 0) = true
        · have h0 := length_gt_of_sep hs
          have h1 : p.length > 1 := by
            by_contra hle
            exact hlone ⟨by omega, hs⟩
          simp [hs, h1, substr_one h0]
        · simp [hs]
  · rintro (⟨hlen, hs⟩ | ⟨hs, h01, hnone⟩)
    · have h1 : char_at p 1 ≠ ':' := by
        rw [char_at_of_le (by omega)]; decide
      have hnet : ¬ (is_separator (char_at p 0) = true ∧ char_at p 0 = char_at p 1) := by
        rintro ⟨h, h01⟩
        rw [h01, char_at_of_le (by omega), not_sep_nul] at h
        exact Bool.noConfusion h
      rw [root_dir_of_other win32 symbian_use h1 hnet]
      simp [hlen]
    · rw [root_dir_of_net win32 symbian_use hs h01, find_first_of_eq_none hnone]

theorem root_dir_follows_root_name_witness :
    root_dir false "C:\\data".toList true =
      if is_separator (char_at "C:\\data".toList
          (root_name false "C:\\data".toList true).length) then
        [char_at "C:\\data".toList (root_name false "C:\\data".toList true).length]
      else [] :=
  (root_dir_follows_root_name false "C:\\data".toList true (by decide)).1
    (by decide) (fun h => absurd h.1 (by decide))

/-- Claim C12. For every path `p` that has a root directory and every `cwd`,
`absolute_path(p, cwd)` returns `p` unchanged, so `is_absolute(p, cwd)` is
true. -/
theorem absolute_path_unchanged_of_root_dir (win32 : Bool) (p cwd : List Char)
    (symbian_use : Bool) (h : has_root_dir win32 p symbian_use = true) :
    absolute_path win32 p cwd symbian_use = p ∧
      is_absolute win32 p cwd symbian_use = true := by
  have habs := absolute_path_of_root_dir win32 p cwd symbian_use h
  exact ⟨habs, by simp [is_absolute, habs]⟩

theorem absolute_path_unchanged_of_root_dir_witness :
    absolute_path false "C:\\data\\x".toList "D:\\cwd".toList true = "C:\\data\\x".toList ∧
      is_absolute false "C:\\data\\x".toList "D:\\cwd".toList true = true :=
  absolute_path_unchanged_of_root_dir false "C:\\data\\x".toList "D:\\cwd".toList true
    (by decide)

end eka2l1

namespace eka2l1.service

/-! ## Properties -/

theorem property_new_data_len (pt : property_type) (pre_allocated : Nat) (uninit : property) :
    (property_new pt pre_allocated uninit).data_len = min pre_allocated 512 := by
  unfold property_new
  split
  · simp; omega
  · simp; omega

theorem property_new_data_type (pt : property_type) (pre_allocated : Nat) (uninit : property) :
    (property_new pt pre_allocated uninit).data_type = pt := by
  unfold property_new
  split <;> rfl

/-- Claim C13. Set/get round trip: for every int-typed property, whatever its
`data_len`, `set(v)` returns true and `get_int()` then returns `v`; for every
property and every payload `b` whose length is within the capacity `data_len`,
`set(b, |b|)` returns true and `get_bin()` then returns exactly the bytes of
`b`; so it is for a binary property of capacity 16 and `b = "hello"`. -/
theorem property_set_get_round_trip :
    (∀ (p : property) (kern : kernel_system) (v : Int),
      p.data_type = property_type.int_data →
      (p.set_int kern v).1 = true ∧
        ((p.set_int kern v).2.1.get_int (p.set_int kern v).2.2).1 = v) ∧
    (∀ (p : property) (kern : kernel_system) (b : List Nat),
      b.length ≤ p.data_len →
      (p.set_bin kern b b.length).1 = true ∧
        ((p.set_bin kern b b.length).2.1.get_bin (p.set_bin kern b b.length).2.2).1 = b) ∧
    (∀ (uninit : property) (kern : kernel_system),
      ((property_new property_type.bin_data 16 uninit).set_bin kern
          [104, 101, 108, 108, 111] 5).1 = true ∧
        (((property_new property_type.bin_data 16 uninit).set_bin kern
            [104, 101, 108, 108, 111] 5).2.1.get_bin
          ((property_new property_type.bin_data 16 uninit).set_bin kern
            [104, 101, 108, 108, 111] 5).2.2).1 = [104, 101, 108, 108, 111]) := by
  have hbin : ∀ (p : property) (kern : kernel_system) (b : List Nat),
      b.length ≤ p.data_len →
      (p.set_bin kern b b.length).1 = true ∧
        ((p.set_bin kern b b.length).2.1.get_bin (p.set_bin kern b b.length).2.2).1 = b := by
    intro p kern b hb
    have hnot : ¬ b.length > p.data_len := by omega
    simp only [property.set_bin, hnot, if_false, property.get_bin, true_and]
    simp [memcpy]
  refine ⟨?_, hbin, ?_⟩
  · intro p kern v hp
    simp [property.set_int, property.get_int, hp]
  · intro uninit kern
    exact hbin (property_new property_type.bin_data 16 uninit) kern [104, 101, 108, 108, 111]
      (by rw [property_new_data_len]; decide)

theorem property_set_get_round_trip_witness :
    ((property.mk 1 2 property_type.int_data 4 0 [] 0).set_int ⟨[]⟩ 7).1 = true ∧
      (((property.mk 1 2 property_type.int_data 4 0 [] 0).set_int ⟨[]⟩ 7).2.1.get_int
        ((property.mk 1 2 property_type.int_data 4 0 [] 0).set_int ⟨[]⟩ 7).2.2).1 = 7 :=
  property_set_get_round_trip.1 (property.mk 1 2 property_type.int_data 4 0 [] 0) ⟨[]⟩ 7 rfl

/-- Claim C14, the code at the failing input. On a property of type int with
`pre_allocated = 4`, `set(bdata, 4)` with the four bytes 1, 2, 3, 4 returns
true, copies the bytes into `data.bindata`, sets `bin_data_len` to 4 and
notifies: `set(uint8_t *, uint32_t)` tests the length only, never `data_type`,
unlike `set(int)`. -/
theorem property_set_bin_on_int_accepted (uninit : property) (kern : kernel_system) :
    (property_new property_type.int_data 4 uninit).data_type = property_type.int_data ∧
    ((property_new property_type.int_data 4 uninit).set_bin kern [1, 2, 3, 4] 4).1 = true ∧
    ((property_new property_type.int_data 4 uninit).set_bin kern [1, 2, 3, 4] 4).2.1.bindata =
      [1, 2, 3, 4] ++ uninit.bindata.drop 4 ∧
    ((property_new property_type.int_data 4 uninit).set_bin kern [1, 2, 3, 4] 4).2.1.bin_data_len
      = 4 ∧
    ((property_new property_type.int_data 4 uninit).set_bin kern [1, 2, 3, 4] 4).2.2.notified =
      kern.notified ++ [(uninit.first, uninit.second)] := by
  have hlen := property_new_data_len property_type.int_data 4 uninit
  have hnot : ¬ 4 > (property_new property_type.int_data 4 uninit).data_len := by
    rw [hlen]; decide
  refine ⟨property_new_data_type _ _ _, ?_, ?_, ?_, ?_⟩ <;>
    simp [property.set_bin, hnot, memcpy, property.notify_request,
      kernel_system.notify_prop, property_new]

/-- Claim C15. A rejected set is atomic: `set(int)` on a property whose type is
not int, and `set(bdata, n)` with `n` greater than the capacity `data_len`,
return false and leave the property (int value, bytes, binary length) and the
kernel (no notification) as they were; the capacity of a constructed property
is `min(pre_allocated, 512)`, so every `n > 512` is rejected. -/
theorem property_rejected_set_atomic :
    (∀ (p : property) (kern : kernel_system) (v : Int),
      p.data_type ≠ property_type.int_data → p.set_int kern v = (false, p, kern)) ∧
    (∀ (p : property) (kern : kernel_system) (bdata : List Nat) (n : Nat),
      p.data_len < n → p.set_bin kern bdata n = (false, p, kern)) ∧
    (∀ (pt : property_type) (pre_allocated : Nat) (uninit : property),
      (property_new pt pre_allocated uninit).data_len = min pre_allocated 512) ∧
    (∀ (pt : property_type) (pre_allocated : Nat) (uninit : property) (kern : kernel_system)
        (bdata : List Nat) (n : Nat), 512 < n →
      (property_new pt pre_allocated uninit).set_bin kern bdata n =
        (false, property_new pt pre_allocated uninit, kern)) := by
  have hbin : ∀ (p : property) (kern : kernel_system) (bdata : List Nat) (n : Nat),
      p.data_len < n → p.set_bin kern bdata n = (false, p, kern) := by
    intro p kern bdata n hn
    simp [property.set_bin, hn]
  refine ⟨?_, hbin, property_new_data_len, ?_⟩
  · intro p kern v hp
    simp [property.set_int, hp]
  · intro pt pre uninit kern bdata n hn
    apply hbin
    rw [property_new_data_len]; omega

theorem property_rejected_set_atomic_witness :
    (property.mk 1 2 property_type.bin_data 16 0 [] 0).set_int ⟨[]⟩ 7 =
      (false, property.mk 1 2 property_type.bin_data 16 0 [] 0, ⟨[]⟩) :=
  property_rejected_set_atomic.1 (property.mk 1 2 property_type.bin_data 16 0 [] 0) ⟨[]⟩ 7
    (by decide)

/-- Claim C16. Every successful set on a property, int or binary, issues
exactly one notification, for the property's own pair (category, key): the
kernel's record grows by that one pair; `get_int` and `get_bin` issue none and
change no field of the property. -/
theorem property_set_notifies_once :
    (∀ (p : property) (kern : kernel_system) (v : Int), (p.set_int kern v).1 = true →
      (p.set_int kern v).2.2.notified = kern.notified ++ [(p.first, p.second)] ∧
      ((p.set_int kern v).2.1.first, (p.set_int kern v).2.1.second) = (p.first, p.second)) ∧
    (∀ (p : property) (kern : kernel_system) (bdata : List Nat) (n : Nat),
      (p.set_bin kern bdata n).1 = true →
      (p.set_bin kern bdata n).2.2.notified = kern.notified ++ [(p.first, p.second)] ∧
      ((p.set_bin kern bdata n).2.1.first, (p.set_bin kern bdata n).2.1.second) =
        (p.first, p.second)) ∧
    (∀ (p : property) (kern : kernel_system), (p.get_int kern).2 = (p, kern)) ∧
    (∀ (p : property) (kern : kernel_system), (p.get_bin kern).2 = (p, kern)) := by
  refine ⟨?_, ?_, ?_, ?_⟩
  · intro p kern v h
    by_cases hp : p.data_type = property_type.int_data
    · simp [property.set_int, hp, property.notify_request, kernel_system.notify_prop]
    · simp [property.set_int, hp] at h
  · intro p kern bdata n h
    by_cases hn : n > p.data_len
    · simp [property.set_bin, hn] at h
    · simp [property.set_bin, hn, property.notify_request, kernel_system.notify_prop]
  · intro p kern
    unfold property.get_int
    split <;> rfl
  · intro p kern
    rfl

theorem property_set_notifies_once_witness :
    ((property.mk 1 2 property_type.int_data 4 0 [] 0).set_int ⟨[(9, 9)]⟩ 7).2.2.notified =
      [(9, 9)] ++ [(1, 2)] :=
  (property_set_notifies_once.1 (property.mk 1 2 property_type.int_data 4 0 [] 0)
    ⟨[(9, 9)]⟩ 7 rfl).1

end eka2l1.service

namespace eka2l1.epoc

/-! ## Objects and handles of a window server client -/

theorem modify_append_singleton {α : Type} (f : α → α) (l : List α) (x : α) :
    (l ++ [x]).modify f l.length = l ++ [f x] := by
  induction l with
  | nil => rfl
  | cons a l ih => simp [List.modify_succ_cons, ih]

/-- What `add_object` does, in one step: the object goes to the end of
`objects` with `id` set to the handle, and the handle is
`objects.size() + base_handle` as a `std::uint32_t`. -/
theorem add_object_eq (c : window_server_client) (obj : window_client_obj) :
    add_object c obj =
      (to_uint32 (c.objects.length + 1 + base_handle),
        { c with objects := c.objects ++
            [{ obj with id := to_uint32 (base_handle + (c.objects.length + 1)) }] }) := by
  simp [add_object, modify_append_singleton]


/-- Claim C17. Handle validity: for every client state and every handle `h`,
`get_object(h)` returns an object if and only if
`base_handle < h ≤ base_handle + |objects|`; it then returns the pointer to
`objects[h - base_handle - 1]`, and otherwise null. -/
theorem get_object_valid_iff (c : window_server_client) (h : Nat) :
    ((get_object c h).isSome = true ↔
      base_handle < h ∧ h ≤ base_handle + c.objects.length) ∧
    (base_handle < h → h ≤ base_handle + c.objects.length →
      get_object c h = some (h - base_handle - 1) ∧
      h - base_handle - 1 < c.objects.length ∧
      deref c (get_object c h) = c.objects[h - base_handle - 1]? ∧
      (deref c (get_object c h)).isSome = true) ∧
    (¬ (base_handle < h ∧ h ≤ base_handle + c.objects.length) → get_object c h = none) := by
  have hvalid : base_handle < h → h ≤ base_handle + c.objects.length →
      get_object c h = some (h - base_handle - 1) := by
    intro h1 h2
    have hn1 : ¬ h ≤ base_handle := by omega
    have hn2 : ¬ h - base_handle > c.objects.length := by omega
    have hidx : h - 1 - base_handle = h - base_handle - 1 := by omega
    simp [get_object, hn1, hn2, hidx]
  have hinvalid : ¬ (base_handle < h ∧ h ≤ base_handle + c.objects.length) →
      get_object c h = none := by
    intro hn
    by_cases h1 : h ≤ base_handle
    · simp [get_object, h1]
    · have h2 : h - base_handle > c.objects.length := by
        by_contra h2
        exact hn ⟨by omega, by omega⟩
      simp [get_object, h2]
  refine ⟨?_, ?_, hinvalid⟩
  · constructor
    · intro hsome
      by_contra hn
      rw [hinvalid hn] at hsome
      exact Bool.noConfusion hsome
    · rintro ⟨h1, h2⟩
      rw [hvalid h1 h2]; rfl
  · intro h1 h2
    have hlt : h - base_handle - 1 < c.objects.length := by omega
    refine ⟨hvalid h1 h2, hlt, ?_, ?_⟩
    · rw [hvalid h1 h2]; rfl
    · rw [hvalid h1 h2]
      simp [deref, hlt]

theorem get_object_valid_iff_witness :
    get_object (window_server_client_new 7 0 0) 0x40000001 = some (0x40000001 - base_handle - 1) ∧
      0x40000001 - base_handle - 1 < (window_server_client_new 7 0 0).objects.length :=
  have h := (get_object_valid_iff (window_server_client_new 7 0 0) 0x40000001).2.1
    (by decide) (by decide)
  ⟨h.1, h.2.1⟩

/-- Claim C19, the code at the failing input. `add_object` stores the handle in
`window_client_obj::id` and leaves the member `id` that `window` declares for
itself as it was: for every window `w`, after `add_object` the stored object is
`w` itself under the new `window_client_obj::id`.  For the root window of a
fresh client (with 0 for the value of the member that no constructor sets)
the handle is `base_handle + 1`, `get_object` finds the object, its
`window::id` is 0, and `find_window_obj` does not find the root under its
handle. -/
theorem add_object_leaves_window_id (c : window_server_client) (w : window) (i : Nat) :
    (add_object c ⟨i, client_obj_kind.window w⟩).1 =
      to_uint32 (c.objects.length + 1 + base_handle) ∧
    deref (add_object c ⟨i, client_obj_kind.window w⟩).2 (some c.objects.length) =
      some ⟨to_uint32 (base_handle + (c.objects.length + 1)), client_obj_kind.window w⟩ ∧
    (window_at (add_object c ⟨i, client_obj_kind.window w⟩).2 c.objects.length).map window.id =
      some w.id ∧
    (window_server_client_init 7 0 0).1 = base_handle + 1 ∧
    get_object (window_server_client_new 7 0 0) (base_handle + 1) = some 0 ∧
    (deref (window_server_client_new 7 0 0) (some 0)).map window_client_obj.id =
      some (base_handle + 1) ∧
    (window_at (window_server_client_new 7 0 0) 0).map window.id = some 0 ∧
    (window_server_client_new 7 0 0).root = some 0 ∧
    find_window_obj (window_server_client_new 7 0 0) 2 0 (base_handle + 1) = none := by
  refine ⟨?_, ?_, ?_, by decide, by decide, by decide, by decide, by decide, by decide⟩
  · rw [add_object_eq]
  · rw [add_object_eq]; simp [deref]
  · rw [add_object_eq]; simp [window_at]


/-! ## The handles that `add_object` returns -/

theorem add_object_handle (c : window_server_client) (obj : window_client_obj) :
    (add_object c obj).1 = to_uint32 (c.objects.length + 1 + base_handle) := by
  rw [add_object_eq]

theorem add_object_length (c : window_server_client) (obj : window_client_obj) :
    (add_object c obj).2.objects.length = c.objects.length + 1 := by
  rw [add_object_eq]; simp

theorem foldl_objects_length {α : Type} (f : window_server_client → α → window_server_client)
    (hf : ∀ c a, (f c a).objects.length = c.objects.length) :
    ∀ (l : List α) (c : window_server_client),
      (l.foldl f c).objects.length = c.objects.length := by
  intro l
  induction l with
  | nil => intro c; rfl
  | cons a l ih => intro c; rw [List.foldl_cons, ih, hf]

theorem init_device_length :
    ∀ (fuel : Nat) (c : window_server_client) (win : Nat),
      (init_device fuel c win).objects.length = c.objects.length := by
  intro fuel
  induction fuel with
  | zero => intro c win; rfl
  | succ fuel ih =>
    intro c win
    unfold init_device
    split
    · rw [foldl_objects_length _ (fun c a => ih c a)]
      split
      · split
        · simp
        · rfl
      · rfl
    · rfl

theorem push_child_length (c : window_server_client) (parent child : Nat) :
    (push_child c parent child).objects.length = c.objects.length := by
  unfold push_child
  split
  · simp
  · rfl

theorem graphic_context_active_length (c : window_server_client) (gc handle : Nat) :
    (graphic_context_active c gc handle).2.objects.length = c.objects.length := by
  unfold graphic_context_active
  split
  · simp
  · rfl

/-- Each of the four creating functions gives `objects.size() + 1 +
base_handle`, as a `std::uint32_t`, to `set_request_status` and makes
`objects` one longer. -/
theorem create_screen_device_spec (c : window_server_client) :
    (create_screen_device c).1 = to_uint32 (c.objects.length + 1 + base_handle) ∧
      (create_screen_device c).2.objects.length = c.objects.length + 1 := by
  have hlen : ∀ c1 : window_server_client, c1.objects.length = c.objects.length →
      (match c1.root with
        | none => c1
        | some root => init_device (c1.objects.length + 1) c1 root).objects.length
        = c.objects.length := by
    intro c1 h1
    split
    · exact h1
    · rw [init_device_length, h1]
  have hc1 : (if c.primary_device.isNone then
      { c with primary_device := some c.objects.length } else c).objects.length
        = c.objects.length := by
    split <;> rfl
  unfold create_screen_device
  simp only [add_object_handle, add_object_length]
  rw [hlen _ hc1]
  exact ⟨rfl, rfl⟩

theorem create_window_group_spec (c : window_server_client)
    (header : ws_cmd_window_group_header) (uninit_priority uninit_id : Nat) :
    (create_window_group c header uninit_priority uninit_id).1 =
        to_uint32 (c.objects.length + 1 + base_handle) ∧
      (create_window_group c header uninit_priority uninit_id).2.objects.length =
        c.objects.length + 1 := by
  have hlen : ∀ parent_group : Option Nat,
      (match parent_group with
        | none => c
        | some parent => push_child c parent c.objects.length).objects.length
        = c.objects.length := by
    intro parent_group
    split
    · rfl
    · rw [push_child_length]
  unfold create_window_group
  simp only [add_object_handle, add_object_length]
  rw [hlen]
  exact ⟨rfl, rfl⟩

theorem create_graphic_context_spec (c : window_server_client) :
    (create_graphic_context c).1 = to_uint32 (c.objects.length + 1 + base_handle) ∧
      (create_graphic_context c).2.objects.length = c.objects.length + 1 := by
  unfold create_graphic_context
  exact ⟨add_object_handle _ _, add_object_length _ _⟩

theorem create_sprite_spec (c : window_server_client)
    (sprite_header : ws_cmd_create_sprite_header) :
    (create_sprite c sprite_header).1 = to_uint32 (c.objects.length + 1 + base_handle) ∧
      (create_sprite c sprite_header).2.objects.length = c.objects.length + 1 := by
  unfold create_sprite
  exact ⟨add_object_handle _ _, add_object_length _ _⟩

theorem window_server_client_init_spec (guest_session uninit_priority uninit_id : Nat) :
    (window_server_client_init guest_session uninit_priority uninit_id).1 =
        to_uint32 (1 + base_handle) ∧
      (window_server_client_init guest_session uninit_priority uninit_id).2.objects.length = 1 := by
  unfold window_server_client_init
  simp only [add_object_handle, add_object_length]
  exact ⟨rfl, rfl⟩

/-- The handles returned on the way to a reachable state are those of the
formula of `add_object` for the sizes 1, 2, ... up to the size reached. -/
theorem reachable_handles {c : window_server_client} {handles : List Nat}
    (h : reachable c handles) :
    handles = (List.range' 1 c.objects.length).map (fun k => to_uint32 (k + base_handle)) := by
  have hstep : ∀ (c c2 : window_server_client) (handles : List Nat) (x : Nat),
      handles = (List.range' 1 c.objects.length).map (fun k => to_uint32 (k + base_handle)) →
      x = to_uint32 (c.objects.length + 1 + base_handle) ∧
        c2.objects.length = c.objects.length + 1 →
      handles ++ [x] =
        (List.range' 1 c2.objects.length).map (fun k => to_uint32 (k + base_handle)) := by
    intro c c2 handles x hh ⟨hx, hl⟩
    rw [hl, List.range'_1_concat, List.map_append, ← hh, hx]
    simp [Nat.add_comm]
  induction h with
  | construct guest_session uninit_priority uninit_id =>
    obtain ⟨h1, h2⟩ := window_server_client_init_spec guest_session uninit_priority uninit_id
    rw [h1, h2]; rfl
  | screen_device _ ih => exact hstep _ _ _ _ ih (create_screen_device_spec _)
  | window_group header up uid _ ih =>
    exact hstep _ _ _ _ ih (create_window_group_spec _ header up uid)
  | graphic_context _ ih => exact hstep _ _ _ _ ih (create_graphic_context_spec _)
  | sprite sprite_header _ ih => exact hstep _ _ _ _ ih (create_sprite_spec _ sprite_header)
  | active gc handle _ ih => rw [graphic_context_active_length]; exact ih


theorem create_graphic_contexts_length (n : Nat) (c : window_server_client) :
    (create_graphic_contexts n c).objects.length = c.objects.length + n := by
  induction n with
  | zero => rfl
  | succ n ih =>
    rw [create_graphic_contexts, (create_graphic_context_spec _).2, ih]
    omega

theorem reachable_create_graphic_contexts (n : Nat) {c : window_server_client}
    {handles : List Nat} (h : reachable c handles) :
    ∃ handles2, reachable (create_graphic_contexts n c) handles2 := by
  induction n with
  | zero => exact ⟨handles, h⟩
  | succ n ih =>
    obtain ⟨handles2, h2⟩ := ih
    exact ⟨_, reachable.graphic_context h2⟩

theorem reachable_objects_pos {c : window_server_client} {handles : List Nat}
    (h : reachable c handles) : 0 < c.objects.length := by
  induction h with
  | construct guest_session uninit_priority uninit_id =>
    rw [(window_server_client_init_spec guest_session uninit_priority uninit_id).2]
    exact Nat.one_pos
  | screen_device _ _ => rw [(create_screen_device_spec _).2]; omega
  | window_group header up uid _ _ => rw [(create_window_group_spec _ header up uid).2]; omega
  | graphic_context _ _ => rw [(create_graphic_context_spec _).2]; omega
  | sprite sprite_header _ _ => rw [(create_sprite_spec _ sprite_header).2]; omega
  | active gc handle _ ih => rw [graphic_context_active_length]; exact ih

theorem map_to_uint32_range' (n : Nat) (hsize : n + base_handle < 2 ^ 32) :
    (List.range' 1 n).map (fun k => to_uint32 (k + base_handle)) =
      List.range' (base_handle + 1) n := by
  apply List.ext_getElem
  · simp
  · intro i h1 h2
    have hi : i < n := by simpa using h2
    simp only [List.getElem_map, List.getElem_range', to_uint32]
    rw [Nat.mod_eq_of_lt (by omega)]
    omega

theorem chain'_range' (s n : Nat) :
    List.Chain' (fun a b => b = a + 1) (List.range' s n) := by
  cases n with
  | zero => exact List.chain'_nil
  | succ n =>
    rw [List.range'_succ]
    exact List.chain_succ_range' s n 1

/-- Claim C18, counterexample. On a host with a 64-bit `size_t`, the state that
3221225471 calls of `create_graphic_context` reach from a fresh client holds
`2 ^ 32 - base_handle` objects, and the last handle that `add_object` returned
on the way is 0: the sum `objects.size() + base_handle` is `2 ^ 32` and the
`std::uint32_t` that holds it wraps around.  This handle is not above
`base_handle`, and not one more than the handle before it, `2 ^ 32 - 1`. -/
theorem add_object_handle_wraps :
    ∃ handles, reachable
        (create_graphic_contexts 3221225471 (window_server_client_new 0 0 0)) handles ∧
      (create_graphic_contexts 3221225471 (window_server_client_new 0 0 0)).objects.length =
        2 ^ 32 - base_handle ∧
      handles.getLast? = some 0 ∧ ¬ (base_handle < 0) ∧
      (create_graphic_context
        (create_graphic_contexts 3221225470 (window_server_client_new 0 0 0))).1 = 0 ∧
      (create_graphic_context
        (create_graphic_contexts 3221225469 (window_server_client_new 0 0 0))).1 = 2 ^ 32 - 1 := by
  have hnew : (window_server_client_new 0 0 0).objects.length = 1 :=
    (window_server_client_init_spec 0 0 0).2
  obtain ⟨handles, hreach⟩ := reachable_create_graphic_contexts 3221225471
    (reachable.construct 0 0 0)
  have hlen : (create_graphic_contexts 3221225471 (window_server_client_new 0 0 0)).objects.length
      = 3221225471 + 1 := by
    rw [create_graphic_contexts_length, hnew]
  refine ⟨handles, hreach, ?_, ?_, by decide, ?_, ?_⟩
  · rw [hlen]; decide
  · have hh := reachable_handles hreach
    rw [window_server_client_new] at hlen
    rw [hlen, List.range'_1_concat, List.map_append] at hh
    rw [hh, List.map_singleton, List.getLast?_concat]
    decide
  · rw [(create_graphic_context_spec _).1, create_graphic_contexts_length, hnew]
    decide
  · rw [(create_graphic_context_spec _).1, create_graphic_contexts_length, hnew]
    decide

/-- Claim C18, amended. In every state of a client reachable from its
construction in which `|objects| + base_handle` is below `2 ^ 32` (fewer than
3221225472 objects), the handles returned by `add_object` so far are
`base_handle + 1`, `base_handle + 2`, ... up to `base_handle + |objects|`:
each satisfies `base_handle < h ≤ base_handle + |objects|`, the first one (for
the root window) is `base_handle + 1`, each is one more than the one before
it, and none was returned twice. -/
theorem add_object_handles_consecutive (c : window_server_client) (handles : List Nat)
    (hreach : reachable c handles) (hsize : c.objects.length + base_handle < 2 ^ 32) :
    handles = List.range' (base_handle + 1) c.objects.length ∧
    (∀ h ∈ handles, base_handle < h ∧ h ≤ base_handle + c.objects.length) ∧
    handles.head? = some (base_handle + 1) ∧
    List.Chain' (fun previous next => next = previous + 1) handles ∧
    handles.Nodup := by
  have hh : handles = List.range' (base_handle + 1) c.objects.length := by
    rw [reachable_handles hreach, map_to_uint32_range' _ hsize]
  have hpos : c.objects.length ≠ 0 := Nat.pos_iff_ne_zero.1 (reachable_objects_pos hreach)
  refine ⟨hh, ?_, ?_, ?_, ?_⟩
  · intro h hmem
    rw [hh, List.mem_range'_1] at hmem
    omega
  · rw [hh, List.head?_range']
    simp [hpos]
  · rw [hh]; exact chain'_range' _ _
  · rw [hh]; exact List.nodup_range' _ _

theorem add_object_handles_consecutive_witness :
    [(window_server_client_init 7 0 0).1] =
      List.range' (base_handle + 1) (window_server_client_init 7 0 0).2.objects.length :=
  (add_object_handles_consecutive (window_server_client_init 7 0 0).2
    [(window_server_client_init 7 0 0).1] (reachable.construct 7 0 0) (by decide)).1


/-! ## Decoding the command buffer -/

theorem byte_at_append_right (pre l : List Nat) (i : Nat) :
    byte_at (pre ++ l) (pre.length + i) = byte_at l i := by
  simp [byte_at, List.getElem?_append_right]

theorem bit15_iff {op : Nat} (h : op < 2 ^ 16) : op &&& 0x8000 ≠ 0 ↔ 2 ^ 15 ≤ op := by
  have hbit : op.testBit 15 = decide (op / 32768 % 2 = 1) := by
    have := @Nat.testBit_to_div_mod 15 op
    simpa using this
  constructor
  · intro hne
    by_contra hlt
    apply hne
    apply Nat.eq_of_testBit_eq
    intro i
    have h15 : (0x8000 : Nat) = 2 ^ 15 := by norm_num
    rw [Nat.testBit_and, h15, Nat.testBit_two_pow, Nat.zero_testBit]
    by_cases hi : 15 = i
    · subst hi
      have : op / 32768 % 2 = 0 := by omega
      simp [hbit, this]
    · simp [hi]
  · intro hge hzero
    have hset : op.testBit 15 = true := by
      rw [hbit]
      have : op / 32768 % 2 = 1 := by omega
      simp [this]
    have h15 : (0x8000 : Nat) = 2 ^ 15 := by norm_num
    have := congrArg (fun n => Nat.testBit n 15) hzero
    simp only [Nat.testBit_and, h15, Nat.testBit_two_pow, Nat.zero_testBit, hset] at this
    simp at this

theorem clear_bit15 {op : Nat} (h : op < 2 ^ 16) :
    to_uint16 (op &&& 0xFFFF7FFF) = op % 2 ^ 15 := by
  have hand : op &&& 0xFFFF7FFF = op % 2 ^ 15 := by
    apply Nat.eq_of_testBit_eq
    intro i
    rw [Nat.testBit_and, Nat.testBit_mod_two_pow]
    by_cases hi : i < 15
    · have hmask : Nat.testBit 0xFFFF7FFF i = true := by
        interval_cases i <;> decide
      simp [hi, hmask]
    · by_cases hi2 : i = 15
      · subst hi2
        have hmask : Nat.testBit 0xFFFF7FFF 15 = false := by decide
        simp [hmask]
      · have hop : op.testBit i = false := by
          apply Nat.testBit_lt_two_pow
          calc op < 2 ^ 16 := h
            _ ≤ 2 ^ i := Nat.pow_le_pow_right (by decide) (by omega)
        simp [hi, hop]
  rw [hand, to_uint16]
  omega


theorem read_uint16_at (pre rest : List Nat) (a b : Nat) :
    read_uint16 (pre ++ a :: b :: rest) pre.length = a % 256 + 256 * (b % 256) := by
  have h0 := byte_at_append_right pre (a :: b :: rest) 0
  have h1 := byte_at_append_right pre (a :: b :: rest) 1
  rw [Nat.add_zero] at h0
  rw [read_uint16, h0, h1]
  simp [byte_at]

theorem read_uint32_at (pre rest : List Nat) (a b c d : Nat) :
    read_uint32 (pre ++ a :: b :: c :: d :: rest) pre.length =
      a % 256 + 256 * (b % 256) + 65536 * (c % 256) + 16777216 * (d % 256) := by
  have h0 := byte_at_append_right pre (a :: b :: c :: d :: rest) 0
  have h1 := byte_at_append_right pre (a :: b :: c :: d :: rest) 1
  have h2 := byte_at_append_right pre (a :: b :: c :: d :: rest) 2
  have h3 := byte_at_append_right pre (a :: b :: c :: d :: rest) 3
  rw [Nat.add_zero] at h0
  rw [read_uint32, h0, h1, h2, h3]
  simp [byte_at]

theorem le16_value {n : Nat} (h : n < 2 ^ 16) :
    n % 256 % 256 + 256 * (n / 256 % 256 % 256) = n := by
  omega

theorem le32_value {n : Nat} (h : n < 2 ^ 32) :
    n % 256 % 256 + 256 * (n / 256 % 256 % 256) + 65536 * (n / 65536 % 256 % 256) +
      16777216 * (n / 16777216 % 256 % 256) = n := by
  omega

/-- One iteration of the loop on a buffer that holds the encoding of `w` at
the cursor: it pushes a command that stands for `w`, moves the cursor past the
encoding and reads nothing outside the buffer. -/
theorem parse_loop_step (uninit_handle : Nat → Nat) (pre rest : List Nat) (w : wire_cmd)
    (hw : w.well_formed) (fuel : Nat) (st : parse_state) (hbeg : st.beg = pre.length) :
    ∃ d, parse_loop uninit_handle (pre ++ (encode_cmd w ++ rest)) (fuel + 1) st =
        parse_loop uninit_handle (pre ++ (encode_cmd w ++ rest)) fuel
          { cmds := st.cmds ++ [d], beg := pre.length + (encode_cmd w).length,
            in_bounds := st.in_bounds } ∧
      decodes (pre ++ (encode_cmd w ++ rest)) d w := by
  obtain ⟨hop, hlen, hhandle⟩ := hw
  by_cases hbit : w.op &&& 0x8000 ≠ 0
  · have henc : encode_cmd w ++ rest =
        w.op % 256 :: w.op / 256 % 256 :: w.payload.length % 256 ::
          w.payload.length / 256 % 256 :: w.obj_handle % 256 :: w.obj_handle / 256 % 256 ::
          w.obj_handle / 65536 % 256 :: w.obj_handle / 16777216 % 256 ::
          (w.payload ++ rest) := by
      simp [encode_cmd, hbit, le16, le32]
    have hsize : (encode_cmd w).length = 8 + w.payload.length := by
      simp [encode_cmd, hbit, le16, le32]; omega
    have h_op : read_uint16 (pre ++ (encode_cmd w ++ rest)) st.beg = w.op := by
      rw [hbeg, henc, read_uint16_at, le16_value hop]
    have h_len : read_uint16 (pre ++ (encode_cmd w ++ rest)) (st.beg + 2) = w.payload.length := by
      have := read_uint16_at (pre ++ [w.op % 256, w.op / 256 % 256])
        (w.obj_handle % 256 :: w.obj_handle / 256 % 256 ::
          w.obj_handle / 65536 % 256 :: w.obj_handle / 16777216 % 256 ::
          (w.payload ++ rest)) (w.payload.length % 256) (w.payload.length / 256 % 256)
      simp only [List.length_append, List.length_cons, List.length_nil, List.append_assoc,
        List.cons_append, List.nil_append] at this
      rw [hbeg, henc, this, le16_value hlen]
    have h_handle : read_uint32 (pre ++ (encode_cmd w ++ rest)) (st.beg + 4) = w.obj_handle := by
      have := read_uint32_at (pre ++ [w.op % 256, w.op / 256 % 256, w.payload.length % 256,
        w.payload.length / 256 % 256]) (w.payload ++ rest)
        (w.obj_handle % 256) (w.obj_handle / 256 % 256)
        (w.obj_handle / 65536 % 256) (w.obj_handle / 16777216 % 256)
      simp only [List.length_append, List.length_cons, List.length_nil, List.append_assoc,
        List.cons_append, List.nil_append] at this
      rw [hbeg, henc, this, le32_value hhandle]
    have h_lt : st.beg < (pre ++ (encode_cmd w ++ rest)).length := by
      simp only [List.length_append, hsize, hbeg]; omega
    have h_in : st.beg + 8 ≤ (pre ++ (encode_cmd w ++ rest)).length := by
      simp only [List.length_append, hsize, hbeg]; omega
    refine ⟨{ header := { op := to_uint16 (w.op &&& 0xFFFF7FFF), cmd_len := w.payload.length },
              obj_handle := w.obj_handle, data_ptr := pre.length + 8 }, ?_, ?_⟩
    · rw [parse_loop]
      simp only [h_lt, if_true, h_op, h_len, h_handle, hbit, h_in, decide_True, Bool.and_true,
        ne_eq, not_false_eq_true]
      rw [hbeg, hsize]
      simp only [Nat.add_assoc]
    · refine ⟨clear_bit15 hop, rfl, fun _ => rfl, ?_, ?_⟩
      · have hsplit : pre ++ (encode_cmd w ++ rest) =
            (pre ++ (encode_cmd w).take 8) ++ (w.payload ++ rest) := by
          simp [encode_cmd, hbit, le16, le32]
        have hl : (pre ++ (encode_cmd w).take 8).length = pre.length + 8 := by
          simp [encode_cmd, hbit, le16, le32]
        simp only []
        rw [hsplit, ← hl, List.drop_left, List.take_left]
      · simp only [List.length_append, hsize]; omega
  · have hbit0 : w.op &&& 0x8000 = 0 := by simpa using hbit
    have henc : encode_cmd w ++ rest =
        w.op % 256 :: w.op / 256 % 256 :: w.payload.length % 256 ::
          w.payload.length / 256 % 256 :: (w.payload ++ rest) := by
      simp [encode_cmd, hbit0, le16]
    have hsize : (encode_cmd w).length = 4 + w.payload.length := by
      simp [encode_cmd, hbit0, le16]; omega
    have h_op : read_uint16 (pre ++ (encode_cmd w ++ rest)) st.beg = w.op := by
      rw [hbeg, henc, read_uint16_at, le16_value hop]
    have h_len : read_uint16 (pre ++ (encode_cmd w ++ rest)) (st.beg + 2) = w.payload.length := by
      have := read_uint16_at (pre ++ [w.op % 256, w.op / 256 % 256])
        (w.payload ++ rest) (w.payload.length % 256) (w.payload.length / 256 % 256)
      simp only [List.length_append, List.length_cons, List.length_nil, List.append_assoc,
        List.cons_append, List.nil_append] at this
      rw [hbeg, henc, this, le16_value hlen]
    have h_lt : st.beg < (pre ++ (encode_cmd w ++ rest)).length := by
      simp only [List.length_append, hsize, hbeg]; omega
    have h_in : st.beg + 4 ≤ (pre ++ (encode_cmd w ++ rest)).length := by
      simp only [List.length_append, hsize, hbeg]; omega
    refine ⟨{ header := { op := w.op, cmd_len := w.payload.length },
              obj_handle := uninit_handle pre.length, data_ptr := pre.length + 4 }, ?_, ?_⟩
    · rw [parse_loop]
      simp only [h_lt, if_true, h_op, h_len, hbit, h_in, decide_True, Bool.and_true,
        if_false]
      rw [hbeg, hsize]
      simp only [Nat.add_assoc]
    · have hsmall : w.op < 2 ^ 15 := by
        by_contra hge
        exact hbit ((bit15_iff hop).2 (by omega))
      refine ⟨(Nat.mod_eq_of_lt hsmall).symm, rfl, fun h => absurd h hbit, ?_, ?_⟩
      · have hsplit : pre ++ (encode_cmd w ++ rest) =
            (pre ++ (encode_cmd w).take 4) ++ (w.payload ++ rest) := by
          simp [encode_cmd, hbit0, le16]
        have hl : (pre ++ (encode_cmd w).take 4).length = pre.length + 4 := by
          simp [encode_cmd, hbit0, le16]
        simp only []
        rw [hsplit, ← hl, List.drop_left, List.take_left]
      · simp only [List.length_append, hsize]; omega


theorem encode_cmd_length_pos (w : wire_cmd) : 4 ≤ (encode_cmd w).length := by
  simp [encode_cmd, le16]

/-- The loop on a buffer that holds the encodings of `ws` from the cursor on:
with fuel for every byte left it pushes one command for each of `ws`, in
order, and ends with the cursor at the end of the buffer. -/
theorem parse_loop_encode_cmds (uninit_handle : Nat → Nat) :
    ∀ (ws : List wire_cmd), (∀ w ∈ ws, w.well_formed) →
    ∀ (pre : List Nat) (fuel : Nat) (st : parse_state), st.beg = pre.length →
      (encode_cmds ws).length ≤ fuel →
      ∃ ds, parse_loop uninit_handle (pre ++ encode_cmds ws) fuel st =
          { cmds := st.cmds ++ ds, beg := (pre ++ encode_cmds ws).length,
            in_bounds := st.in_bounds } ∧
        List.Forall₂ (decodes (pre ++ encode_cmds ws)) ds ws := by
  intro ws
  induction ws with
  | nil =>
    intro _ pre fuel st hbeg _
    refine ⟨[], ?_, List.Forall₂.nil⟩
    have hst : st = parse_state.mk (st.cmds ++ []) (pre ++ encode_cmds []).length
        st.in_bounds := by
      cases st
      simp only [encode_cmds, List.flatMap_nil, List.append_nil] at hbeg ⊢
      simp [hbeg]
    cases fuel with
    | zero => rw [parse_loop]; exact hst
    | succ fuel =>
      rw [parse_loop]
      have hnot : ¬ st.beg < (pre ++ encode_cmds []).length := by
        simp [encode_cmds, hbeg]
      rw [if_neg hnot]
      exact hst
  | cons w ws ih =>
    intro hws pre fuel st hbeg hfuel
    have hw : w.well_formed := hws w (List.mem_cons_self _ _)
    have hws2 : ∀ x ∈ ws, x.well_formed := fun x hx => hws x (List.mem_cons_of_mem _ hx)
    have hcons : encode_cmds (w :: ws) = encode_cmd w ++ encode_cmds ws := by
      simp [encode_cmds]
    rw [hcons] at hfuel ⊢
    have hpos := encode_cmd_length_pos w
    rw [List.length_append] at hfuel
    obtain ⟨fuel2, rfl⟩ : ∃ fuel2, fuel = fuel2 + 1 := ⟨fuel - 1, by omega⟩
    obtain ⟨d, hstep, hd⟩ :=
      parse_loop_step uninit_handle pre (encode_cmds ws) w hw fuel2 st hbeg
    have hassoc : pre ++ (encode_cmd w ++ encode_cmds ws) =
        (pre ++ encode_cmd w) ++ encode_cmds ws := by
      rw [List.append_assoc]
    obtain ⟨ds, hrest, hds⟩ := ih hws2 (pre ++ encode_cmd w) fuel2
      { cmds := st.cmds ++ [d], beg := pre.length + (encode_cmd w).length,
        in_bounds := st.in_bounds }
      (by simp) (by omega)
    refine ⟨d :: ds, ?_, ?_⟩
    · rw [hstep, hassoc, hrest]
      simp
    · rw [hassoc]
      refine List.Forall₂.cons ?_ hds
      rw [← hassoc]; exact hd

/-- Claim C20. Decoding undoes encoding: for every list of commands that fit
the wire format, parsing the buffer made of their little-endian encodings
(`u16 op`, `u16 cmd_len`, a `u32` handle when bit 15 of `op` is set, then
`cmd_len` payload bytes) yields as many commands, in the same order, each with
`op` equal to the encoded `op` with bit 15 cleared, `cmd_len` as encoded,
`obj_handle` equal to the encoded handle when bit 15 was set, and `data_ptr`
at the start of its `cmd_len` payload bytes; the cursor ends exactly at the
length of the buffer, and no byte outside the buffer is read. -/
theorem parse_cmds_encode_cmds (uninit_handle : Nat → Nat) (ws : List wire_cmd)
    (hws : ∀ w ∈ ws, w.well_formed) :
    List.Forall₂ (decodes (encode_cmds ws))
      (parse_cmds uninit_handle (encode_cmds ws)).cmds ws ∧
    (parse_cmds uninit_handle (encode_cmds ws)).cmds.length = ws.length ∧
    (parse_cmds uninit_handle (encode_cmds ws)).beg = (encode_cmds ws).length ∧
    (parse_cmds uninit_handle (encode_cmds ws)).in_bounds = true := by
  obtain ⟨ds, hrun, hds⟩ := parse_loop_encode_cmds uninit_handle ws hws []
    (encode_cmds ws).length { cmds := [], beg := 0, in_bounds := true } rfl (Nat.le_refl _)
  simp only [List.nil_append] at hrun hds
  rw [parse_cmds, hrun]
  exact ⟨hds, hds.length_eq, rfl, rfl⟩

theorem parse_cmds_encode_cmds_witness :
    (parse_cmds (fun _ => 0)
        (encode_cmds [⟨5, 0, [1, 2, 3]⟩, ⟨0x8007, 0x40000002, [9]⟩])).cmds.length = 2 ∧
      (parse_cmds (fun _ => 0)
        (encode_cmds [⟨5, 0, [1, 2, 3]⟩, ⟨0x8007, 0x40000002, [9]⟩])).beg =
        (encode_cmds [⟨5, 0, [1, 2, 3]⟩, ⟨0x8007, 0x40000002, [9]⟩]).length :=
  have h := parse_cmds_encode_cmds (fun _ => 0)
    [⟨5, 0, [1, 2, 3]⟩, ⟨0x8007, 0x40000002, [9]⟩]
    (by
      intro w hw
      simp only [List.mem_cons, List.mem_singleton, List.not_mem_nil, or_false] at hw
      rcases hw with rfl | rfl <;> (unfold wire_cmd.well_formed; decide))
  ⟨h.2.1, h.2.2.1⟩

end eka2l1.epoc

namespace eka2l1

/-- Claim C29. For every non-empty path `p` and every working directory `cwd`
of length 3 or more whose second character is `:` and whose third character is
a separator, the result of `absolute_path(p, cwd, m)` has a root directory, and
a second `absolute_path` on it, with any working directory, returns it
unchanged. -/
theorem absolute_path_has_root_dir_of_drive_cwd (win32 : Bool) (p cwd cwd2 : List Char)
    (symbian_use : Bool) (_hp : p ≠ []) (_hlen : 3 ≤ cwd.length)
    (h1 : char_at cwd 1 = ':') (h2 : is_separator (char_at cwd 2) = true) :
    has_root_dir win32 (absolute_path win32 p cwd symbian_use) symbian_use = true ∧
      absolute_path win32 (absolute_path win32 p cwd symbian_use) cwd2 symbian_use =
        absolute_path win32 p cwd symbian_use := by
  have hcwd : drive_rooted cwd := ⟨h1, h2⟩
  have hroot : has_root_dir win32 (absolute_path win32 p cwd symbian_use) symbian_use = true := by
    cases hd : has_root_dir win32 p symbian_use with
    | true => rw [absolute_path_of_root_dir win32 p cwd symbian_use hd]; exact hd
    | false =>
      cases hn : has_root_name win32 p symbian_use with
      | true =>
        exact has_root_dir_of_drive win32 symbian_use
          (drive_rooted_absolute_path_name_only win32 symbian_use p cwd hn hd
            (has_root_dir_of_drive win32 symbian_use hcwd))
      | false =>
        rw [absolute_path_rootless win32 p cwd symbian_use hd hn]
        exact has_root_dir_of_drive win32 symbian_use
          (drive_rooted_add_path win32 symbian_use p hcwd)
  exact ⟨hroot, absolute_path_of_root_dir win32 _ cwd2 symbian_use hroot⟩

theorem absolute_path_has_root_dir_of_drive_cwd_witness :
    has_root_dir false (absolute_path false "a\\b".toList "C:\\sys".toList true) true = true ∧
      absolute_path false (absolute_path false "a\\b".toList "C:\\sys".toList true)
        "D:\\x".toList true = absolute_path false "a\\b".toList "C:\\sys".toList true :=
  absolute_path_has_root_dir_of_drive_cwd false "a\\b".toList "C:\\sys".toList "D:\\x".toList
    true (by decide) (by decide) (by decide) (by decide)

end eka2l1

namespace eka2l1.epoc

/-- An iteration of the decoding loop with the cursor inside the buffer pushes
one command and moves the cursor by `4 + cmd_len`, or by `8 + cmd_len` when
bit 15 of `op` is set. -/
theorem parse_loop_advance (uninit_handle : Nat → Nat) (buf : List Nat) (st : parse_state)
    (h : st.beg < buf.length) :
    ∃ st' : parse_state,
      (∀ fuel, parse_loop uninit_handle buf (fuel + 1) st = parse_loop uninit_handle buf fuel st') ∧
      st'.cmds.length = st.cmds.length + 1 ∧
      (read_uint16 buf st.beg &&& 0x8000 = 0 ∧
          st'.beg = st.beg + 4 + read_uint16 buf (st.beg + 2) ∨
        read_uint16 buf st.beg &&& 0x8000 ≠ 0 ∧
          st'.beg = st.beg + 8 + read_uint16 buf (st.beg + 2)) := by
  by_cases hbit : read_uint16 buf st.beg &&& 0x8000 = 0
  · refine ⟨parse_state.mk
      (st.cmds ++ [ws_cmd.mk
        (ws_cmd_header.mk (read_uint16 buf st.beg) (read_uint16 buf (st.beg + 2)))
        (uninit_handle st.beg) (st.beg + 4)])
      (st.beg + 4 + read_uint16 buf (st.beg + 2))
      (st.in_bounds && decide (st.beg + 4 ≤ buf.length)), fun fuel => ?_, ?_, Or.inl ⟨hbit, rfl⟩⟩
    · rw [parse_loop]
      simp only [h, if_true, hbit, ne_eq, not_true_eq_false, if_false]
    · simp
  · refine ⟨parse_state.mk
      (st.cmds ++ [ws_cmd.mk
        (ws_cmd_header.mk (to_uint16 (read_uint16 buf st.beg &&& 0xFFFF7FFF))
          (read_uint16 buf (st.beg + 2)))
        (read_uint32 buf (st.beg + 4)) (st.beg + 8)])
      (st.beg + 8 + read_uint16 buf (st.beg + 2))
      (st.in_bounds && decide (st.beg + 8 ≤ buf.length)), fun fuel => ?_, ?_, Or.inr ⟨hbit, rfl⟩⟩
    · rw [parse_loop]
      simp only [h, if_true, hbit, ne_eq, not_false_eq_true]
    · simp

/-- With the cursor at or past the end the loop does nothing. -/
theorem parse_loop_stop (uninit_handle : Nat → Nat) (buf : List Nat) (fuel : Nat)
    (st : parse_state) (h : buf.length ≤ st.beg) :
    parse_loop uninit_handle buf fuel st = st := by
  cases fuel with
  | zero => rfl
  | succ fuel => rw [parse_loop]; simp [Nat.not_lt.mpr h]

/-- Fuel for a quarter of the bytes left is enough: more fuel gives the same
result, and the cursor ends at or past the end of the buffer. -/
theorem parse_loop_fuel (uninit_handle : Nat → Nat) (buf : List Nat) :
    ∀ (fuel : Nat) (st : parse_state), buf.length ≤ st.beg + 4 * fuel →
      (∀ k, parse_loop uninit_handle buf (fuel + k) st = parse_loop uninit_handle buf fuel st) ∧
        buf.length ≤ (parse_loop uninit_handle buf fuel st).beg := by
  intro fuel
  induction fuel with
  | zero =>
    intro st h
    have h0 : buf.length ≤ st.beg := by omega
    refine ⟨fun k => ?_, ?_⟩
    · rw [parse_loop_stop _ _ _ _ h0, parse_loop_stop _ _ _ _ h0]
    · rw [parse_loop_stop _ _ _ _ h0]; exact h0
  | succ fuel ih =>
    intro st h
    by_cases hlt : st.beg < buf.length
    · obtain ⟨st', hstep, -, hbeg⟩ := parse_loop_advance uninit_handle buf st hlt
      have h' : buf.length ≤ st'.beg + 4 * fuel := by
        rcases hbeg with ⟨-, hb⟩ | ⟨-, hb⟩ <;> omega
      obtain ⟨ih1, ih2⟩ := ih st' h'
      refine ⟨fun k => ?_, ?_⟩
      · have : fuel + 1 + k = (fuel + k) + 1 := by omega
        rw [this, hstep, hstep, ih1]
      · rw [hstep]; exact ih2
    · have h0 : buf.length ≤ st.beg := by omega
      refine ⟨fun k => ?_, ?_⟩
      · rw [parse_loop_stop _ _ _ _ h0, parse_loop_stop _ _ _ _ h0]
      · rw [parse_loop_stop _ _ _ _ h0]; exact h0

/-- The loop pushes at most one command for every four bytes between the
cursor and the end of the buffer, rounded up. -/
theorem parse_loop_count (uninit_handle : Nat → Nat) (buf : List Nat) :
    ∀ (fuel : Nat) (st : parse_state),
      4 * (parse_loop uninit_handle buf fuel st).cmds.length + min st.beg buf.length ≤
        4 * st.cmds.length + buf.length + 3 := by
  intro fuel
  induction fuel with
  | zero => intro st; simp only [parse_loop]; omega
  | succ fuel ih =>
    intro st
    by_cases hlt : st.beg < buf.length
    · obtain ⟨st', hstep, hlen, hbeg⟩ := parse_loop_advance uninit_handle buf st hlt
      have := ih st'
      rw [hstep]
      rcases hbeg with ⟨-, hb⟩ | ⟨-, hb⟩ <;> omega
    · rw [parse_loop_stop _ _ _ _ (by omega)]; omega

/-- Claim C30. For every byte buffer, well-formed or not, the decoding loop of
`parse_command_buffer` terminates: an iteration with the cursor inside the
buffer pushes one command and moves the cursor forward by `4 + cmd_len`, or by
`8 + cmd_len` when bit 15 of `op` is set; after at most `n` iterations, `n` the
size of the buffer, the cursor is at or past the end and further iterations
change nothing; and the loop yields at most `ceil(n / 4)` commands. -/
theorem parse_cmds_terminates (uninit_handle : Nat → Nat) (buf : List Nat) :
    (∀ st : parse_state, st.beg < buf.length →
      ∃ st' : parse_state,
        (∀ fuel, parse_loop uninit_handle buf (fuel + 1) st =
          parse_loop uninit_handle buf fuel st') ∧
        st'.cmds.length = st.cmds.length + 1 ∧
        (read_uint16 buf st.beg &&& 0x8000 = 0 ∧
            st'.beg = st.beg + 4 + read_uint16 buf (st.beg + 2) ∨
          read_uint16 buf st.beg &&& 0x8000 ≠ 0 ∧
            st'.beg = st.beg + 8 + read_uint16 buf (st.beg + 2))) ∧
    (∀ fuel, buf.length ≤ fuel →
      parse_loop uninit_handle buf fuel { cmds := [], beg := 0, in_bounds := true } =
        parse_cmds uninit_handle buf) ∧
    buf.length ≤ (parse_cmds uninit_handle buf).beg ∧
    (parse_cmds uninit_handle buf).cmds.length ≤ (buf.length + 3) / 4 := by
  refine ⟨fun st h => parse_loop_advance uninit_handle buf st h, ?_, ?_, ?_⟩
  · intro fuel hfuel
    obtain ⟨k, rfl⟩ : ∃ k, fuel = buf.length + k := ⟨fuel - buf.length, by omega⟩
    exact (parse_loop_fuel uninit_handle buf buf.length _ (by simp; omega)).1 k
  · exact (parse_loop_fuel uninit_handle buf buf.length _ (by simp; omega)).2
  · have := parse_loop_count uninit_handle buf buf.length
      { cmds := [], beg := 0, in_bounds := true }
    simp only [List.length_nil] at this
    rw [parse_cmds]
    omega


/-! ## Creating a window group -/

/-- The screen device that `create_window_group` gives the new group. -/
theorem create_window_group_eq (c : window_server_client)
    (header : ws_cmd_window_group_header) (uninit_priority uninit_id : Nat)
    (device_ptr parent_group : Option Nat)
    (hdev : device_ptr =
      if to_int32 header.screen_device_handle ≤ 0 then c.primary_device
      else cast_screen_device c
        (get_object c (to_uint32 (to_int32 header.screen_device_handle).toNat)))
    (hpar : parent_group =
      if (match c.root with
          | none => none
          | some root => find_window_obj c (c.objects.length + 1) root header.parent_id).isNone
      then c.root
      else (match c.root with
          | none => none
          | some root => find_window_obj c (c.objects.length + 1) root header.parent_id)) :
    create_window_group c header uninit_priority uninit_id =
      (to_uint32 (c.objects.length + 1 + base_handle),
        { c with objects :=
            (match parent_group with
              | none => c
              | some parent => push_child c parent c.objects.length).objects ++
            [⟨to_uint32 (base_handle + (c.objects.length + 1)),
              client_obj_kind.window
                { childs := [], dvc := device_ptr, parent := parent_group,
                  priority := uninit_priority, id := uninit_id,
                  type := window_type.group }⟩] }) := by
  have hlen : (match parent_group with
        | none => c
        | some parent => push_child c parent c.objects.length).objects.length
        = c.objects.length := by
    split
    · rfl
    · rw [push_child_length]
  unfold create_window_group
  simp only [← hdev, ← hpar, add_object_eq, hlen, window_new, window_client_obj_new]
  cases parent_group with
  | none => rfl
  | some parent =>
    simp only [Prod.mk.injEq, true_and]
    unfold push_child
    split <;> rfl


theorem to_int32_small {n : Nat} (h : n < 2 ^ 31) : to_int32 n = (n : Int) := by
  unfold to_int32
  have h1 : n % 2 ^ 32 = n := Nat.mod_eq_of_lt (by omega)
  rw [h1, if_pos h]

theorem to_uint32_small {n : Nat} (h : n < 2 ^ 32) : to_uint32 n = n :=
  Nat.mod_eq_of_lt h

theorem base_handle_eq : base_handle = 1073741824 := rfl

theorem to_int32_pos {n : Nat} (hn : n < 2 ^ 32) (h : 0 < to_int32 n) :
    to_uint32 (to_int32 n).toNat = n := by
  unfold to_int32 at h ⊢
  have h1 : n % 2 ^ 32 = n := Nat.mod_eq_of_lt hn
  rw [h1] at h ⊢
  split at h
  · rename_i hlt
    rw [if_pos hlt, Int.toNat_ofNat]
    exact to_uint32_small hn
  · omega

theorem fresh_client_eq (guest_session uninit_priority uninit_id : Nat) :
    window_server_client_new guest_session uninit_priority uninit_id =
      { guest_session := guest_session,
        objects := [⟨to_uint32 (base_handle + 1), client_obj_kind.window
          { childs := [], dvc := none, parent := none, priority := uninit_priority,
            id := uninit_id, type := window_type.normal }⟩],
        primary_device := none, root := some 0 } := by
  rfl


theorem create_screen_device_fresh (guest_session uninit_priority uninit_id : Nat) :
    create_screen_device (window_server_client_new guest_session uninit_priority uninit_id) =
      (to_uint32 (2 + base_handle), window_server_client.mk guest_session
        [⟨to_uint32 (base_handle + 1), client_obj_kind.window
          { childs := [], dvc := none, parent := none, priority := uninit_priority,
            id := uninit_id, type := window_type.normal }⟩,
          ⟨to_uint32 (base_handle + 2), client_obj_kind.screen_device⟩]
        (some 1) (some 0)) := by
  rw [fresh_client_eq]
  simp [create_screen_device, init_device, add_object_eq, window_client_obj_new]

/-- The window that `create_window_group` makes is the last object of the
client; its device and its parent are the ones the function chose. -/
theorem create_window_group_new_window (c : window_server_client)
    (header : ws_cmd_window_group_header) (uninit_priority uninit_id : Nat) :
    window_at (create_window_group c header uninit_priority uninit_id).2 c.objects.length =
      some
        { childs := [],
          dvc :=
            if to_int32 header.screen_device_handle ≤ 0 then c.primary_device
            else cast_screen_device c
              (get_object c (to_uint32 (to_int32 header.screen_device_handle).toNat)),
          parent :=
            if (match c.root with
                | none => none
                | some root =>
                  find_window_obj c (c.objects.length + 1) root header.parent_id).isNone
            then c.root
            else (match c.root with
                | none => none
                | some root => find_window_obj c (c.objects.length + 1) root header.parent_id),
          priority := uninit_priority, id := uninit_id, type := window_type.group } := by
  rw [create_window_group_eq c header uninit_priority uninit_id _ _ rfl rfl]
  have hlen : ∀ parent_group : Option Nat,
      (match parent_group with
        | none => c
        | some parent => push_child c parent c.objects.length).objects.length
        = c.objects.length := by
    intro parent_group
    split
    · rfl
    · rw [push_child_length]
  simp only [window_at]
  rw [List.getElem?_append_right (by rw [hlen])]
  simp [hlen]

/-- Claim C22. Starting from a freshly constructed client, whose only object
is the root window with handle `base + 1`, CreateScreenDevice replies with the
handle `base + 2`, and a following CreateWindowGroup with the payload
`{client = 1, focus = 1, parent = 0, screen = base + 2}` replies with the handle
`base + 3`.  In the client after the two commands the objects are, in order,
the root window, the screen device and the new group: the parent of the group
is the root (object 0), the children of the root are the group (object 2)
alone, and the screen device of the group is the device created first
(object 1).  The indeterminate `priority` and `id` of the two windows have any
values. -/
theorem create_screen_device_then_window_group
    (guest_session uninit_priority uninit_id group_priority group_id : Nat) :
    window_server_client_new guest_session uninit_priority uninit_id =
      window_server_client.mk guest_session
        [⟨base_handle + 1, client_obj_kind.window
          { childs := [], dvc := none, parent := none, priority := uninit_priority,
            id := uninit_id, type := window_type.normal }⟩]
        none (some 0) ∧
    (create_screen_device
        (window_server_client_new guest_session uninit_priority uninit_id)).1 =
      base_handle + 2 ∧
    create_window_group
        (create_screen_device
          (window_server_client_new guest_session uninit_priority uninit_id)).2
        ⟨1, true, 0, base_handle + 2⟩ group_priority group_id =
      (base_handle + 3,
        window_server_client.mk guest_session
          [⟨base_handle + 1, client_obj_kind.window
              { childs := [2], dvc := none, parent := none, priority := uninit_priority,
                id := uninit_id, type := window_type.normal }⟩,
            ⟨base_handle + 2, client_obj_kind.screen_device⟩,
            ⟨base_handle + 3, client_obj_kind.window
              { childs := [], dvc := some 1, parent := some 0, priority := group_priority,
                id := group_id, type := window_type.group }⟩]
          (some 1) (some 0)) := by
  have e1 : to_uint32 (base_handle + 1) = base_handle + 1 := by decide
  have e2 : to_uint32 (base_handle + 2) = base_handle + 2 := by decide
  have e2' : to_uint32 (2 + base_handle) = base_handle + 2 := by decide
  have e3 : to_uint32 (2 + 1 + base_handle) = base_handle + 3 := by decide
  have e3' : to_uint32 (base_handle + (2 + 1)) = base_handle + 3 := by decide
  have hlt : base_handle + 2 < 2 ^ 31 := by decide
  have hint : to_int32 (base_handle + 2) = ((base_handle + 2 : Nat) : Int) :=
    to_int32_small hlt
  have hpos : ¬ to_int32 (base_handle + 2) ≤ 0 := by rw [hint]; omega
  have hback : to_uint32 (to_int32 (base_handle + 2)).toNat = base_handle + 2 :=
    to_int32_pos (by omega) (by omega)
  refine ⟨?_, ?_, ?_⟩
  · rw [fresh_client_eq, e1]
  · rw [create_screen_device_fresh, e2']
  · rw [create_screen_device_fresh, e1, e2]
    rw [create_window_group_eq _ _ group_priority group_id (some 1) (some 0)]
    · simp only [List.length_cons, List.length_nil, Nat.zero_add, Nat.reduceAdd, e3, e3']
      simp [push_child]
    · simp only [hpos, if_false, hback]
      simp [get_object, cast_screen_device]
    · by_cases h : uninit_id = 0 <;> simp [find_window_obj, window_at, h]


/-- Claim C24. CreateWindowGroup device selection, for every client and every
header whose `screen_device_handle` is a `std::uint32_t`: the new group is the
object that the call appends to `objects`; when the handle, read as a signed
32-bit integer, is `<= 0`, the screen device of the new group is the primary
screen device of the client; when it is `> 0` and `get_object` finds for it an
object of the client that is a screen device, the screen device of the new
group is that object. -/
theorem create_window_group_device (c : window_server_client)
    (header : ws_cmd_window_group_header) (uninit_priority uninit_id : Nat)
    (hh : header.screen_device_handle < 2 ^ 32) :
    (create_window_group c header uninit_priority uninit_id).2.objects.length =
        c.objects.length + 1 ∧
    (to_int32 header.screen_device_handle ≤ 0 →
      (window_at (create_window_group c header uninit_priority uninit_id).2
          c.objects.length).map (fun w => w.dvc) = some c.primary_device) ∧
    (0 < to_int32 header.screen_device_handle →
      ∀ (i id : Nat), get_object c header.screen_device_handle = some i →
        c.objects[i]? = some ⟨id, client_obj_kind.screen_device⟩ →
        (window_at (create_window_group c header uninit_priority uninit_id).2
            c.objects.length).map (fun w => w.dvc) = some (some i)) := by
  refine ⟨(create_window_group_spec c header uninit_priority uninit_id).2, ?_, ?_⟩
  · intro hle
    rw [create_window_group_new_window]
    simp [hle]
  · intro hpos i id hget hobj
    rw [create_window_group_new_window]
    have hnot : ¬ to_int32 header.screen_device_handle ≤ 0 := by omega
    simp [hnot, to_int32_pos hh hpos, hget, cast_screen_device, hobj]

theorem create_window_group_device_witness :
    ((create_window_group
        (create_screen_device (create_screen_device (window_server_client_new 7 0 0)).2).2
        ⟨1, true, 0, 0x40000003⟩ 0 0).2.objects.length = 3 + 1 ∧
    (to_int32 0x40000003 ≤ 0 →
      (window_at (create_window_group
          (create_screen_device (create_screen_device (window_server_client_new 7 0 0)).2).2
          ⟨1, true, 0, 0x40000003⟩ 0 0).2 3).map (fun w => w.dvc) = some (some 1)) ∧
    (0 < to_int32 0x40000003 →
      ∀ (i id : Nat),
        get_object
          (create_screen_device (create_screen_device (window_server_client_new 7 0 0)).2).2
          0x40000003 = some i →
        (create_screen_device
          (create_screen_device (window_server_client_new 7 0 0)).2).2.objects[i]? =
            some ⟨id, client_obj_kind.screen_device⟩ →
        (window_at (create_window_group
          (create_screen_device (create_screen_device (window_server_client_new 7 0 0)).2).2
          ⟨1, true, 0, 0x40000003⟩ 0 0).2 3).map (fun w => w.dvc) = some (some i))) ∧
    0 < to_int32 0x40000003 ∧
    get_object
      (create_screen_device (create_screen_device (window_server_client_new 7 0 0)).2).2
      0x40000003 = some 2 ∧
    (create_screen_device
      (create_screen_device (window_server_client_new 7 0 0)).2).2.objects[2]? =
        some ⟨0x40000003, client_obj_kind.screen_device⟩ :=
  ⟨create_window_group_device
    (create_screen_device (create_screen_device (window_server_client_new 7 0 0)).2).2
    ⟨1, true, 0, 0x40000003⟩ 0 0 (by decide), by decide, by decide, by decide⟩

/-- Claim C23. A client makes a window group and gets its handle `base + 2`;
the group is a child of the root, and `base + 2` is the `id` that `add_object`
gave it.  A second CreateWindowGroup with `parent_id = base + 2` does not make
the new group a child of the first: `find_window_obj` compares `parent_id` with
the member `id` that `window` declares, which hides the `id` that `add_object`
sets and is never set (here 0), finds no window, and the new group becomes a
child of the root. -/
theorem create_window_group_parent_not_found :
    (create_window_group (window_server_client_new 7 0 0) ⟨1, true, 0, 0⟩ 0 0).1 =
      base_handle + 2 ∧
    (create_window_group
      (create_window_group (window_server_client_new 7 0 0) ⟨1, true, 0, 0⟩ 0 0).2
      ⟨1, true, base_handle + 2, 0⟩ 0 0).2 =
      window_server_client.mk 7
        [⟨base_handle + 1, client_obj_kind.window
            { childs := [1, 2], dvc := none, parent := none, priority := 0, id := 0,
              type := window_type.normal }⟩,
          ⟨base_handle + 2, client_obj_kind.window
            { childs := [], dvc := none, parent := some 0, priority := 0, id := 0,
              type := window_type.group }⟩,
          ⟨base_handle + 3, client_obj_kind.window
            { childs := [], dvc := none, parent := some 0, priority := 0, id := 0,
              type := window_type.group }⟩]
        none (some 0) := by
  decide


/-! ## Object-level commands and unhandled opcodes -/

/-- For a flag of one bit, `function & ~flag` is `function` with that bit
cleared. -/
theorem and_not_testBit (function k i : Nat) (hk : k < 32) :
    (and_not function (2 ^ k)).testBit i =
      (decide (i ≠ k) && (to_uint32 function).testBit i) := by
  have hflag : to_uint32 (2 ^ k) = 2 ^ k :=
    Nat.mod_eq_of_lt (Nat.pow_lt_pow_right (by decide) hk)
  have hmask : (0xFFFFFFFF : Nat) = 2 ^ 32 - 1 := by norm_num
  rw [and_not, hflag, Nat.testBit_and, Nat.testBit_xor, hmask, Nat.testBit_two_pow_sub_one,
    Nat.testBit_two_pow]
  by_cases hi : i < 32
  · by_cases hik : k = i
    · subst hik; simp [hi]
    · have : i ≠ k := fun h => hik h.symm
      simp [hi, hik, this]
  · have hhigh : (to_uint32 function).testBit i = false := by
      rw [to_uint32, Nat.testBit_mod_two_pow]
      simp [hi]
    simp [hhigh]

/-- Claim C25. The function `on_unhandled_opcode` completes the request with
status 0 exactly when the function code has the Asynchronous flag bit set and
the code with that bit cleared is RedrawReady; for every other function code,
with or without the flag, it completes no status; it never changes the state
of the server.  The code with the flag cleared is `function & ~flag`, which for
a flag of one bit is the function code without that bit. -/
theorem on_unhandled_opcode_completes_iff (ops : ws_opcodes) (server : window_server)
    (ctx : ipc_context) :
    (on_unhandled_opcode ops server ctx).1 = server ∧
    ((to_uint32 ctx.function &&& to_uint32 ops.EWservMessAsynchronousService ≠ 0 ∧
        and_not ctx.function ops.EWservMessAsynchronousService = ops.EWsClOpRedrawReady) →
      (on_unhandled_opcode ops server ctx).2 =
        { ctx with request_status := ctx.request_status ++ [0] }) ∧
    (¬ (to_uint32 ctx.function &&& to_uint32 ops.EWservMessAsynchronousService ≠ 0 ∧
        and_not ctx.function ops.EWservMessAsynchronousService = ops.EWsClOpRedrawReady) →
      (on_unhandled_opcode ops server ctx).2 = ctx) ∧
    ((on_unhandled_opcode ops server ctx).2.request_status = ctx.request_status ++ [0] ↔
      (to_uint32 ctx.function &&& to_uint32 ops.EWservMessAsynchronousService ≠ 0 ∧
        and_not ctx.function ops.EWservMessAsynchronousService = ops.EWsClOpRedrawReady)) ∧
    (∀ k i : Nat, k < 32 → ops.EWservMessAsynchronousService = 2 ^ k →
      (and_not ctx.function ops.EWservMessAsynchronousService).testBit i =
        (decide (i ≠ k) && (to_uint32 ctx.function).testBit i)) := by
  by_cases h1 : to_uint32 ctx.function &&& to_uint32 ops.EWservMessAsynchronousService ≠ 0
  · by_cases h2 : and_not ctx.function ops.EWservMessAsynchronousService =
        ops.EWsClOpRedrawReady
    · refine ⟨?_, ?_, ?_, ?_, ?_⟩
      · simp [on_unhandled_opcode, h1, h2]
      · intro _
        simp [on_unhandled_opcode, h1, h2, ipc_context.set_request_status, KErrNone]
      · intro hn; exact absurd ⟨h1, h2⟩ hn
      · simp [on_unhandled_opcode, h1, h2, ipc_context.set_request_status, KErrNone]
      · intro k i hk hflag; rw [hflag]; exact and_not_testBit _ k i hk
    · refine ⟨?_, ?_, ?_, ?_, ?_⟩
      · simp [on_unhandled_opcode, h1, h2]
      · intro h; exact absurd h.2 h2
      · intro _; simp [on_unhandled_opcode, h1, h2]
      · simp [on_unhandled_opcode, h1, h2]
      · intro k i hk hflag; rw [hflag]; exact and_not_testBit _ k i hk
  · refine ⟨?_, ?_, ?_, ?_, ?_⟩
    · simp [on_unhandled_opcode, h1]
    · intro h; exact absurd h.1 h1
    · intro _; simp [on_unhandled_opcode, h1]
    · simp [on_unhandled_opcode, h1]
    · intro k i hk hflag; rw [hflag]; exact and_not_testBit _ k i hk

/-- Claim C26. For every driver screen size `(w, h)`, the screen-device command
TwipsSize writes `(15 * w, 15 * h)` to the reply slot and PixelSize writes
`(w, h)`, each completing the request with status 0; every other screen-device
opcode writes nothing and completes nothing.  The two opcodes are different
numbers, as the labels of one `switch` are. -/
theorem screen_device_execute_command_sizes (ops : ws_opcodes) (w h : Int)
    (ctx : ipc_context) (cmd : ws_cmd)
    (hne : ops.EWsSdOpPixelSize ≠ ops.EWsSdOpTwipsSize) :
    (cmd.header.op = ops.EWsSdOpTwipsSize →
      screen_device_execute_command ops (w, h) ctx cmd =
        { ctx with written := ctx.written ++ [(reply_slot, (15 * w, 15 * h))],
                   request_status := ctx.request_status ++ [0] }) ∧
    (cmd.header.op = ops.EWsSdOpPixelSize →
      screen_device_execute_command ops (w, h) ctx cmd =
        { ctx with written := ctx.written ++ [(reply_slot, (w, h))],
                   request_status := ctx.request_status ++ [0] }) ∧
    (cmd.header.op ≠ ops.EWsSdOpTwipsSize → cmd.header.op ≠ ops.EWsSdOpPixelSize →
      screen_device_execute_command ops (w, h) ctx cmd = ctx) := by
  refine ⟨?_, ?_, ?_⟩
  · intro hop
    have hnp : cmd.header.op ≠ ops.EWsSdOpPixelSize := by rw [hop]; exact fun e => hne e.symm
    simp [screen_device_execute_command, hop, ipc_context.write_arg_pkg,
      ipc_context.set_request_status, vec2_mul, Int.mul_comm, hne.symm]
  · intro hop
    simp [screen_device_execute_command, hop, ipc_context.write_arg_pkg,
      ipc_context.set_request_status]
  · intro h1 h2
    simp [screen_device_execute_command, h1, h2]


theorem screen_device_execute_command_sizes_witness :
    screen_device_execute_command (ws_opcodes.mk 0 1 2 3 4 5 6 7 8 9 10 0x2000000) (176, 208)
        ⟨0, none, [], []⟩ ⟨⟨9, 0⟩, 0x40000002, 8⟩ =
      ⟨0, none, [0], [(reply_slot, (2640, 3120))]⟩ ∧
    screen_device_execute_command (ws_opcodes.mk 0 1 2 3 4 5 6 7 8 9 10 0x2000000) (176, 208)
        ⟨0, none, [], []⟩ ⟨⟨8, 0⟩, 0x40000002, 8⟩ =
      ⟨0, none, [0], [(reply_slot, (176, 208))]⟩ :=
  ⟨(screen_device_execute_command_sizes (ws_opcodes.mk 0 1 2 3 4 5 6 7 8 9 10 0x2000000)
      176 208 ⟨0, none, [], []⟩ ⟨⟨9, 0⟩, 0x40000002, 8⟩ (by decide)).1 rfl,
    (screen_device_execute_command_sizes (ws_opcodes.mk 0 1 2 3 4 5 6 7 8 9 10 0x2000000)
      176 208 ⟨0, none, [], []⟩ ⟨⟨8, 0⟩, 0x40000002, 8⟩ (by decide)).2.1 rfl⟩

/-! ## Which object executes a command -/

end eka2l1.epoc

namespace eka2l1

/-! ## The configuration and the main loop of the system -/

/-- Claim C27. The file `coreconfig.yml` holds `log_code: true` and then an
entry `log_ipc` whose value is no boolean: the conversion of that value throws
after `log_code` has been read, the handler runs, and afterwards
`get_bool_config("log_code")` returns `true`, not the default `false`, because
`emplace` leaves a key that the map already holds as it is.  When the failure
comes before anything is read, every one of the eight names gives `false`. -/
theorem load_configs_keeps_value_read_before_failure :
    (load_entries (σ := Unit) ⟨(), false, false, [], [], []⟩
      [⟨some "log_code", ⟨some true, []⟩⟩, ⟨some "log_ipc", ⟨none, []⟩⟩]).2 = true ∧
    ((system_impl.load_configs (σ := Unit) ⟨(), false, false, [], [], []⟩
      (some [⟨some "log_code", ⟨some true, []⟩⟩, ⟨some "log_ipc", ⟨none, []⟩⟩])).get_bool_config
        "log_code").1 = true ∧
    ∀ name ∈ ["log_code", "log_passed", "log_write", "log_read", "log_exports",
        "log_svc_passed", "enable_breakpoint_script", "log_ipc"],
      ((system_impl.load_configs (σ := Unit) ⟨(), false, false, [], [], []⟩
        none).get_bool_config name).1 = false := by
  decide

/-- Claim C28. The function `loop` returns only 0 or 1.  When the debugger
holds the cpu (the gdb server is enabled, the halt flag is set and the step
flag is not) it returns 1 at once.  In every other case it returns 0 exactly
when the kernel reports `should_terminate()` after the timing and cpu step of
that call, and 1 otherwise.  Whenever it returns 0, `should_exit()` is true
afterwards. -/
theorem loop_returns_zero_or_one {σ : Type} (env : loop_parts σ) (enable_scripting : Bool)
    (s : system_impl σ) :
    ((s.loop env enable_scripting).1 = 0 ∨ (s.loop env enable_scripting).1 = 1) ∧
    ((loop_debug env s).2 = none ↔
      (env.is_server_enabled s.parts = true ∧
        env.get_cpu_halt_flag (env.handle_packet s.parts) = true ∧
        env.get_cpu_step_flag (env.handle_packet s.parts) = false)) ∧
    ((loop_debug env s).2 = none → (s.loop env enable_scripting).1 = 1) ∧
    (∀ should_step, (loop_debug env s).2 = some should_step →
      ((s.loop env enable_scripting).1 = 0 ↔
        env.should_terminate (loop_step env (loop_debug env s).1 should_step).parts = true)) ∧
    ((s.loop env enable_scripting).1 = 0 → (s.loop env enable_scripting).2.should_exit = true) := by
  have hfin : ∀ t : system_impl σ,
      ((loop_finish env enable_scripting t).1 = 0 ∨ (loop_finish env enable_scripting t).1 = 1) ∧
      ((loop_finish env enable_scripting t).1 = 0 ↔ env.should_terminate t.parts = true) ∧
      ((loop_finish env enable_scripting t).1 = 0 →
        (loop_finish env enable_scripting t).2.should_exit = true) := by
    intro t
    unfold loop_finish
    cases h : env.should_terminate t.parts <;> simp [system_impl.should_exit]
  have hdbg : (loop_debug env s).2 = none ↔
      (env.is_server_enabled s.parts = true ∧
        env.get_cpu_halt_flag (env.handle_packet s.parts) = true ∧
        env.get_cpu_step_flag (env.handle_packet s.parts) = false) := by
    cases h1 : env.is_server_enabled s.parts <;>
      cases h2 : env.get_cpu_halt_flag (env.handle_packet s.parts) <;>
      cases h3 : env.get_cpu_step_flag (env.handle_packet s.parts) <;>
      simp [loop_debug, h1, h2, h3]
  have hloop : ∀ should_step, (loop_debug env s).2 = some should_step →
      s.loop env enable_scripting =
        loop_finish env enable_scripting (loop_step env (loop_debug env s).1 should_step) := by
    intro should_step h
    unfold system_impl.loop
    generalize loop_debug env s = d at h ⊢
    obtain ⟨d1, d2⟩ := d
    simp only at h
    subst h
    rfl
  have hearly : (loop_debug env s).2 = none →
      s.loop env enable_scripting = (1, (loop_debug env s).1) := by
    intro h
    unfold system_impl.loop
    generalize loop_debug env s = d at h ⊢
    obtain ⟨d1, d2⟩ := d
    simp only at h
    subst h
    rfl
  refine ⟨?_, hdbg, ?_, ?_, ?_⟩
  · cases hd : (loop_debug env s).2 with
    | none => right; rw [hearly hd]
    | some should_step => rw [hloop should_step hd]; exact (hfin _).1
  · intro h; rw [hearly h]
  · intro should_step h; rw [hloop should_step h]; exact (hfin _).2.1
  · cases hd : (loop_debug env s).2 with
    | none => rw [hearly hd]; intro h; exact absurd h (show ¬ (1 : Int) = 0 by decide)
    | some should_step => rw [hloop should_step hd]; exact (hfin _).2.2

end eka2l1
